import Mathlib

/-!
# Custom Tag Manager: the container script

A shallow embedding of `src/container.js`, the script that loads a container
configuration, evaluates triggers and executes tags on the visited page.

Modelling choices, each read off the source:

* JavaScript values are `JSVal`; a plain object is a `Record` (its own
  properties, read with `Record.get`); what can sit in `window.dataLayer` is an
  `Item`.  Numbers are the integer-valued ones.  Members inherited from the
  built-in prototypes (`toString`, `constructor`, ...) are outside the model.
* The host page is an `Env`: location, title, referrer, ready state, viewport,
  and three oracles for what the browser does (regular expressions, element
  lookup, and the outcome of a payload).
* Engine state is `State`: `loaded`, `config`, `executedTags`, `dataLayer` as in
  the source, the click listeners bound on the document, and a chronological
  `trace` of what the engine did.
* A statement ends in one of three ways (`Res`): normally, with an exception, or
  by using up the recursion budget of nested passes.  Each carries the state
  reached.
-/

namespace CTM

/-! ## Values -/

/-- A JavaScript value. An object is known by its identity and by the text
`String(value)` yields. -/
inductive JSVal where
  | undefined
  | null
  | bool (b : Bool)
  | num (n : Int)
  | str (s : String)
  | obj (id : Nat) (text : String)
deriving DecidableEq, Repr

/-- Own properties of a plain object; the first binding of a key is the live one. -/
abbrev Record := List (String × JSVal)

/-- The read `record[key]`: `undefined` when the key is absent. -/
def Record.get (r : Record) (key : String) : JSVal :=
  (r.lookup key).getD JSVal.undefined

/-- The object `{ ...record, key: value }`. -/
def Record.set (r : Record) (key : String) (value : JSVal) : Record :=
  (key, value) :: r.filter (fun kv => kv.1 != key)

/-- What can be pushed to `window.dataLayer`. -/
inductive Item where
  | undefined
  | null
  | bool (b : Bool)
  | num (n : Int)
  | str (s : String)
  | record (fields : Record)
deriving DecidableEq, Repr

/-- A thrown value: an `Error` object with its name and message, or any other value. -/
inductive Thrown where
  | error (name message : String)
  | value (v : JSVal)
deriving DecidableEq, Repr

deriving instance DecidableEq for Except

/-- The `TypeError` of reading a property of `null` or `undefined`. -/
def typeError : Thrown := Thrown.error "TypeError" "Cannot read properties of null or undefined"

/-- The `SyntaxError` of `new RegExp` on a pattern that does not compile. -/
def regexSyntaxError : Thrown := Thrown.error "SyntaxError" "Invalid regular expression"

/-- The `SyntaxError` of a selector the document cannot parse. -/
def selectorSyntaxError : Thrown := Thrown.error "SyntaxError" "Invalid selector"

/-- JavaScript `ToBoolean`. -/
def JSVal.truthy : JSVal → Bool
  | JSVal.undefined => false
  | JSVal.null => false
  | JSVal.bool b => b
  | JSVal.num n => n != 0
  | JSVal.str s => s != ""
  | JSVal.obj _ _ => true

/-- JavaScript `ToString`. -/
def JSVal.toStr : JSVal → String
  | JSVal.undefined => "undefined"
  | JSVal.null => "null"
  | JSVal.bool true => "true"
  | JSVal.bool false => "false"
  | JSVal.num n => toString n
  | JSVal.str s => s
  | JSVal.obj _ text => text

/-- JavaScript `ToBoolean` on a pushed item. -/
def Item.truthy : Item → Bool
  | Item.undefined => false
  | Item.null => false
  | Item.bool b => b
  | Item.num n => n != 0
  | Item.str s => s != ""
  | Item.record _ => true

/-- The read `item[key]`: a `TypeError` on `null` and `undefined`, the own
property on a record, `undefined` on the other primitives. -/
def Item.get : Item → String → Except Thrown JSVal
  | Item.undefined, _ => Except.error typeError
  | Item.null, _ => Except.error typeError
  | Item.record fields, key => Except.ok (Record.get fields key)
  | _, _ => Except.ok JSVal.undefined

/-- The own enumerable properties copied by `{ ...item }`. -/
def Item.spread : Item → Record
  | Item.record fields => fields
  | Item.str s => s.data.enum.map (fun ic => (toString ic.1, JSVal.str (String.singleton ic.2)))
  | _ => []

/-- The property `error.message` read in a `catch` block. -/
def Thrown.message : Thrown → Except Thrown JSVal
  | Thrown.error _ message => Except.ok (JSVal.str message)
  | Thrown.value JSVal.undefined => Except.error typeError
  | Thrown.value JSVal.null => Except.error typeError
  | Thrown.value _ => Except.ok JSVal.undefined

/-! ## The host page -/

/-- The value of `document.readyState`. -/
inductive ReadyState where
  | loading
  | interactive
  | complete
deriving DecidableEq, Repr

/-- The box returned by `getBoundingClientRect`. -/
structure Rect where
  top : Rat
  left : Rat
  bottom : Rat
  right : Rat
deriving DecidableEq

/-- Result of `document.querySelector`. -/
inductive Query where
  | invalid
  | missing
  | found (rect : Rect)
deriving DecidableEq

/-- Attributes of the page that the script reads. -/
structure Page where
  href : String
  hostname : String
  pathname : String
  title : String
  referrer : String
  readyState : ReadyState
  innerHeight : Int
  innerWidth : Int
  clientHeight : Int
  clientWidth : Int
deriving DecidableEq

/-! ## Variable interpolation -/

/-- The character that opens a placeholder. -/
def openBrace : Char := Char.ofNat 123

/-- The character that closes a placeholder. -/
def closeBrace : Char := Char.ofNat 125

/-- White space and line terminators removed by `String.prototype.trim`. -/
def isTrimmed (c : Char) : Bool :=
  let n := c.toNat
  (9 ≤ n && n ≤ 13) || n == 32 || n == 160 || n == 5760 || (8192 ≤ n && n ≤ 8202)
    || n == 8232 || n == 8233 || n == 8239 || n == 8287 || n == 12288 || n == 65279

/-- The method `trim` on a list of characters. -/
def trimChars (cs : List Char) : List Char :=
  ((cs.dropWhile isTrimmed).reverse.dropWhile isTrimmed).reverse

/-- The method `String.prototype.trim`. -/
def trim (s : String) : String := String.mk (trimChars s.data)

/-- The loop of `getDataLayerValue`, over the items from the most recent one
backward. -/
def getDataLayerValueFrom : List Item → String → Except Thrown JSVal
  | [], _ => Except.ok JSVal.undefined
  | item :: older, key =>
    match item.get key with
    | Except.error e => Except.error e
    | Except.ok v => if v ≠ JSVal.undefined then Except.ok v else getDataLayerValueFrom older key

/-- The function `getDataLayerValue(key)`; `dataLayer` is in push order. -/
def getDataLayerValue (dataLayer : List Item) (key : String) : Except Thrown JSVal :=
  getDataLayerValueFrom dataLayer.reverse key

/-- The callback that `replaceVariables` hands to `String.prototype.replace`:
`matched` is the whole placeholder, `captured` the captured group. -/
def resolveVariable (page : Page) (dataLayer : List Item) (eventData : Record)
    (matched captured : String) : Except Thrown JSVal :=
  let varName := trim captured
  if eventData.get varName ≠ JSVal.undefined then Except.ok (eventData.get varName)
  else if varName = "page.url" then Except.ok (JSVal.str page.href)
  else if varName = "page.hostname" then Except.ok (JSVal.str page.hostname)
  else if varName = "page.path" then Except.ok (JSVal.str page.pathname)
  else if varName = "page.title" then Except.ok (JSVal.str page.title)
  else if varName = "page.referrer" then Except.ok (JSVal.str page.referrer)
  else
    match getDataLayerValue dataLayer varName with
    | Except.error e => Except.error e
    | Except.ok dlValue =>
      if dlValue ≠ JSVal.undefined then Except.ok dlValue else Except.ok (JSVal.str matched)

/-- A piece of a template: one character copied as is, or one match of the
placeholder pattern with its captured group. -/
inductive Segment where
  | text (c : Char)
  | hole (captured : List Char)
deriving DecidableEq, Repr

/-- The source text of a segment. -/
def Segment.source : Segment → List Char
  | Segment.text c => [c]
  | Segment.hole captured => openBrace :: openBrace :: (captured ++ [closeBrace, closeBrace])

/-- One attempt of the pattern `\{\{([^}]+)\}\}` at the head of the input: the
captured group and the input after the match. -/
def matchAt (cs : List Char) : Option (List Char × List Char) :=
  match cs with
  | c1 :: c2 :: rest =>
    if c1 = openBrace ∧ c2 = openBrace then
      match rest.span (fun c => c != closeBrace) with
      | (g :: gs, d1 :: d2 :: after) =>
        if d1 = closeBrace ∧ d2 = closeBrace then some (g :: gs, after) else none
      | _ => none
    else none
  | _ => none

/-- All matches of the global pattern, left to right, with the text between them. -/
def scanFuel : Nat → List Char → List Segment
  | 0, _ => []
  | _ + 1, [] => []
  | fuel + 1, c :: cs =>
    match matchAt (c :: cs) with
    | some (captured, after) => Segment.hole captured :: scanFuel fuel after
    | none => Segment.text c :: scanFuel fuel cs

/-- The segments of a template; its length bounds the number of steps. -/
def scan (cs : List Char) : List Segment := scanFuel cs.length cs

/-- What one segment contributes to the result of `replace`. -/
def renderSegment (page : Page) (dataLayer : List Item) (eventData : Record) :
    Segment → Except Thrown (List Char)
  | Segment.text c => Except.ok [c]
  | Segment.hole captured =>
    match resolveVariable page dataLayer eventData
        (String.mk (Segment.hole captured).source) (String.mk captured) with
    | Except.error e => Except.error e
    | Except.ok v => Except.ok v.toStr.data

/-- The result of `replace` over a list of segments, left to right. -/
def renderAll (page : Page) (dataLayer : List Item) (eventData : Record) :
    List Segment → Except Thrown (List Char)
  | [] => Except.ok []
  | seg :: rest =>
    match renderSegment page dataLayer eventData seg with
    | Except.error e => Except.error e
    | Except.ok out =>
      match renderAll page dataLayer eventData rest with
      | Except.error e => Except.error e
      | Except.ok more => Except.ok (out ++ more)

/-- The function `replaceVariables(str, eventData)`: a value that is not a
string is returned as it is. -/
def replaceVariables (page : Page) (dataLayer : List Item) (eventData : Record) :
    JSVal → Except Thrown JSVal
  | JSVal.str s =>
    match renderAll page dataLayer eventData (scan s.data) with
    | Except.error e => Except.error e
    | Except.ok out => Except.ok (JSVal.str (String.mk out))
  | v => Except.ok v

/-! ## Configuration and engine state -/

/-- A trigger of the configuration document. -/
structure Trigger where
  type : String
  eventName : JSVal
  url : String
  matchType : String
  selector : String
deriving DecidableEq, Repr

/-- A tag of the configuration document; `onSuccess` and `onError` hold the
truthiness of the fields of those names. -/
structure Tag where
  id : String
  name : String
  type : String
  html : JSVal
  src : JSVal
  code : JSVal
  attributes : Option Record
  async : JSVal
  fireOnce : Bool
  enabled : Bool
  onSuccess : Bool
  onError : Bool
  triggers : List Trigger
deriving DecidableEq, Repr

/-- The configuration document; `tags` is `none` when the field is missing. -/
structure Config where
  containerId : String
  version : Int
  tags : Option (List Tag)
deriving DecidableEq, Repr

/-- The script element built by `executeScriptTag`. -/
structure ScriptElement where
  src : Option JSVal
  async : Option Bool
  textContent : Option JSVal
  attributes : List (String × JSVal)
deriving DecidableEq, Repr

/-- What a type handler asks of the browser, with the interpolated payload. -/
inductive Effect where
  | html (markup : JSVal)
  | script (element : ScriptElement)
  | image (src : JSVal)
  | custom (code : JSVal) (data : Record)
deriving DecidableEq, Repr

/-- One entry of the trace: a pass over the tags begins or ends, `executeTag`
is entered, a type handler has run (and returned with its effect, or thrown), an
error was logged by the `catch` block of `executeTag`. -/
inductive Event where
  | passBegin (eventData : Record)
  | passEnd
  | call (tag : Tag) (eventData : Record)
  | handler (tag : Tag) (eventData : Record) (result : Except Thrown Effect)
  | errorLogged (tagName : String) (error : Thrown)
deriving DecidableEq, Repr

/-- A click listener bound on the document by `setupClickListeners`. -/
structure Listener where
  tag : Tag
  selector : String
deriving DecidableEq, Repr

/-- The object `state` of the script, the click listeners bound so far, and the
trace. `executedTags` is a set, kept without repetition in insertion order. -/
structure State where
  loaded : Bool
  config : Option Config
  executedTags : List String
  dataLayer : List Item
  listeners : List Listener
  trace : List Event
deriving DecidableEq, Repr

/-- The state when the script starts. -/
def State.initial : State :=
  { loaded := false, config := none, executedTags := [], dataLayer := [], listeners := [],
    trace := [] }

/-- Append one entry to the trace. -/
def State.log (s : State) (e : Event) : State :=
  { s with trace := s.trace ++ [e] }

/-- The call `state.executedTags.add(id)`. -/
def State.addExecuted (s : State) (id : String) : State :=
  { s with executedTags := if id ∈ s.executedTags then s.executedTags else s.executedTags ++ [id] }

/-- The host page during one event: its attributes, and what the browser
answers. `regexTest pattern url` is `none` when the pattern does not compile;
`perform` is `some e` when carrying out an effect throws `e`. -/
structure Env where
  page : Page
  regexTest : String → String → Option Bool
  querySelector : State → String → Query
  perform : State → Effect → Option Thrown

/-- How a statement ends: normally, by throwing, or with the budget of nested
passes used up. -/
inductive Res where
  | done (s : State)
  | threw (e : Thrown) (s : State)
  | fuelOut (s : State)
deriving DecidableEq, Repr

/-- The state in which a statement ended. -/
def Res.state : Res → State
  | Res.done s => s
  | Res.threw _ s => s
  | Res.fuelOut s => s

/-! ## Trigger evaluation -/

/-- The operator `===`. -/
def JSVal.strictEq : JSVal → JSVal → Bool
  | JSVal.obj i _, JSVal.obj j _ => i == j
  | a, b => a == b

/-- The method `String.prototype.includes`. -/
def includes (hay needle : String) : Bool :=
  hay.data.tails.any (fun t => needle.data.isPrefixOf t)

/-- The function `isElementVisible(element)`, on the element's bounding box. -/
def isElementVisible (page : Page) (rect : Rect) : Bool :=
  decide (rect.top ≥ 0) && decide (rect.left ≥ 0) &&
    decide (rect.bottom ≤ ((if page.innerHeight ≠ 0 then page.innerHeight else page.clientHeight : Int) : Rat)) &&
    decide (rect.right ≤ ((if page.innerWidth ≠ 0 then page.innerWidth else page.clientWidth : Int) : Rat))

/-- The function `checkTrigger(trigger, eventData)`; `none` is a trigger that is
`null` or `undefined`. -/
def checkTrigger (env : Env) (s : State) (trigger : Option Trigger) (eventData : Record) :
    Except Thrown JSVal :=
  match trigger with
  | none => Except.ok (JSVal.bool true)
  | some trigger =>
    if trigger.type = "pageview" then Except.ok (JSVal.bool true)
    else if trigger.type = "dom_ready" then
      Except.ok (JSVal.bool (env.page.readyState = ReadyState.complete
        || env.page.readyState = ReadyState.interactive))
    else if trigger.type = "window_load" then
      Except.ok (JSVal.bool (env.page.readyState = ReadyState.complete))
    else if trigger.type = "custom_event" then
      Except.ok (JSVal.bool ((eventData.get "event").strictEq trigger.eventName))
    else if trigger.type = "url_match" then
      if trigger.matchType = "equals" then
        Except.ok (JSVal.bool (env.page.href = trigger.url))
      else if trigger.matchType = "contains" then
        Except.ok (JSVal.bool (includes env.page.href trigger.url))
      else if trigger.matchType = "regex" then
        match env.regexTest trigger.url env.page.href with
        | none => Except.error regexSyntaxError
        | some b => Except.ok (JSVal.bool b)
      else Except.ok (JSVal.bool false)
    else if trigger.type = "element_visibility" then
      match env.querySelector s trigger.selector with
      | Query.invalid => Except.error selectorSyntaxError
      | Query.missing => Except.ok JSVal.null
      | Query.found rect => Except.ok (JSVal.bool (isElementVisible env.page rect))
    else if trigger.type = "click" then Except.ok (JSVal.bool false)
    else Except.ok (JSVal.bool false)

/-- The call `tag.triggers.every(trigger => checkTrigger(trigger, eventData))`:
it stops at the first trigger that is not truthy. -/
def everyTrigger (env : Env) (s : State) (eventData : Record) :
    List Trigger → Except Thrown Bool
  | [] => Except.ok true
  | trigger :: rest =>
    match checkTrigger env s (some trigger) eventData with
    | Except.error e => Except.error e
    | Except.ok v => if v.truthy then everyTrigger env s eventData rest else Except.ok false

/-! ## Tag execution -/

/-- Hand an effect to the browser, on a page whose payloads do not enter the
engine: the effect is carried out, or it throws, and the state of the engine is
as it was. A payload that calls `window.dataLayer.push` or `ctm.trigger`, or
dispatches an event the engine listens to, while it runs is run by
`Payload.run`, in `executeTagLive`. -/
def performEffect (env : Env) (s : State) (effect : Effect) : Except Thrown Effect :=
  match env.perform s effect with
  | some e => Except.error e
  | none => Except.ok effect

/-- The function `executeHtmlTag(tag, eventData)`. -/
def executeHtmlTag (env : Env) (s : State) (tag : Tag) (eventData : Record) :
    Except Thrown Effect :=
  match replaceVariables env.page s.dataLayer eventData tag.html with
  | Except.error e => Except.error e
  | Except.ok html => performEffect env s (Effect.html html)

/-- The keys of `Object.keys(record)`. -/
def Record.keys (r : Record) : List String := (r.map Prod.fst).eraseDups

/-- The loop over `Object.keys(tag.attributes)` of `executeScriptTag`. -/
def replaceAttributes (env : Env) (s : State) (eventData : Record) (attributes : Record) :
    List String → Except Thrown (List (String × JSVal))
  | [] => Except.ok []
  | key :: rest =>
    match replaceVariables env.page s.dataLayer eventData (attributes.get key) with
    | Except.error e => Except.error e
    | Except.ok value =>
      match replaceAttributes env s eventData attributes rest with
      | Except.error e => Except.error e
      | Except.ok more => Except.ok ((key, value) :: more)

/-- The function `executeScriptTag(tag, eventData)`. -/
def executeScriptTag (env : Env) (s : State) (tag : Tag) (eventData : Record) :
    Except Thrown Effect :=
  let source : Except Thrown ScriptElement :=
    if tag.src.truthy then
      match replaceVariables env.page s.dataLayer eventData tag.src with
      | Except.error e => Except.error e
      | Except.ok src =>
        Except.ok { src := some src, async := some (tag.async != JSVal.bool false),
                    textContent := none, attributes := [] }
    else if tag.code.truthy then
      match replaceVariables env.page s.dataLayer eventData tag.code with
      | Except.error e => Except.error e
      | Except.ok code =>
        Except.ok { src := none, async := none, textContent := some code, attributes := [] }
    else Except.ok { src := none, async := none, textContent := none, attributes := [] }
  match source with
  | Except.error e => Except.error e
  | Except.ok element =>
    match tag.attributes with
    | none => performEffect env s (Effect.script element)
    | some attributes =>
      match replaceAttributes env s eventData attributes attributes.keys with
      | Except.error e => Except.error e
      | Except.ok attrs => performEffect env s (Effect.script { element with attributes := attrs })

/-- The function `executeImageTag(tag, eventData)`. -/
def executeImageTag (env : Env) (s : State) (tag : Tag) (eventData : Record) :
    Except Thrown Effect :=
  match replaceVariables env.page s.dataLayer eventData tag.src with
  | Except.error e => Except.error e
  | Except.ok src => performEffect env s (Effect.image src)

/-- The function `executeCustomTag(tag, eventData)`: the browser compiles the
interpolated code and calls it on the event data. -/
def executeCustomTag (env : Env) (s : State) (tag : Tag) (eventData : Record) :
    Except Thrown Effect :=
  match replaceVariables env.page s.dataLayer eventData tag.code with
  | Except.error e => Except.error e
  | Except.ok code => performEffect env s (Effect.custom code eventData)

/-- The `switch (tag.type)` of `executeTag`: the handler of a known type, or
`none` in the `default` branch. -/
def runHandler (env : Env) (s : State) (tag : Tag) (eventData : Record) :
    Option (Except Thrown Effect) :=
  if tag.type = "html" then some (executeHtmlTag env s tag eventData)
  else if tag.type = "script" then some (executeScriptTag env s tag eventData)
  else if tag.type = "image" then some (executeImageTag env s tag eventData)
  else if tag.type = "custom" then some (executeCustomTag env s tag eventData)
  else none

/-- The record pushed when `tag.onSuccess` is set. -/
def tagFiredItem (tag : Tag) : Item :=
  Item.record [("event", JSVal.str "ctm.tagFired"), ("tagId", JSVal.str tag.id),
    ("tagName", JSVal.str tag.name)]

/-- The record pushed when `tag.onError` is set. -/
def tagErrorItem (tag : Tag) (message : JSVal) : Item :=
  Item.record [("event", JSVal.str "ctm.tagError"), ("tagId", JSVal.str tag.id),
    ("tagName", JSVal.str tag.name), ("error", message)]

/-- The `catch (error)` block of `executeTag`; `push` is `window.dataLayer.push`. -/
def catchBlock (push : List Item → State → Res) (tag : Tag) (error : Thrown) (s : State) : Res :=
  let s1 := s.log (Event.errorLogged tag.name error)
  if tag.onError then
    match error.message with
    | Except.error e => Res.threw e s1
    | Except.ok message => push [tagErrorItem tag message] s1
  else Res.done s1

/-- The statements of the `try` block of `executeTag` that follow the `switch`:
the tag is recorded, and the success record is pushed when `tag.onSuccess` is
set; an exception out of that push is caught by the same `catch` block. -/
def afterSwitch (push : List Item → State → Res) (tag : Tag) (s : State) : Res :=
  let s2 := s.addExecuted tag.id
  if tag.onSuccess then
    match push [tagFiredItem tag] s2 with
    | Res.threw e s3 => catchBlock push tag e s3
    | r => r
  else Res.done s2

/-- The function `executeTag(tag, eventData)`; `push` is `window.dataLayer.push`. -/
def executeTag (env : Env) (push : List Item → State → Res) (tag : Tag) (eventData : Record)
    (s : State) : Res :=
  let s0 := s.log (Event.call tag eventData)
  if tag.fireOnce ∧ tag.id ∈ s0.executedTags then Res.done s0
  else
    match runHandler env s0 tag eventData with
    | some (Except.error e) =>
      catchBlock push tag e (s0.log (Event.handler tag eventData (Except.error e)))
    | some (Except.ok effect) =>
      afterSwitch push tag (s0.log (Event.handler tag eventData (Except.ok effect)))
    | none => afterSwitch push tag s0

/-! ## Passes over the tags -/

/-- The loop `state.config.tags.forEach(...)` of `processTags`. -/
def forEachTag (env : Env) (push : List Item → State → Res) (eventData : Record) :
    List Tag → State → Res
  | [], s => Res.done s
  | tag :: rest, s =>
    if tag.enabled = false then forEachTag env push eventData rest s
    else
      match everyTrigger env s eventData tag.triggers with
      | Except.error e => Res.threw e s
      | Except.ok false => forEachTag env push eventData rest s
      | Except.ok true =>
        match executeTag env push tag eventData s with
        | Res.done s1 => forEachTag env push eventData rest s1
        | r => r

/-- The body of `processTags(eventData)`; `push` is `window.dataLayer.push`. -/
def processTagsWith (env : Env) (push : List Item → State → Res) (eventData : Record)
    (s : State) : Res :=
  match s.config with
  | none => Res.done s
  | some config =>
    match config.tags with
    | none => Res.done s
    | some tags =>
      match forEachTag env push eventData tags (s.log (Event.passBegin eventData)) with
      | Res.done s1 => Res.done (s1.log Event.passEnd)
      | r => r

/-- The function `triggerEvent(eventName, eventData)`; `pass` is `processTags`. -/
def triggerEvent (pass : Record → State → Res) (eventName : JSVal) (eventData : Item)
    (s : State) : Res :=
  pass (Record.set eventData.spread "event" eventName) s

/-- The loop over `arguments` of the enhanced `window.dataLayer.push`. -/
def pushLoop (pass : Record → State → Res) : List Item → State → Res
  | [], s => Res.done s
  | item :: rest, s =>
    if item.truthy then
      match item.get "event" with
      | Except.error e => Res.threw e s
      | Except.ok event =>
        if event.truthy then
          match triggerEvent pass event item s with
          | Res.done s1 => pushLoop pass rest s1
          | r => r
        else pushLoop pass rest s
    else pushLoop pass rest s

/-- The enhanced `window.dataLayer.push`: the original `push` appends the
arguments, then each one that carries an event starts a pass. -/
def dataLayerPush (pass : Record → State → Res) (args : List Item) (s : State) : Res :=
  pushLoop pass args { s with dataLayer := s.dataLayer ++ args }

/-- The function `processTags(eventData)`. The budget counts the passes that
may be nested in one another through `window.dataLayer.push`. -/
def processTags (env : Env) : Nat → Record → State → Res
  | 0, _, s => Res.fuelOut s
  | fuel + 1, eventData, s =>
    processTagsWith env (dataLayerPush (processTags env fuel)) eventData s

/-- The value of `window.dataLayer.push` seen by a pass of the given budget. -/
def pushIn (env : Env) (fuel : Nat) : List Item → State → Res :=
  dataLayerPush (processTags env fuel)

/-! ## Clicks -/

/-- The element found by `closest`, as the listener reads it. -/
structure Element where
  id : Nat
  text : String
  textContent : JSVal
  href : JSVal
deriving DecidableEq, Repr

/-- Result of `e.target.closest(selector)`. -/
inductive Closest where
  | invalid
  | none
  | found (element : Element)
deriving DecidableEq, Repr

/-- A click event, known by what `e.target.closest` answers. -/
structure Click where
  closest : String → Closest

/-- The function `setupClickListeners()`. -/
def setupClickListeners (s : State) : State :=
  match s.config with
  | none => s
  | some config =>
    match config.tags with
    | none => s
    | some tags =>
      { s with listeners := s.listeners ++ tags.flatMap (fun tag =>
          (tag.triggers.filter (fun trigger => trigger.type = "click" ∧ trigger.selector ≠ "")).map
            (fun trigger => { tag := tag, selector := trigger.selector })) }

/-- The event data that a click listener builds from the matched element. -/
def clickData (target : Element) : Record :=
  [("event", JSVal.str "click"), ("element", JSVal.obj target.id target.text),
    ("clickText", target.textContent),
    ("clickUrl", if target.href.truthy then target.href else JSVal.str "")]

/-- The listener that `setupClickListeners` binds for one tag and trigger. -/
def clickListener (env : Env) (push : List Item → State → Res) (listener : Listener)
    (click : Click) (s : State) : Res :=
  match click.closest listener.selector with
  | Closest.invalid => Res.threw selectorSyntaxError s
  | Closest.none => Res.done s
  | Closest.found target => executeTag env push listener.tag (clickData target) s

/-- The browser dispatching one click to the listeners, in the order they were
bound; an exception out of one listener is reported and the next one runs. -/
def dispatchClick (env : Env) (push : List Item → State → Res) (click : Click) :
    List Listener → State → Res
  | [], s => Res.done s
  | listener :: rest, s =>
    match clickListener env push listener click s with
    | Res.fuelOut s1 => Res.fuelOut s1
    | r => dispatchClick env push click rest r.state

/-! ## Events of a page lifetime -/

/-- What can happen to the engine after the script has started. -/
inductive Action where
  | pass (eventData : Record)
  | push (args : List Item)
  | trigger (eventName : JSVal) (data : Item)
  | setupClicks
  | click (click : Click)

/-- One action, on the page as it is when the action happens. -/
def step (env : Env) (fuel : Nat) : Action → State → Res
  | Action.pass eventData, s => processTags env fuel eventData s
  | Action.push args, s => dataLayerPush (processTags env fuel) args s
  | Action.trigger eventName data, s => triggerEvent (processTags env fuel) eventName data s
  | Action.setupClicks, s => Res.done (setupClickListeners s)
  | Action.click click, s => dispatchClick env (pushIn env fuel) click s.listeners s

/-- A sequence of actions, each on its own page snapshot. An exception that
leaves one action is reported by the browser and the later actions still
happen. -/
def run (fuel : Nat) : List (Env × Action) → State → Res
  | [], s => Res.done s
  | (env, action) :: rest, s =>
    match step env fuel action s with
    | Res.fuelOut s1 => Res.fuelOut s1
    | r => run fuel rest r.state

/-! ## Vocabulary of the statements -/

/-- The names that `replaceVariables` resolves from the page. -/
def pageAttributeNames : List String :=
  ["page.url", "page.hostname", "page.path", "page.title", "page.referrer"]

/-- A name that the event data, the page attributes and every record of the
log leave undefined. -/
def Unmatched (eventData : Record) (log : List Record) (name : String) : Prop :=
  eventData.get name = JSVal.undefined ∧ name ∉ pageAttributeNames ∧
    ∀ r ∈ log, Record.get r name = JSVal.undefined

instance (eventData : Record) (log : List Record) (name : String) :
    Decidable (Unmatched eventData log name) := by
  unfold Unmatched
  exact inferInstance

/-- A segment that is plain text, or a placeholder whose trimmed name is unmatched. -/
def SegmentUnmatched (eventData : Record) (log : List Record) : Segment → Prop
  | Segment.text _ => True
  | Segment.hole captured => Unmatched eventData log (trim (String.mk captured))

instance (eventData : Record) (log : List Record) (seg : Segment) :
    Decidable (SegmentUnmatched eventData log seg) := by
  cases seg
  · exact isTrue trivial
  · unfold SegmentUnmatched
    exact inferInstance

/-- The state right after `loadConfig` has stored a configuration. -/
def State.loadedWith (config : Config) : State :=
  { State.initial with loaded := true, config := some config }

/-- The outcomes, in order, of the runs of the type handler of one tag:
`true` for a run that returned, `false` for one that threw. -/
def handlerResults (tag : Tag) : List Event → List Bool
  | [] => []
  | Event.handler t _ result :: rest =>
    if t = tag then
      (match result with
        | Except.ok _ => true
        | Except.error _ => false) :: handlerResults tag rest
    else handlerResults tag rest
  | _ :: rest => handlerResults tag rest

/-- The tags on which `executeTag` was entered, in order. -/
def calledTags : List Event → List Tag
  | [] => []
  | Event.call t _ :: rest => t :: calledTags rest
  | _ :: rest => calledTags rest

/-- Calls of `executeTag` on the given tags in order, up to the first call that
does not return normally. -/
def executeAll (env : Env) (push : List Item → State → Res) (eventData : Record) :
    List Tag → State → Res
  | [], s => Res.done s
  | tag :: rest, s =>
    match executeTag env push tag eventData s with
    | Res.done s1 => executeAll env push eventData rest s1
    | r => r

/-! ## Elementary state changes -/

/-- One elementary change of the engine state: a trace entry that is not a
handler run, an append to the data layer, a handler run that threw, a handler
run that returned (with the `add` that follows it), the `add` of the `default`
branch, a change of the bound listeners. A handler runs only on a tag that
passed the fire-once check of `executeTag`. -/
inductive Step : State → State → Prop where
  | log (s : State) (e : Event) (h : ∀ t d r, e ≠ Event.handler t d r) : Step s (s.log e)
  | data (s : State) (args : List Item) : Step s { s with dataLayer := s.dataLayer ++ args }
  | failed (s : State) (tag : Tag) (d : Record) (e : Thrown)
      (h : ¬ (tag.fireOnce = true ∧ tag.id ∈ s.executedTags)) :
      Step s (s.log (Event.handler tag d (Except.error e)))
  | fired (s : State) (tag : Tag) (d : Record) (effect : Effect)
      (h : ¬ (tag.fireOnce = true ∧ tag.id ∈ s.executedTags)) :
      Step s ((s.log (Event.handler tag d (Except.ok effect))).addExecuted tag.id)
  | added (s : State) (id : String) : Step s (s.addExecuted id)
  | listeners (s : State) (ls : List Listener) : Step s { s with listeners := ls }

/-- Zero or more elementary changes. -/
def Reach : State → State → Prop := Relation.ReflTransGen Step

/-- Every run of the handler of the tag before the last one threw, and as long
as the tag's id is not recorded every run threw. -/
def FireOnceInv (tag : Tag) (s : State) : Prop :=
  (tag.id ∉ s.executedTags → ∀ b ∈ handlerResults tag s.trace, b = false) ∧
    ∀ b ∈ (handlerResults tag s.trace).dropLast, b = false

/-! ## Sample page, configuration and events -/

/-- A page at `https://x.com/a`, fully loaded. -/
def samplePage : Page :=
  { href := "https://x.com/a", hostname := "x.com", pathname := "/a", title := "A",
    referrer := "", readyState := ReadyState.complete, innerHeight := 600, innerWidth := 800,
    clientHeight := 600, clientWidth := 800 }

/-- A browser, as far as the samples use one: the pattern `(` does not compile
and any other pattern is read as literal text; no element is found; the code
`throw null` throws `null`, the code `throw new Error(1)` throws an error with
message `1`, and every other payload is carried out. -/
def sampleEnv : Env where
  page := samplePage
  regexTest := fun pattern url => if pattern = "(" then none else some (includes url pattern)
  querySelector := fun _ _ => Query.missing
  perform := fun _ effect =>
    match effect with
    | Effect.custom (JSVal.str "throw null") _ => some (Thrown.value JSVal.null)
    | Effect.custom (JSVal.str "throw new Error(1)") _ => some (Thrown.error "Error" "1")
    | _ => none

/-- A trigger as the management API stores one created with only a type. -/
def sampleTrigger (type : String) : Trigger :=
  { type := type, eventName := JSVal.str "", url := "", matchType := "contains", selector := "" }

/-- A tag as the management API stores one created with a type and a code:
fire-once and enabled. -/
def sampleTag (id type code : String) (triggers : List Trigger) : Tag :=
  { id := id, name := id, type := type, html := JSVal.str "", src := JSVal.str "",
    code := JSVal.str code, attributes := some [], async := JSVal.undefined, fireOnce := true,
    enabled := true, onSuccess := false, onError := false, triggers := triggers }

/-- The event data of the pageview pass. -/
def pageviewData : Record := [("event", JSVal.str "pageview")]

/-- A fire-once custom tag on the pageview trigger whose code throws an error. -/
def throwingTag : Tag :=
  sampleTag "t1" "custom" "throw new Error(1)" [sampleTrigger "pageview"]

/-- A fire-once script tag on the pageview trigger. -/
def scriptTag : Tag := sampleTag "t2" "script" "var a = 1" [sampleTrigger "pageview"]

/-- A custom tag with `onError` set whose code throws `null`. -/
def nullThrowingTag : Tag :=
  { sampleTag "t3" "custom" "throw null" [sampleTrigger "pageview"] with onError := true }

/-- A tag of a type that `executeTag` does not know. -/
def videoTag : Tag := sampleTag "t4" "video" "" [sampleTrigger "pageview"]

/-- A click trigger on the selector `#buy`. -/
def buyClick : Trigger := { sampleTrigger "click" with selector := "#buy" }

/-- A disabled tag with a click trigger. -/
def disabledTag : Tag :=
  { sampleTag "t5" "script" "var b = 2" [buyClick] with enabled := false }

/-- A url-match trigger whose pattern `(` is not a regular expression. -/
def badRegex : Trigger :=
  { sampleTrigger "url_match" with url := "(", matchType := "regex" }

/-- A tag behind the invalid pattern. -/
def badRegexTag : Tag := sampleTag "t6" "script" "var c = 3" [badRegex]

/-- A tag with no trigger at all. -/
def bareTag : Tag := sampleTag "t7" "script" "var d = 4" []

/-- A click inside the element that matches `#buy`. -/
def buyClickEvent : Click where
  closest := fun selector =>
    if selector = "#buy" then
      Closest.found { id := 1, text := "[object HTMLAnchorElement]",
                      textContent := JSVal.str "Buy", href := JSVal.str "https://x.com/buy" }
    else Closest.none

/-- A configuration with the given tags. -/
def sampleConfig (tags : List Tag) : Config :=
  { containerId := "CTM-1", version := 1, tags := some tags }

/-- A tag on a custom event that the pageview pass does not carry. -/
def purchaseTag : Tag :=
  sampleTag "t8" "script" "var e = 5"
    [{ sampleTrigger "custom_event" with eventName := JSVal.str "purchase" }]

/-- The sample tags that a pageview pass on the sample page dispatches. -/
def sampleMatches (tag : Tag) : Bool := tag.id != "t8"

/-! ## Vocabulary of the later statements -/

/-- The page attribute that `replaceVariables` substitutes for a well-known
name, `none` for any other name. -/
def pageAttribute (page : Page) (name : String) : Option String :=
  if name = "page.url" then some page.href
  else if name = "page.hostname" then some page.hostname
  else if name = "page.path" then some page.pathname
  else if name = "page.title" then some page.title
  else if name = "page.referrer" then some page.referrer
  else none

/-- The text a segment contributes when the placeholder with the captured group
`c` resolves to the value `val c`. -/
def Segment.render (val : List Char → JSVal) : Segment → List Char
  | Segment.text c => [c]
  | Segment.hole captured => (val captured).toStr.data

/-- The value found by a backward scan for the first record in which the key has
a value other than `undefined`. -/
def lastDefined (key : String) (log : List Record) : JSVal :=
  match log.reverse.find? (fun r => decide (Record.get r key ≠ JSVal.undefined)) with
  | some r => Record.get r key
  | none => JSVal.undefined

/-- How far the document has come: `loading`, then `interactive`, then `complete`. -/
def ReadyState.rank : ReadyState → Nat
  | ReadyState.loading => 0
  | ReadyState.interactive => 1
  | ReadyState.complete => 2

/-- The viewport height read by `isElementVisible`:
`window.innerHeight || document.documentElement.clientHeight`. -/
def viewportHeight (page : Page) : Int :=
  if page.innerHeight ≠ 0 then page.innerHeight else page.clientHeight

/-- The viewport width read by `isElementVisible`:
`window.innerWidth || document.documentElement.clientWidth`. -/
def viewportWidth (page : Page) : Int :=
  if page.innerWidth ≠ 0 then page.innerWidth else page.clientWidth

/-- The sample browser on the page at the given URL. -/
def envAt (href : String) : Env :=
  { sampleEnv with page := { samplePage with href := href } }

/-- The sample browser on a page where the selector `#hero` finds an element
with the given box, in the sample viewport of 800 by 600. -/
def envWithHero (rect : Rect) : Env :=
  { sampleEnv with
    querySelector := fun _ selector => if selector = "#hero" then Query.found rect else Query.missing }

/-- A url-match trigger with the given match type and pattern. -/
def urlTrigger (matchType url : String) : Trigger :=
  { sampleTrigger "url_match" with url := url, matchType := matchType }

/-- An element-visibility trigger on the selector `#hero`. -/
def heroTrigger : Trigger :=
  { sampleTrigger "element_visibility" with selector := "#hero" }

/-- The trace of the second state is the trace of the first followed by entries
that all satisfy `P`. -/
def Extends (P : Event → Prop) (s s1 : State) : Prop :=
  ∃ evs, s1.trace = s.trace ++ evs ∧ ∀ e ∈ evs, P e

/-- An entry that is not about a tag, or a call of `executeTag` or a handler run
on a tag that satisfies `ok`. -/
def OnTags (ok : Tag → Prop) : Event → Prop
  | Event.call t _ => ok t
  | Event.handler t _ _ => ok t
  | _ => True

/-- A tag with a click trigger in its trigger list. -/
def Tag.hasClick (tag : Tag) : Prop := ∃ trigger ∈ tag.triggers, trigger.type = "click"

/-- A tag fired on clicks inside `#buy`, whose other trigger never holds on a
click. -/
def buyTag : Tag :=
  sampleTag "t10" "script" "var g = 7"
    [buyClick, { sampleTrigger "custom_event" with eventName := JSVal.str "purchase" }]

/-- A click outside every element that matches `#buy`. -/
def otherClickEvent : Click where
  closest := fun _ => Closest.none

/-! ## Loading the configuration -/

/-- What the `fetch` of `loadConfig` comes to: a network error, or a response
with its `ok` flag and what `response.json()` gives: `none` when the body is not
JSON, `some none` for a JSON value that is not truthy (such as `null`), and
`some (some config)` for a configuration document. -/
inductive Fetch where
  | networkError
  | response (ok : Bool) (json : Option (Option Config))
deriving DecidableEq, Repr

/-- A fetch that takes `loadConfig` to its `catch` block: a network error, a
response that is not `ok` (a 404, say), or a body that is not JSON. -/
def Fetch.failed : Fetch → Bool
  | Fetch.networkError => true
  | Fetch.response false _ => true
  | Fetch.response true none => true
  | Fetch.response true (some _) => false

/-- The function `loadConfig()`, once the fetch has settled: the state it leaves
and the value it returns (`none` for `null`). -/
def loadConfig (fetch : Fetch) (s : State) : State × Option Config :=
  match fetch with
  | Fetch.response true (some config) => ({ s with config := config, loaded := true }, config)
  | _ => (s, none)

/-- The event data of the structural-ready pass. -/
def domReadyData : Record := [("event", JSVal.str "dom_ready")]

/-- The event data of the fully-loaded pass. -/
def windowLoadData : Record := [("event", JSVal.str "window_load")]

/-- How `init` ends, and the listeners it has left on the document and the
window for the signals that are still to come. -/
structure InitOutcome where
  result : Res
  onDomContentLoaded : Bool
  onLoad : Bool
deriving DecidableEq, Repr

/-- The function `init()`, from the moment the fetch has settled; `env` is the
page at that moment. An exception out of a pass ends `init` there. -/
def init (env : Env) (fuel : Nat) (fetch : Fetch) (s : State) : InitOutcome :=
  match loadConfig fetch s with
  | (s1, none) => { result := Res.done s1, onDomContentLoaded := false, onLoad := false }
  | (s1, some _) =>
    match processTags env fuel pageviewData s1 with
    | Res.done s2 =>
      if env.page.readyState = ReadyState.loading then
        { result := Res.done s2, onDomContentLoaded := true, onLoad := true }
      else
        match processTags env fuel domReadyData s2 with
        | Res.done s3 =>
          if env.page.readyState = ReadyState.complete then
            { result := processTags env fuel windowLoadData (setupClickListeners s3),
              onDomContentLoaded := false, onLoad := false }
          else
            { result := Res.done (setupClickListeners s3), onDomContentLoaded := false,
              onLoad := true }
        | r => { result := r, onDomContentLoaded := false, onLoad := false }
    | r => { result := r, onDomContentLoaded := false, onLoad := false }

/-- A state of the engine in which no configuration is loaded and no click
listener is bound, as before `loadConfig` has succeeded. -/
def State.Unloaded (s : State) : Prop := s.config = none ∧ s.listeners = []

/-! ## Vocabulary of the statements on passes -/

/-- A tag that defines neither `onSuccess` nor `onError`. -/
def Tag.plain (tag : Tag) : Prop := tag.onSuccess = false ∧ tag.onError = false

instance (tag : Tag) : Decidable tag.plain := by
  unfold Tag.plain
  exact inferInstance

/-- An entry that is neither the beginning nor the end of a pass. -/
def NotPass : Event → Prop
  | Event.passBegin _ => False
  | Event.passEnd => False
  | _ => True

/-- The event data of the passes begun in a trace, in order. -/
def passesBegun : List Event → List Record
  | [] => []
  | Event.passBegin d :: rest => d :: passesBegun rest
  | _ :: rest => passesBegun rest

/-- The event data of a pass started for a record that `executeTag` pushed: its
event is `ctm.tagFired` or `ctm.tagError`. -/
def CallbackData (d : Record) : Prop :=
  d.get "event" = JSVal.str "ctm.tagFired" ∨ d.get "event" = JSVal.str "ctm.tagError"

/-- An entry that, if it begins a pass, begins the pass of a pushed callback record. -/
def CallbackPass : Event → Prop
  | Event.passBegin d => CallbackData d
  | _ => True

/-- The state in which `executeTag` leaves a plain tag. -/
def plainResult (env : Env) (tag : Tag) (d : Record) (s : State) : State :=
  if tag.fireOnce = true ∧ tag.id ∈ s.executedTags then s.log (Event.call tag d)
  else
    match runHandler env (s.log (Event.call tag d)) tag d with
    | some (Except.error e) =>
      ((s.log (Event.call tag d)).log (Event.handler tag d (Except.error e))).log
        (Event.errorLogged tag.name e)
    | some (Except.ok effect) =>
      ((s.log (Event.call tag d)).log (Event.handler tag d (Except.ok effect))).addExecuted tag.id
    | none => (s.log (Event.call tag d)).addExecuted tag.id

/-- What `executeTag` adds to the trace on a plain tag. -/
def plainEntries (env : Env) (tag : Tag) (d : Record) (s : State) : List Event :=
  if tag.fireOnce = true ∧ tag.id ∈ s.executedTags then [Event.call tag d]
  else
    match runHandler env (s.log (Event.call tag d)) tag d with
    | some (Except.error e) =>
      [Event.call tag d, Event.handler tag d (Except.error e), Event.errorLogged tag.name e]
    | some (Except.ok effect) => [Event.call tag d, Event.handler tag d (Except.ok effect)]
    | none => [Event.call tag d]

/-- A record that `executeTag` pushes for this tag: the `ctm.tagFired` record
when the tag defines `onSuccess`, a `ctm.tagError` record when it defines
`onError`. -/
def CallbackRecord (tag : Tag) (item : Item) : Prop :=
  (tag.onSuccess = true ∧ item = tagFiredItem tag)
    ∨ (tag.onError = true ∧ ∃ message, item = tagErrorItem tag message)

/-- The beginnings (with their event data) and the ends of passes in a trace,
in order. -/
def passMarks : List Event → List (Option Record)
  | [] => []
  | Event.passBegin d :: rest => some d :: passMarks rest
  | Event.passEnd :: rest => none :: passMarks rest
  | _ :: rest => passMarks rest

/-- Marks of passes that follow one another: each pass that begins ends before
the next one begins, except that the last one may be left by an exception. -/
def Sequential : List (Option Record) → Prop
  | [] => True
  | [some _] => True
  | some _ :: none :: rest => Sequential rest
  | _ => False

/-- A fire-once script tag on the pageview trigger that defines `onSuccess`. -/
def callbackTag : Tag :=
  { sampleTag "t11" "script" "var h = 8" [sampleTrigger "pageview"] with onSuccess := true }

/-- The event data of the pass that the `ctm.tagFired` record of the callback
tag starts. -/
def firedData : Record :=
  [("event", JSVal.str "ctm.tagFired"), ("tagId", JSVal.str "t11"),
    ("tagName", JSVal.str "t11")]



/-- The record `{event: "purchase", amount: 42}`. -/
def purchaseRecord : Record := [("event", JSVal.str "purchase"), ("amount", JSVal.num 42)]

/-- A script tag on the custom event `purchase` that is not fire-once. -/
def repeatTag : Tag :=
  { sampleTag "t12" "script" "var i = 9"
      [{ sampleTrigger "custom_event" with eventName := JSVal.str "purchase" }] with
    fireOnce := false }

/-- What a pass leaves alone: the configuration, the `loaded` flag and the
bound listeners are the same in the second state, and its data layer is the
data layer of the first followed by further items. -/
def Frame (s s1 : State) : Prop :=
  s1.config = s.config ∧ s1.loaded = s.loaded ∧ s1.listeners = s.listeners
    ∧ ∃ more, s1.dataLayer = s.dataLayer ++ more

/-! ## The lifecycle signals -/

/-- The click listeners that `setupClickListeners` binds for a list of tags. -/
def listenersOf (tags : List Tag) : List Listener :=
  tags.flatMap (fun tag =>
    (tag.triggers.filter (fun trigger => trigger.type = "click" ∧ trigger.selector ≠ "")).map
      (fun trigger => { tag := tag, selector := trigger.selector }))

/-- The listener that `init` leaves on `DOMContentLoaded` when the document is
still loading. -/
def domContentLoadedListener (env : Env) (fuel : Nat) (s : State) : Res :=
  match processTags env fuel domReadyData s with
  | Res.done s1 => Res.done (setupClickListeners s1)
  | r => r

/-- The listener that `init` leaves on `load` when the document is not complete. -/
def loadListener (env : Env) (fuel : Nat) (s : State) : Res :=
  processTags env fuel windowLoadData s

/-- The function `init()` followed by the signals that the host sends after it:
`DOMContentLoaded`, then `load`, each with the page as it is then, or `none` for
a signal that was sent before `init` got there. A signal runs the listener that
`init` left for it, if any; an exception out of the first listener is reported
and the second signal still happens. -/
def lifecycle (fuel : Nat) (fetch : Fetch) (atInit : Env) (domContentLoaded load : Option Env)
    (s : State) : Res :=
  let outcome := init atInit fuel fetch s
  let r1 := outcome.result
  let r2 :=
    match domContentLoaded with
    | some env =>
      if outcome.onDomContentLoaded then domContentLoadedListener env fuel r1.state else r1
    | none => r1
  match r2 with
  | Res.fuelOut s2 => Res.fuelOut s2
  | _ =>
    match load with
    | some env => if outcome.onLoad then loadListener env fuel r2.state else r2
    | none => r2

/-- The event data of the three passes of the lifecycle. -/
def lifecycleData : List Record := [pageviewData, domReadyData, windowLoadData]

/-- The passes of the lifecycle among the passes begun in a trace, in order. -/
def lifecyclePasses (evs : List Event) : List Record :=
  (passesBegun evs).filter (fun d => decide (d ∈ lifecycleData))

/-- The sample page while the document is still loading. -/
def loadingEnv : Env := { sampleEnv with page := { samplePage with readyState := ReadyState.loading } }

/-- The sample page once the document is parsed, before it is fully loaded. -/
def interactiveEnv : Env :=
  { sampleEnv with page := { samplePage with readyState := ReadyState.interactive } }



/-- An image tag on the custom event `purchase` whose address carries the
placeholder of the key `amount`. -/
def amountTag : Tag :=
  { sampleTag "t13" "image" ""
      [{ sampleTrigger "custom_event" with eventName := JSVal.str "purchase" }] with
    src := JSVal.str "https://t.example/p?a=\x7b\x7bamount\x7d\x7d" }

/-- The record `{event: ""}`: it has the key `event`, with the empty string. -/
def emptyEventRecord : Record := [("event", JSVal.str "")]

/-! ## The management API -/

/-- An object used as a map from string keys, in insertion order. The keys of
the database are the ids that the server builds (`CTM-…`, `TAG-…`, `TRG-…`). -/
abbrev Table (α : Type) := List (String × α)

/-- The assignment `table[key] = value`: a key that is there keeps its place. -/
def Table.put {α : Type} (t : Table α) (key : String) (value : α) : Table α :=
  if (t.lookup key).isSome then t.map (fun kv => if kv.1 = key then (key, value) else kv)
  else t ++ [(key, value)]

/-- The statement `delete table[key]`. -/
def Table.delete {α : Type} (t : Table α) (key : String) : Table α :=
  t.filter (fun kv => kv.1 != key)

/-- The call `Object.values(table)`. -/
def Table.values {α : Type} (t : Table α) : List α := t.map Prod.snd

/-- The expression `value || fallback`. -/
def JSVal.orElse (value fallback : JSVal) : JSVal := if value.truthy then value else fallback

/-- The payload of a verified token, as far as the handlers read it. -/
structure User where
  id : String
  role : String
deriving DecidableEq, Repr

/-- A container of the database, without its timestamps. -/
structure Container where
  id : String
  name : JSVal
  domain : JSVal
  description : JSVal
  userId : String
  enabled : JSVal
  version : Int
deriving DecidableEq, Repr

/-- A trigger of the database, without its timestamp. -/
structure StoredTrigger where
  id : String
  type : JSVal
  eventName : JSVal
  url : JSVal
  matchType : JSVal
  selector : JSVal
deriving DecidableEq, Repr

/-- A tag of the database, without its timestamps. -/
structure StoredTag where
  id : String
  containerId : String
  name : JSVal
  type : JSVal
  html : JSVal
  src : JSVal
  code : JSVal
  attributes : JSVal
  fireOnce : JSVal
  enabled : JSVal
  triggerIds : List String
deriving DecidableEq, Repr

/-- The object `database`, without its users. -/
structure Database where
  containers : Table Container
  tags : Table StoredTag
  triggers : Table StoredTrigger
deriving DecidableEq, Repr

/-- The database when the server starts. -/
def Database.empty : Database := { containers := [], tags := [], triggers := [] }

/-- The version of a container, `none` when the database has no such container. -/
def Database.version (db : Database) (containerId : String) : Option Int :=
  (db.containers.lookup containerId).map (fun container => container.version)

/-- The test `container.userId !== req.user.id && req.user.role !== 'admin'`. -/
def accessDenied (container : Container) (user : User) : Bool :=
  container.userId != user.id && user.role != "admin"

/-- A tag of the configuration document: the stored tag with its triggers. -/
structure ServedTag where
  tag : StoredTag
  triggers : List StoredTrigger
deriving DecidableEq, Repr

/-- The configuration document that `GET /api/config/:containerId` answers,
without its timestamp. -/
structure ConfigDocument where
  containerId : String
  name : JSVal
  tags : List ServedTag
  version : Int
deriving DecidableEq, Repr

/-- The handler of `GET /api/config/:containerId`: the status of an error, or
the document. -/
def getConfig (db : Database) (containerId : String) : Except Nat ConfigDocument :=
  match db.containers.lookup containerId with
  | none => Except.error 404
  | some container =>
    if container.enabled.truthy = false then Except.error 404
    else
      Except.ok
        { containerId := containerId
          name := container.name
          tags := (db.tags.values.filter
              (fun tag => tag.containerId = containerId ∧ tag.enabled.truthy = true)).map
            (fun tag => { tag := tag, triggers := tag.triggerIds.filterMap db.triggers.lookup })
          version := container.version }

/-- An empty object literal. -/
def emptyObject : JSVal := JSVal.obj 0 "[object Object]"

/-- The handler of `POST /api/containers`; `valid` is whether the validation of
the request found no error, `stamp` is the time and the random part of the id. -/
def createContainer (db : Database) (user : User) (valid : Bool) (body : Record)
    (stamp : String) : Nat × Database :=
  if valid = false then (400, db)
  else
    let containerId := "CTM-" ++ stamp
    let container : Container :=
      { id := containerId
        name := body.get "name"
        domain := (body.get "domain").orElse (JSVal.str "")
        description := (body.get "description").orElse (JSVal.str "")
        userId := user.id
        enabled := JSVal.bool true
        version := 1 }
    (201, { db with containers := db.containers.put containerId container })

/-- The handler of `PUT /api/containers/:id`. -/
def updateContainer (db : Database) (user : User) (valid : Bool) (id : String)
    (body : Record) : Nat × Database :=
  if valid = false then (400, db)
  else
    match db.containers.lookup id with
    | none => (404, db)
    | some container =>
      if accessDenied container user then (403, db)
      else
        let updated : Container :=
          { container with
            name := if (body.get "name").truthy then body.get "name" else container.name
            domain :=
              if body.get "domain" ≠ JSVal.undefined then body.get "domain" else container.domain
            description :=
              if body.get "description" ≠ JSVal.undefined then body.get "description"
              else container.description
            enabled :=
              if body.get "enabled" ≠ JSVal.undefined then body.get "enabled"
              else container.enabled
            version := container.version + 1 }
        (200, { db with containers := db.containers.put id updated })

/-- The handler of `DELETE /api/containers/:id`. -/
def deleteContainer (db : Database) (user : User) (id : String) : Nat × Database :=
  match db.containers.lookup id with
  | none => (404, db)
  | some container =>
    if accessDenied container user then (403, db)
    else
      (204, { db with
        tags := db.tags.filter (fun kv => ¬ kv.2.containerId = id)
        containers := db.containers.delete id })

/-- The handler of `POST /api/containers/:containerId/tags`. -/
def createTag (db : Database) (user : User) (valid : Bool) (containerId : String)
    (body : Record) (stamp : String) : Nat × Database :=
  if valid = false then (400, db)
  else
    match db.containers.lookup containerId with
    | none => (404, db)
    | some container =>
      if accessDenied container user then (403, db)
      else
        let tagId := "TAG-" ++ stamp
        let tag : StoredTag :=
          { id := tagId
            containerId := containerId
            name := body.get "name"
            type := body.get "type"
            html := (body.get "html").orElse (JSVal.str "")
            src := (body.get "src").orElse (JSVal.str "")
            code := (body.get "code").orElse (JSVal.str "")
            attributes := (body.get "attributes").orElse emptyObject
            fireOnce := JSVal.bool (body.get "fireOnce" != JSVal.bool false)
            enabled := JSVal.bool (body.get "enabled" != JSVal.bool false)
            triggerIds := [] }
        (201, { db with
          tags := db.tags.put tagId tag
          containers :=
            db.containers.put containerId { container with version := container.version + 1 } })

/-- The handler of `PUT /api/tags/:id`. A tag whose container is missing makes
the handler throw before it has changed anything: status 500. -/
def updateTag (db : Database) (user : User) (id : String) (body : Record) : Nat × Database :=
  match db.tags.lookup id with
  | none => (404, db)
  | some tag =>
    match db.containers.lookup tag.containerId with
    | none => (500, db)
    | some container =>
      if accessDenied container user then (403, db)
      else
        let pick (key : String) (old : JSVal) : JSVal :=
          if body.get key ≠ JSVal.undefined then body.get key else old
        let updated : StoredTag :=
          { tag with
            name := if (body.get "name").truthy then body.get "name" else tag.name
            type := if (body.get "type").truthy then body.get "type" else tag.type
            html := pick "html" tag.html
            src := pick "src" tag.src
            code := pick "code" tag.code
            attributes := pick "attributes" tag.attributes
            fireOnce := pick "fireOnce" tag.fireOnce
            enabled := pick "enabled" tag.enabled }
        (200, { db with
          tags := db.tags.put id updated
          containers := db.containers.put tag.containerId
            { container with version := container.version + 1 } })

/-- The handler of `DELETE /api/tags/:id`. -/
def deleteTag (db : Database) (user : User) (id : String) : Nat × Database :=
  match db.tags.lookup id with
  | none => (404, db)
  | some tag =>
    match db.containers.lookup tag.containerId with
    | none => (500, db)
    | some container =>
      if accessDenied container user then (403, db)
      else
        (204, { db with
          triggers := tag.triggerIds.foldl (fun triggers triggerId => triggers.delete triggerId)
            db.triggers
          tags := db.tags.delete id
          containers := db.containers.put tag.containerId
            { container with version := container.version + 1 } })

/-- The handler of `POST /api/tags/:tagId/triggers`. -/
def addTrigger (db : Database) (user : User) (valid : Bool) (tagId : String) (body : Record)
    (stamp : String) : Nat × Database :=
  if valid = false then (400, db)
  else
    match db.tags.lookup tagId with
    | none => (404, db)
    | some tag =>
      match db.containers.lookup tag.containerId with
      | none => (500, db)
      | some container =>
        if accessDenied container user then (403, db)
        else
          let triggerId := "TRG-" ++ stamp
          let trigger : StoredTrigger :=
            { id := triggerId
              type := body.get "type"
              eventName := (body.get "eventName").orElse (JSVal.str "")
              url := (body.get "url").orElse (JSVal.str "")
              matchType := (body.get "matchType").orElse (JSVal.str "contains")
              selector := (body.get "selector").orElse (JSVal.str "") }
          (201, { db with
            triggers := db.triggers.put triggerId trigger
            tags := db.tags.put tagId { tag with triggerIds := tag.triggerIds ++ [triggerId] }
            containers := db.containers.put tag.containerId
              { container with version := container.version + 1 } })

/-- The tag that `DELETE /api/triggers/:id` finds as the parent of a trigger,
with its key. -/
def parentTag (db : Database) (triggerId : String) : Option (String × StoredTag) :=
  db.tags.find? (fun kv => decide (triggerId ∈ kv.2.triggerIds))

/-- The handler of `DELETE /api/triggers/:id`. -/
def deleteTrigger (db : Database) (user : User) (id : String) : Nat × Database :=
  match db.triggers.lookup id with
  | none => (404, db)
  | some _ =>
    match parentTag db id with
    | none => (204, { db with triggers := db.triggers.delete id })
    | some (key, tag) =>
      match db.containers.lookup tag.containerId with
      | none => (500, db)
      | some container =>
        if accessDenied container user then (403, db)
        else
          (204, { db with
            triggers := db.triggers.delete id
            tags := db.tags.put key
              { tag with triggerIds := tag.triggerIds.filter (fun other => other != id) }
            containers := db.containers.put tag.containerId
              { container with version := container.version + 1 } })

/-- A request to the management API that changes the database. -/
inductive Request where
  | createContainer (valid : Bool) (body : Record) (stamp : String)
  | updateContainer (valid : Bool) (id : String) (body : Record)
  | deleteContainer (id : String)
  | createTag (valid : Bool) (containerId : String) (body : Record) (stamp : String)
  | updateTag (id : String) (body : Record)
  | deleteTag (id : String)
  | addTrigger (valid : Bool) (tagId : String) (body : Record) (stamp : String)
  | deleteTrigger (id : String)

/-- The status and the database after one request of an authenticated user. -/
def handle (db : Database) (user : User) : Request → Nat × Database
  | Request.createContainer valid body stamp => createContainer db user valid body stamp
  | Request.updateContainer valid id body => updateContainer db user valid id body
  | Request.deleteContainer id => deleteContainer db user id
  | Request.createTag valid containerId body stamp =>
    createTag db user valid containerId body stamp
  | Request.updateTag id body => updateTag db user id body
  | Request.deleteTag id => deleteTag db user id
  | Request.addTrigger valid tagId body stamp => addTrigger db user valid tagId body stamp
  | Request.deleteTrigger id => deleteTrigger db user id

/-- The container that a request mutates, directly or through one of its tags
or triggers: `none` for the creation and the deletion of a container. -/
def Request.target (db : Database) : Request → Option String
  | Request.createContainer _ _ _ => none
  | Request.updateContainer _ id _ => some id
  | Request.deleteContainer _ => none
  | Request.createTag _ containerId _ _ => some containerId
  | Request.updateTag id _ => (db.tags.lookup id).map (fun tag => tag.containerId)
  | Request.deleteTag id => (db.tags.lookup id).map (fun tag => tag.containerId)
  | Request.addTrigger _ tagId _ _ => (db.tags.lookup tagId).map (fun tag => tag.containerId)
  | Request.deleteTrigger id => (parentTag db id).map (fun kv => kv.2.containerId)

/-- The container whose entry a request writes anew or removes: the one made by
a creation, the one named by a deletion. -/
def Request.replaces : Request → Option String
  | Request.createContainer _ _ stamp => some ("CTM-" ++ stamp)
  | Request.deleteContainer id => some id
  | _ => none

/-- A status of success. -/
def succeeded (status : Nat) : Bool := status == 200 || status == 201 || status == 204

/-- A user who owns the sample containers. -/
def sampleUser : User := { id := "u1", role := "user" }

/-- A container of the sample user. -/
def sampleContainer (id : String) (version : Int) : Container :=
  { id := id, name := JSVal.str "Shop", domain := JSVal.str "", description := JSVal.str "",
    userId := "u1", enabled := JSVal.bool true, version := version }

/-- A stored trigger of the given type, with the defaults of the API. -/
def storedTrigger (id type : String) : StoredTrigger :=
  { id := id, type := JSVal.str type, eventName := JSVal.str "", url := JSVal.str "",
    matchType := JSVal.str "contains", selector := JSVal.str "" }

/-- A stored script tag. -/
def storedTag (id containerId : String) (enabled : Bool) (triggerIds : List String) :
    StoredTag :=
  { id := id, containerId := containerId, name := JSVal.str id, type := JSVal.str "script",
    html := JSVal.str "", src := JSVal.str "", code := JSVal.str "var a = 1",
    attributes := emptyObject, fireOnce := JSVal.bool true, enabled := JSVal.bool enabled,
    triggerIds := triggerIds }

/-- A database with two containers: the first has an enabled tag with two
triggers and a disabled tag with one, the second has an enabled tag. -/
def sampleDatabase : Database :=
  { containers := [("CTM-1", sampleContainer "CTM-1" 3), ("CTM-2", sampleContainer "CTM-2" 1)]
    tags := [("TAG-1", storedTag "TAG-1" "CTM-1" true ["TRG-1", "TRG-2"]),
      ("TAG-2", storedTag "TAG-2" "CTM-1" false ["TRG-3"]),
      ("TAG-3", storedTag "TAG-3" "CTM-2" true [])]
    triggers := [("TRG-1", storedTrigger "TRG-1" "pageview"),
      ("TRG-2", storedTrigger "TRG-2" "url_match"), ("TRG-3", storedTrigger "TRG-3" "click")] }

/-- The trigger as the engine reads it from the configuration document, when
the fields that the engine uses as strings are strings. -/
def StoredTrigger.toTrigger (stored : StoredTrigger) : Option Trigger :=
  match stored.type, stored.url, stored.matchType, stored.selector with
  | JSVal.str type, JSVal.str url, JSVal.str matchType, JSVal.str selector =>
    some { type := type, eventName := stored.eventName, url := url, matchType := matchType,
           selector := selector }
  | _, _, _, _ => none

/-- The database after a sequence of requests, each of its own user. -/
def handleAll (db : Database) : List (User × Request) → Database
  | [] => db
  | (user, request) :: rest => handleAll (handle db user request).2 rest

/-! ## Payloads that enter the engine -/

/-- Something the payload of a tag does while it runs that enters the engine:
a call of `window.dataLayer.push(...args)` (or `ctm.push(data)`, with one
argument), a call of `ctm.trigger(eventName, data)`, or the dispatch of an
event that the engine has a listener for: `DOMContentLoaded`, `load`, or a
click. -/
inductive Call where
  | push (args : List Item)
  | trigger (eventName : JSVal) (data : Item)
  | domContentLoaded
  | load
  | click (click : Click)

/-- What the payload of a tag does once the browser runs it: it returns or
throws (`finish`), or it enters the engine and goes on according to how that
ended and the state it left. -/
inductive Payload where
  | finish (thrown : Option Thrown)
  | call (c : Call) (next : Res → Payload)

/-- The host page with live payloads: `payload s effect` is what the code or the
element of `effect` does when the browser runs it in state `s`. -/
structure Host where
  env : Env
  payload : State → Effect → Payload

/-- A host whose payloads never enter the engine: each ends as `perform` of the
page says. -/
def Host.quiet (host : Host) : Prop :=
  ∀ s effect, host.payload s effect = Payload.finish (host.env.perform s effect)

/-- The host of a page whose payloads never enter the engine. -/
def Env.toHost (env : Env) : Host :=
  { env := env, payload := fun s effect => Payload.finish (env.perform s effect) }

/-- The browser dispatching one click to the listeners, in the order they were
bound; `exec` is `executeTag`. An exception out of one listener is reported and
the next one runs. -/
def dispatchClickWith (exec : Tag → Record → State → Res) (click : Click) :
    List Listener → State → Res
  | [], s => Res.done s
  | listener :: rest, s =>
    let r :=
      match click.closest listener.selector with
      | Closest.invalid => Res.threw selectorSyntaxError s
      | Closest.none => Res.done s
      | Closest.found target => exec listener.tag (clickData target) s
    match r with
    | Res.fuelOut s1 => Res.fuelOut s1
    | r => dispatchClickWith exec click rest r.state

/-- One entry into the engine; `pass` is `processTags` and `exec` is
`executeTag`. The dispatch of `DOMContentLoaded` or `load` runs the listener
that `init` leaves for it. -/
def Call.run (pass : Record → State → Res) (exec : Tag → Record → State → Res) :
    Call → State → Res
  | Call.push args, s => dataLayerPush pass args s
  | Call.trigger eventName data, s => triggerEvent pass eventName data s
  | Call.domContentLoaded, s =>
    match pass domReadyData s with
    | Res.done s1 => Res.done (setupClickListeners s1)
    | r => r
  | Call.load, s => pass windowLoadData s
  | Call.click clicked, s => dispatchClickWith exec clicked s.listeners s

/-- The browser running a payload; `pass` is `processTags` and `exec` is
`executeTag`. -/
def Payload.run (pass : Record → State → Res) (exec : Tag → Record → State → Res) :
    Payload → State → Res
  | Payload.finish none, s => Res.done s
  | Payload.finish (some e), s => Res.threw e s
  | Payload.call c next, s =>
    match c.run pass exec s with
    | Res.fuelOut s1 => Res.fuelOut s1
    | r => (next r).run pass exec r.state

/-- The effect that the type handler of a tag builds and hands to the browser:
the handler on a page where carrying out an effect does nothing. `none` is the
`default` branch of the `switch`. -/
def builtEffect (env : Env) (s : State) (tag : Tag) (eventData : Record) :
    Option (Except Thrown Effect) :=
  runHandler { env with perform := fun _ _ => none } s tag eventData

/-- The function `executeTag(tag, eventData)` on a host with live payloads: the
handler builds its effect, the browser runs the payload, which may enter the
engine before it returns or throws; `pass` is `processTags` and `exec` is
`executeTag` itself, as the payloads reach them. -/
def executeTagLive (host : Host) (pass : Record → State → Res)
    (exec : Tag → Record → State → Res) (tag : Tag) (eventData : Record) (s : State) : Res :=
  let s0 := s.log (Event.call tag eventData)
  if tag.fireOnce ∧ tag.id ∈ s0.executedTags then Res.done s0
  else
    match builtEffect host.env s0 tag eventData with
    | some (Except.error e) =>
      catchBlock (dataLayerPush pass) tag e
        (s0.log (Event.handler tag eventData (Except.error e)))
    | some (Except.ok effect) =>
      match (host.payload s0 effect).run pass exec s0 with
      | Res.done s1 =>
        afterSwitch (dataLayerPush pass) tag
          (s1.log (Event.handler tag eventData (Except.ok effect)))
      | Res.threw e s1 =>
        catchBlock (dataLayerPush pass) tag e
          (s1.log (Event.handler tag eventData (Except.error e)))
      | Res.fuelOut s1 => Res.fuelOut s1
    | none => afterSwitch (dataLayerPush pass) tag s0

/-- The loop `state.config.tags.forEach(...)` of `processTags`, with live
payloads. -/
def forEachTagLive (host : Host) (pass : Record → State → Res)
    (exec : Tag → Record → State → Res) (eventData : Record) : List Tag → State → Res
  | [], s => Res.done s
  | tag :: rest, s =>
    if tag.enabled = false then forEachTagLive host pass exec eventData rest s
    else
      match everyTrigger host.env s eventData tag.triggers with
      | Except.error e => Res.threw e s
      | Except.ok false => forEachTagLive host pass exec eventData rest s
      | Except.ok true =>
        match executeTagLive host pass exec tag eventData s with
        | Res.done s1 => forEachTagLive host pass exec eventData rest s1
        | r => r

/-- The body of `processTags(eventData)` with live payloads. -/
def processTagsWithLive (host : Host) (pass : Record → State → Res)
    (exec : Tag → Record → State → Res) (eventData : Record) (s : State) : Res :=
  match s.config with
  | none => Res.done s
  | some config =>
    match config.tags with
    | none => Res.done s
    | some tags =>
      match forEachTagLive host pass exec eventData tags
          (s.log (Event.passBegin eventData)) with
      | Res.done s1 => Res.done (s1.log Event.passEnd)
      | r => r

/-- The functions `processTags` and `executeTag` with live payloads, for a
budget that counts the entries into the engine that may be nested in one
another. -/
def engineLive (host : Host) :
    Nat → (Record → State → Res) × (Tag → Record → State → Res)
  | 0 => (fun _ s => Res.fuelOut s, fun _ _ s => Res.fuelOut s)
  | fuel + 1 =>
    (processTagsWithLive host (engineLive host fuel).1 (engineLive host fuel).2,
      executeTagLive host (engineLive host fuel).1 (engineLive host fuel).2)

/-- The function `processTags(eventData)` with live payloads. -/
def processTagsLive (host : Host) (fuel : Nat) : Record → State → Res :=
  (engineLive host fuel).1

/-- One action on a host with live payloads. -/
def stepLive (host : Host) (fuel : Nat) : Action → State → Res
  | Action.pass eventData, s => processTagsLive host fuel eventData s
  | Action.push args, s => dataLayerPush (processTagsLive host fuel) args s
  | Action.trigger eventName data, s => triggerEvent (processTagsLive host fuel) eventName data s
  | Action.setupClicks, s => Res.done (setupClickListeners s)
  | Action.click click, s =>
    dispatchClickWith
      (executeTagLive host (processTagsLive host fuel) (engineLive host fuel).2) click
      s.listeners s

/-- An entry into the engine that some run of the payload makes. -/
inductive Payload.Calls : Payload → Call → Prop where
  | here (c : Call) (next : Res → Payload) : Payload.Calls (Payload.call c next) c
  | later (c : Call) (next : Res → Payload) (r : Res) (c1 : Call)
      (h : Payload.Calls (next r) c1) : Payload.Calls (Payload.call c next) c1

/-- The event data of a pass that the entry starts itself: for a push, the data
of an argument whose event is truthy; for a trigger, the data with the event
name; for `DOMContentLoaded` and `load`, the data of the listener's pass. A
click starts no pass itself. -/
def Call.Starts : Call → Record → Prop
  | Call.push args, d =>
    ∃ item ∈ args, ∃ event, item.truthy = true ∧ item.get "event" = Except.ok event
      ∧ event.truthy = true ∧ d = Record.set item.spread "event" event
  | Call.trigger eventName data, d => d = Record.set data.spread "event" eventName
  | Call.domContentLoaded, d => d = domReadyData
  | Call.load, d => d = windowLoadData
  | Call.click _, _ => False

/-- The event data of a pass that an entry made by some payload of the host
starts. -/
def PayloadData (host : Host) (d : Record) : Prop :=
  ∃ s effect c, (host.payload s effect).Calls c ∧ c.Starts d

/-- An entry that, if it begins a pass, begins the pass of a callback record or
of an entry made by a payload. -/
def LivePass (host : Host) : Event → Prop
  | Event.passBegin d => CallbackData d ∨ PayloadData host d
  | _ => True

/-- The code of a payload that pushes the event `e` unless the data layer
already holds something. -/
def pushOnceCode : String :=
  "window.dataLayer.length || window.dataLayer.push(\x7bevent: 'e'\x7d)"

/-- A fire-once custom tag on the pageview trigger, without callbacks, whose
code pushes the event `e` the first time it runs. -/
def pushOnceTag : Tag := sampleTag "t14" "custom" pushOnceCode [sampleTrigger "pageview"]

/-- The event data of the pass that the push of `e` starts. -/
def pushedData : Record := [("event", JSVal.str "e")]

/-- The sample browser, running the code of the push-once tag as written: with
an empty data layer it calls `window.dataLayer.push` and returns; every other
payload ends as on the sample page. -/
def liveHost : Host where
  env := sampleEnv
  payload := fun s effect =>
    match effect with
    | Effect.custom (JSVal.str code) _ =>
      if code = pushOnceCode ∧ s.dataLayer.isEmpty = true then
        Payload.call (Call.push [Item.record pushedData]) (fun _ => Payload.finish none)
      else Payload.finish (sampleEnv.perform s effect)
    | _ => Payload.finish (sampleEnv.perform s effect)

/-! ## Interpolation: the scanner and the resolver -/

/-- A string is the string of its characters. -/
theorem string_mk_data (s : String) : String.mk s.data = s := by
  cases s; rfl

/-- The backward scan finds nothing in records that all leave the key undefined. -/
theorem getDataLayerValueFrom_records (key : String) (records : List Record)
    (h : ∀ r ∈ records, Record.get r key = JSVal.undefined) :
    getDataLayerValueFrom (records.map Item.record) key = Except.ok JSVal.undefined := by
  induction records with
  | nil => rfl
  | cons r rest ih =>
    have hr : Record.get r key = JSVal.undefined := h r (List.mem_cons_self _ _)
    have hrest := ih (fun r' hr' => h r' (List.mem_cons_of_mem _ hr'))
    simp [getDataLayerValueFrom, Item.get, hr, hrest]

/-- The lookup `getDataLayerValue` finds nothing in a log of records that all leave the key undefined. -/
theorem getDataLayerValue_records (key : String) (records : List Record)
    (h : ∀ r ∈ records, Record.get r key = JSVal.undefined) :
    getDataLayerValue (records.map Item.record) key = Except.ok JSVal.undefined := by
  unfold getDataLayerValue
  rw [← List.map_reverse]
  exact getDataLayerValueFrom_records key records.reverse
    (fun r hr => h r (List.mem_reverse.mp hr))

/-- A match of the placeholder pattern consumes exactly the source text of the placeholder. -/
theorem matchAt_source (cs captured after : List Char) (h : matchAt cs = some (captured, after)) :
    cs = (Segment.hole captured).source ++ after := by
  unfold matchAt at h
  match cs, h with
  | c1 :: c2 :: rest, h =>
    simp only at h
    split at h
    · rename_i hc
      split at h
      · rename_i g gs d1 d2 after' hspan
        split at h
        · rename_i hd
          simp only [Option.some.injEq, Prod.mk.injEq] at h
          obtain ⟨h1, h2⟩ := h
          subst h1 h2
          rw [List.span_eq_take_drop] at hspan
          simp only [Prod.mk.injEq] at hspan
          have := List.takeWhile_append_dropWhile (fun c => c != closeBrace) rest
          rw [hspan.1, hspan.2] at this
          simp [Segment.source, hc.1, hc.2, hd.1, hd.2, ← this]
        · simp at h
      · simp at h
    · simp at h

/-- The input left after a match is shorter than the input. -/
theorem matchAt_length (cs captured after : List Char) (h : matchAt cs = some (captured, after)) :
    after.length < cs.length := by
  have := congrArg List.length (matchAt_source cs captured after h)
  simp [Segment.source] at this
  omega

/-- With a budget of at least the length of the input, the segments spell the input. -/
theorem scanFuel_source (fuel : Nat) (cs : List Char) (h : cs.length ≤ fuel) :
    (scanFuel fuel cs).flatMap Segment.source = cs := by
  induction fuel generalizing cs with
  | zero =>
    have : cs = [] := List.length_eq_zero.mp (Nat.le_zero.mp h)
    subst this; rfl
  | succ n ih =>
    cases cs with
    | nil => rfl
    | cons c cs =>
      simp only [scanFuel]
      split
      · rename_i captured after hm
        have hl := matchAt_length _ _ _ hm
        have hs := matchAt_source _ _ _ hm
        simp only [List.length_cons] at h hl
        rw [List.flatMap_cons, ih after (by omega)]
        exact hs.symm
      · simp only [List.length_cons] at h
        rw [List.flatMap_cons, ih cs (by omega)]
        rfl

/-- The segments of a template spell the template. -/
theorem scan_source (cs : List Char) : (scan cs).flatMap Segment.source = cs :=
  scanFuel_source cs.length cs (Nat.le_refl _)

/-- When every segment renders as its source, the result of the replacement is the text the segments spell. -/
theorem renderAll_source (page : Page) (dataLayer : List Item) (eventData : Record)
    (segments : List Segment)
    (h : ∀ seg ∈ segments, renderSegment page dataLayer eventData seg = Except.ok seg.source) :
    renderAll page dataLayer eventData segments = Except.ok (segments.flatMap Segment.source) := by
  induction segments with
  | nil => rfl
  | cons seg rest ih =>
    simp [renderAll, h seg (List.mem_cons_self _ _),
      ih (fun seg' hs => h seg' (List.mem_cons_of_mem _ hs))]

/-- On an unmatched name the callback returns the matched text. -/
theorem resolveVariable_unmatched (page : Page) (log : List Record) (eventData : Record)
    (matched captured : String) (h : Unmatched eventData log (trim captured)) :
    resolveVariable page (log.map Item.record) eventData matched captured
      = Except.ok (JSVal.str matched) := by
  obtain ⟨h1, h2, h3⟩ := h
  simp only [pageAttributeNames, List.mem_cons, List.mem_singleton, not_or, List.not_mem_nil,
    or_false] at h2
  obtain ⟨a1, a2, a3, a4, a5⟩ := h2
  simp [resolveVariable, h1, a1, a2, a3, a4, a5, getDataLayerValue_records _ _ h3]

/-- A text segment, or a placeholder with an unmatched name, renders as its source. -/
theorem renderSegment_unmatched (page : Page) (log : List Record) (eventData : Record)
    (seg : Segment) (h : SegmentUnmatched eventData log seg) :
    renderSegment page (log.map Item.record) eventData seg = Except.ok seg.source := by
  cases seg with
  | text c => rfl
  | hole captured =>
    simp only [renderSegment]
    rw [resolveVariable_unmatched page log eventData _ _ h]
    rfl

/-- Claim C8. A placeholder whose trimmed name is left undefined by the event
data, is none of the five page attributes and is left undefined by every record
of the Event Log is put back as its own text: the segment renders as its source,
a template all of whose placeholders are such is returned unchanged, and the two
examples of the claim hold (`missing` with an empty context and log stays as it
is, `hello name` with `name = Ann` becomes `hello Ann` whatever the log). -/
theorem replaceVariables_keeps_unmatched (page : Page) (log : List Record) (eventData : Record) :
    (∀ captured : List Char, Unmatched eventData log (trim (String.mk captured)) →
      renderSegment page (log.map Item.record) eventData (Segment.hole captured)
        = Except.ok (Segment.hole captured).source)
    ∧ (∀ template : String,
        (∀ seg ∈ scan template.data, SegmentUnmatched eventData log seg) →
        replaceVariables page (log.map Item.record) eventData (JSVal.str template)
          = Except.ok (JSVal.str template))
    ∧ replaceVariables page [] [] (JSVal.str "\x7b\x7bmissing\x7d\x7d")
        = Except.ok (JSVal.str "\x7b\x7bmissing\x7d\x7d")
    ∧ replaceVariables page (log.map Item.record) [("name", JSVal.str "Ann")]
          (JSVal.str "hello \x7b\x7bname\x7d\x7d")
        = Except.ok (JSVal.str "hello Ann") := by
  refine ⟨fun captured h => renderSegment_unmatched page log eventData _ h, ?_, rfl, rfl⟩
  intro template h
  simp only [replaceVariables]
  rw [renderAll_source page _ eventData _
    (fun seg hs => renderSegment_unmatched page log eventData seg (h seg hs)), scan_source]

/-- Witness for C8: a template with one unmatched placeholder, on a log of one
record and a context whose value is `undefined`. -/
theorem replaceVariables_keeps_unmatched_witness :
    replaceVariables samplePage ([[("x", JSVal.num 1)]].map Item.record) [("y", JSVal.undefined)]
        (JSVal.str "a \x7b\x7b y \x7d\x7d b")
      = Except.ok (JSVal.str "a \x7b\x7b y \x7d\x7d b") :=
  (replaceVariables_keeps_unmatched samplePage [[("x", JSVal.num 1)]] [("y", JSVal.undefined)]).2.1
    "a \x7b\x7b y \x7d\x7d b" (by decide)

/-- Counterexample to C9 as stated: the value found in the context (or in a
record of the Event Log) is `null`, and the output is the literal text `null` in
place of the placeholder. -/
theorem replaceVariables_null_counterexample :
    Record.get [("x", JSVal.null)] "x" = JSVal.null
    ∧ replaceVariables samplePage [] [("x", JSVal.null)] (JSVal.str "\x7b\x7bx\x7d\x7d")
        = Except.ok (JSVal.str "null")
    ∧ replaceVariables samplePage [Item.record [("x", JSVal.null)]] []
        (JSVal.str "\x7b\x7bx\x7d\x7d") = Except.ok (JSVal.str "null") := by
  decide

/-- Claim C9, amended. The callback of `replaceVariables` never returns the value
`undefined`, so an undefined value is never interpolated as the text
`undefined`; a `null` found in the event data, or found in the Event Log for a
name that the event data and the page do not define, is returned and is rendered
as the text `null`. -/
theorem replaceVariables_never_undefined (page : Page) (dataLayer : List Item)
    (eventData : Record) (matched captured : String) :
    (∀ v, resolveVariable page dataLayer eventData matched captured = Except.ok v →
      v ≠ JSVal.undefined)
    ∧ (eventData.get (trim captured) = JSVal.null →
        resolveVariable page dataLayer eventData matched captured = Except.ok JSVal.null)
    ∧ (eventData.get (trim captured) = JSVal.undefined → trim captured ∉ pageAttributeNames →
        getDataLayerValue dataLayer (trim captured) = Except.ok JSVal.null →
        resolveVariable page dataLayer eventData matched captured = Except.ok JSVal.null)
    ∧ JSVal.toStr JSVal.null = "null" := by
  refine ⟨?_, ?_, ?_, rfl⟩
  · intro v h
    unfold resolveVariable at h
    simp only at h
    split at h
    · rename_i hc
      cases h; exact hc
    · split at h
      · cases h; simp
      · split at h
        · cases h; simp
        · split at h
          · cases h; simp
          · split at h
            · cases h; simp
            · split at h
              · cases h; simp
              · split at h
                · cases h
                · rename_i dl hdl
                  split at h
                  · rename_i hne
                    cases h; exact hne
                  · cases h; simp
  · intro h
    simp [resolveVariable, h]
  · intro h1 h2 h3
    simp only [pageAttributeNames, List.mem_cons, List.mem_singleton, not_or, List.not_mem_nil,
      or_false] at h2
    obtain ⟨a1, a2, a3, a4, a5⟩ := h2
    simp [resolveVariable, h1, a1, a2, a3, a4, a5, h3]

/-- Witness for the amended C9: the context holds `null` for the name. -/
theorem replaceVariables_never_undefined_witness :
    resolveVariable samplePage [] [("x", JSVal.null)] "\x7b\x7bx\x7d\x7d" "x"
      = Except.ok JSVal.null :=
  (replaceVariables_never_undefined samplePage [] [("x", JSVal.null)]
    "\x7b\x7bx\x7d\x7d" "x").2.1 (by decide)

/-- Claim C10, the code at the failing input: pushing `null` through the public
push leaves `null` in the data layer without starting a pass, and from then on
`getDataLayerValue` and `replaceVariables` on a placeholder that the context and
the page do not define end in a `TypeError` instead of returning a string. -/
theorem replaceVariables_throws_after_null_push :
    (dataLayerPush (processTags sampleEnv 1) [Item.null] State.initial)
        = Res.done { State.initial with dataLayer := [Item.null] }
    ∧ getDataLayerValue [Item.null] "x" = Except.error typeError
    ∧ replaceVariables samplePage [Item.null] [] (JSVal.str "\x7b\x7bx\x7d\x7d")
        = Except.error typeError := by
  decide

/-! ## Every operation is a sequence of elementary state changes -/

/-- No change at all. -/
theorem Reach.refl (s : State) : Reach s s := Relation.ReflTransGen.refl

/-- Changes compose. -/
theorem Reach.trans {a b c : State} (h1 : Reach a b) (h2 : Reach b c) : Reach a c :=
  Relation.ReflTransGen.trans h1 h2

/-- One elementary change. -/
theorem Reach.step {a b : State} (h : Step a b) : Reach a b :=
  Relation.ReflTransGen.single h

/-- Logging an entry that is not a handler run is an elementary change. -/
theorem reach_log (s : State) (e : Event) (h : ∀ t d r, e ≠ Event.handler t d r) :
    Reach s (s.log e) := Reach.step (Step.log s e h)

/-- The `catch` block of `executeTag` only makes elementary changes, when `push` does. -/
theorem reach_catchBlock (push : List Item → State → Res)
    (hpush : ∀ args s, Reach s (push args s).state) (tag : Tag) (e : Thrown) (s : State) :
    Reach s (catchBlock push tag e s).state := by
  have h1 : Reach s (s.log (Event.errorLogged tag.name e)) :=
    reach_log s _ (by intro t d r h; cases h)
  unfold catchBlock
  simp only
  split
  · split
    · exact h1
    · exact h1.trans (hpush _ _)
  · exact h1

/-- After the `add`, the rest of the `try` block only makes elementary changes, when `push` does. -/
theorem reach_afterSwitch (push : List Item → State → Res)
    (hpush : ∀ args s, Reach s (push args s).state) (tag : Tag) (s : State) :
    Reach (s.addExecuted tag.id) (afterSwitch push tag s).state := by
  unfold afterSwitch
  simp only
  split
  · have hp := hpush [tagFiredItem tag] (s.addExecuted tag.id)
    cases h : push [tagFiredItem tag] (s.addExecuted tag.id) with
    | done s1 => rw [h] at hp; exact hp
    | fuelOut s1 => rw [h] at hp; exact hp
    | threw e s3 =>
      rw [h] at hp
      exact hp.trans (reach_catchBlock push hpush _ _ _)
  · exact Reach.refl _

/-- The function `executeTag` only makes elementary changes, when `push` does. -/
theorem reach_executeTag (env : Env) (push : List Item → State → Res)
    (hpush : ∀ args s, Reach s (push args s).state) (tag : Tag) (d : Record) (s : State) :
    Reach s (executeTag env push tag d s).state := by
  have h0 : Reach s (s.log (Event.call tag d)) :=
    reach_log s _ (by intro t d r h; cases h)
  unfold executeTag
  simp only
  split
  · exact h0
  · rename_i hb
    have hb' : ¬ (tag.fireOnce = true ∧ tag.id ∈ (s.log (Event.call tag d)).executedTags) := hb
    split
    · rename_i e hr
      exact (h0.trans (Reach.step (Step.failed _ tag d e hb'))).trans
        (reach_catchBlock push hpush _ _ _)
    · rename_i effect hr
      exact (h0.trans (Reach.step (Step.fired _ tag d effect hb'))).trans
        (reach_afterSwitch push hpush tag _)
    · exact (h0.trans (Reach.step (Step.added _ tag.id))).trans
        (reach_afterSwitch push hpush tag _)

/-- The loop of `processTags` only makes elementary changes, when `push` does. -/
theorem reach_forEachTag (env : Env) (push : List Item → State → Res)
    (hpush : ∀ args s, Reach s (push args s).state) (d : Record) (tags : List Tag) (s : State) :
    Reach s (forEachTag env push d tags s).state := by
  induction tags generalizing s with
  | nil => exact Reach.refl _
  | cons tag rest ih =>
    simp only [forEachTag]
    split
    · exact ih s
    · split
      · exact Reach.refl _
      · exact ih s
      · have he := reach_executeTag env push hpush tag d s
        cases h : executeTag env push tag d s with
        | done s1 => rw [h] at he; exact he.trans (ih s1)
        | threw e s1 => rw [h] at he; exact he
        | fuelOut s1 => rw [h] at he; exact he

/-- The body of `processTags` only makes elementary changes, when `push` does. -/
theorem reach_processTagsWith (env : Env) (push : List Item → State → Res)
    (hpush : ∀ args s, Reach s (push args s).state) (d : Record) (s : State) :
    Reach s (processTagsWith env push d s).state := by
  unfold processTagsWith
  split
  · exact Reach.refl _
  · split
    · exact Reach.refl _
    · rename_i tags _
      have h1 : Reach s (s.log (Event.passBegin d)) := reach_log s _ (by intro t d r h; cases h)
      have h2 := reach_forEachTag env push hpush d tags (s.log (Event.passBegin d))
      cases h : forEachTag env push d tags (s.log (Event.passBegin d)) with
      | done s1 =>
        rw [h] at h2
        exact (h1.trans h2).trans (reach_log s1 _ (by intro t d r h; cases h))
      | threw e s1 => rw [h] at h2; exact h1.trans h2
      | fuelOut s1 => rw [h] at h2; exact h1.trans h2

/-- The loop of the enhanced push only makes elementary changes, when a pass does. -/
theorem reach_pushLoop (pass : Record → State → Res)
    (hpass : ∀ d s, Reach s (pass d s).state) (args : List Item) (s : State) :
    Reach s (pushLoop pass args s).state := by
  induction args generalizing s with
  | nil => exact Reach.refl _
  | cons item rest ih =>
    simp only [pushLoop]
    split
    · split
      · exact Reach.refl _
      · split
        · rename_i event _ _
          have hp := hpass (Record.set item.spread "event" event) s
          unfold triggerEvent
          cases h : pass (Record.set item.spread "event" event) s with
          | done s1 => rw [h] at hp; exact hp.trans (ih s1)
          | threw e s1 => rw [h] at hp; exact hp
          | fuelOut s1 => rw [h] at hp; exact hp
        · exact ih s
    · exact ih s

/-- The enhanced push only makes elementary changes, when a pass does. -/
theorem reach_dataLayerPush (pass : Record → State → Res)
    (hpass : ∀ d s, Reach s (pass d s).state) (args : List Item) (s : State) :
    Reach s (dataLayerPush pass args s).state :=
  (Reach.step (Step.data s args)).trans (reach_pushLoop pass hpass args _)

/-- A pass only makes elementary changes, whatever its budget and however it ends. -/
theorem reach_processTags (env : Env) (fuel : Nat) (d : Record) (s : State) :
    Reach s (processTags env fuel d s).state := by
  induction fuel generalizing d s with
  | zero => exact Reach.refl _
  | succ n ih =>
    exact reach_processTagsWith env _ (fun args s => reach_dataLayerPush _ ih args s) d s

/-- The push seen by a pass only makes elementary changes. -/
theorem reach_pushIn (env : Env) (fuel : Nat) (args : List Item) (s : State) :
    Reach s (pushIn env fuel args s).state :=
  reach_dataLayerPush _ (reach_processTags env fuel) args s

/-- Dispatching a click only makes elementary changes, when `push` does. -/
theorem reach_dispatchClick (env : Env) (push : List Item → State → Res)
    (hpush : ∀ args s, Reach s (push args s).state) (click : Click) (ls : List Listener)
    (s : State) : Reach s (dispatchClick env push click ls s).state := by
  induction ls generalizing s with
  | nil => exact Reach.refl _
  | cons l rest ih =>
    have hl : Reach s (clickListener env push l click s).state := by
      unfold clickListener
      split
      · exact Reach.refl _
      · exact Reach.refl _
      · exact reach_executeTag env push hpush _ _ _
    simp only [dispatchClick]
    cases h : clickListener env push l click s with
    | done s1 => rw [h] at hl; exact hl.trans (ih s1)
    | threw e s1 => rw [h] at hl; exact hl.trans (ih s1)
    | fuelOut s1 => rw [h] at hl; exact hl

/-- One action only makes elementary changes. -/
theorem reach_step (env : Env) (fuel : Nat) (action : Action) (s : State) :
    Reach s (step env fuel action s).state := by
  cases action with
  | pass d => exact reach_processTags env fuel d s
  | push args => exact reach_dataLayerPush _ (reach_processTags env fuel) args s
  | trigger name data => exact reach_processTags env fuel _ s
  | setupClicks =>
    show Reach s (setupClickListeners s)
    unfold setupClickListeners
    split
    · exact Reach.refl _
    · split
      · exact Reach.refl _
      · exact Reach.step (Step.listeners s _)
  | click c => exact reach_dispatchClick env _ (reach_pushIn env fuel) c _ s

/-- A sequence of actions only makes elementary changes. -/
theorem reach_run (fuel : Nat) (actions : List (Env × Action)) (s : State) :
    Reach s (run fuel actions s).state := by
  induction actions generalizing s with
  | nil => exact Reach.refl _
  | cons a rest ih =>
    obtain ⟨env, action⟩ := a
    have hs := reach_step env fuel action s
    simp only [run]
    cases h : step env fuel action s with
    | done s1 => rw [h] at hs; exact hs.trans (ih s1)
    | threw e s1 => rw [h] at hs; exact hs.trans (ih s1)
    | fuelOut s1 => rw [h] at hs; exact hs

/-! ## The fire-once invariant -/

/-- The handler outcomes of a trace in two parts. -/
theorem handlerResults_append (tag : Tag) (xs ys : List Event) :
    handlerResults tag (xs ++ ys) = handlerResults tag xs ++ handlerResults tag ys := by
  induction xs with
  | nil => rfl
  | cons e rest ih =>
    cases e with
    | handler t d r => by_cases ht : t = tag <;> simp [handlerResults, ht, ih]
    | passBegin d => simpa [handlerResults] using ih
    | passEnd => simpa [handlerResults] using ih
    | call t d => simpa [handlerResults] using ih
    | errorLogged n e => simpa [handlerResults] using ih

/-- An entry that is not a handler run adds no outcome. -/
theorem handlerResults_log (tag : Tag) (s : State) (e : Event)
    (h : ∀ t d r, e ≠ Event.handler t d r) :
    handlerResults tag (s.log e).trace = handlerResults tag s.trace := by
  show handlerResults tag (s.trace ++ [e]) = _
  rw [handlerResults_append]
  cases e with
  | handler t d r => exact absurd rfl (h t d r)
  | passBegin d => simp [handlerResults]
  | passEnd => simp [handlerResults]
  | call t d => simp [handlerResults]
  | errorLogged n e => simp [handlerResults]

/-- Membership in `executedTags` after an `add`. -/
theorem mem_addExecuted (s : State) (id x : String) :
    x ∈ (s.addExecuted id).executedTags ↔ x ∈ s.executedTags ∨ x = id := by
  unfold State.addExecuted
  simp only
  split
  · rename_i h
    constructor
    · exact Or.inl
    · rintro (h1 | h1)
      · exact h1
      · exact h1 ▸ h
  · simp

/-- An elementary change removes nothing from `executedTags`. -/
theorem step_executed_mono {s s' : State} (h : Step s s') :
    ∀ x ∈ s.executedTags, x ∈ s'.executedTags := by
  intro x hx
  cases h with
  | log e h => exact hx
  | data args => exact hx
  | failed tag d e h => exact hx
  | fired tag d effect h => exact (mem_addExecuted _ _ _).mpr (Or.inl hx)
  | added id => exact (mem_addExecuted _ _ _).mpr (Or.inl hx)
  | listeners ls => exact hx

/-- Nothing is ever removed from `executedTags`. -/
theorem reach_executed_mono {s s' : State} (h : Reach s s') :
    ∀ x ∈ s.executedTags, x ∈ s'.executedTags := by
  induction h with
  | refl => exact fun x hx => hx
  | tail _ hstep ih => exact fun x hx => step_executed_mono hstep x (ih x hx)

/-- The invariant survives a change that adds no outcome and removes no recorded id. -/
theorem fireOnceInv_of_results_eq (tag : Tag) (s s' : State)
    (hr : handlerResults tag s'.trace = handlerResults tag s.trace)
    (he : ∀ x ∈ s.executedTags, x ∈ s'.executedTags) (h : FireOnceInv tag s) :
    FireOnceInv tag s' := by
  unfold FireOnceInv at *
  rw [hr]
  exact ⟨fun hn => h.1 (fun hm => hn (he _ hm)), h.2⟩

/-- The outcomes after one more handler run. -/
theorem handlerResults_handler (tag t : Tag) (s : State) (d : Record)
    (r : Except Thrown Effect) :
    handlerResults tag (s.log (Event.handler t d r)).trace
      = handlerResults tag s.trace ++
          (if t = tag then [match r with | Except.ok _ => true | Except.error _ => false]
            else []) := by
  show handlerResults tag (s.trace ++ [Event.handler t d r]) = _
  rw [handlerResults_append]
  by_cases ht : t = tag <;> simp [handlerResults, ht]

/-- An elementary change keeps the invariant of a fire-once tag. -/
theorem step_fireOnceInv (tag : Tag) (hf : tag.fireOnce = true) {s s' : State}
    (h : Step s s') (hi : FireOnceInv tag s) : FireOnceInv tag s' := by
  cases h with
  | log e h =>
    exact fireOnceInv_of_results_eq tag s _ (handlerResults_log tag s e h) (fun _ hx => hx) hi
  | data args => exact fireOnceInv_of_results_eq tag s _ rfl (fun _ hx => hx) hi
  | added id =>
    exact fireOnceInv_of_results_eq tag s _ rfl
      (fun x hx => (mem_addExecuted _ _ _).mpr (Or.inl hx)) hi
  | listeners ls => exact fireOnceInv_of_results_eq tag s _ rfl (fun _ hx => hx) hi
  | failed t d e h =>
    by_cases ht : t = tag
    · subst ht
      have hn : t.id ∉ s.executedTags := fun hm => h ⟨hf, hm⟩
      have hall := hi.1 hn
      unfold FireOnceInv
      rw [handlerResults_handler]
      simp only [if_true]
      refine ⟨fun _ b hb => ?_, fun b hb => ?_⟩
      · rcases List.mem_append.mp hb with hb | hb
        · exact hall b hb
        · simpa using hb
      · rw [List.dropLast_concat] at hb
        exact hall b hb
    · refine fireOnceInv_of_results_eq tag s _ ?_ (fun _ hx => hx) hi
      rw [handlerResults_handler]
      simp [ht]
  | fired t d effect h =>
    by_cases ht : t = tag
    · subst ht
      have hn : t.id ∉ s.executedTags := fun hm => h ⟨hf, hm⟩
      have hall := hi.1 hn
      unfold FireOnceInv
      show (t.id ∉ ((s.log _).addExecuted t.id).executedTags → _) ∧
        ∀ b ∈ (handlerResults t (s.log (Event.handler t d (Except.ok effect))).trace).dropLast, _
      rw [handlerResults_handler]
      simp only [if_true]
      refine ⟨fun hnot => absurd ((mem_addExecuted _ _ _).mpr (Or.inr rfl)) hnot, fun b hb => ?_⟩
      rw [List.dropLast_concat] at hb
      exact hall b hb
    · refine fireOnceInv_of_results_eq tag s _ ?_
        (fun x hx => (mem_addExecuted _ _ _).mpr (Or.inl hx)) hi
      show handlerResults tag (s.log (Event.handler t d (Except.ok effect))).trace = _
      rw [handlerResults_handler]
      simp [ht]

/-- The invariant of a fire-once tag holds in every state reached. -/
theorem reach_fireOnceInv (tag : Tag) (hf : tag.fireOnce = true) {s s' : State}
    (h : Reach s s') (hi : FireOnceInv tag s) : FireOnceInv tag s' := by
  induction h with
  | refl => exact hi
  | tail _ hstep ih => exact step_fireOnceInv tag hf hstep ih

/-- A list of outcomes in which all but the last are failures has at most one success. -/
theorem count_true_le_one (l : List Bool) (h : ∀ b ∈ l.dropLast, b = false) :
    l.count true ≤ 1 := by
  rcases List.eq_nil_or_concat l with hl | ⟨l', b, hl⟩
  · subst hl; simp
  · subst hl
    rw [List.concat_eq_append] at h ⊢
    rw [List.dropLast_concat] at h
    have : l'.count true = 0 := by
      rw [List.count_eq_zero]
      intro hm
      exact absurd (h true hm) (by decide)
    rw [List.count_append, this]
    simp only [zero_add]
    exact List.count_le_length _ _

/-- On a page whose payloads do not enter the engine, for a tag with
`fireOnce = true`, over any sequence of passes, pushes, `trigger` calls,
listener set-ups and click dispatches from a state with an empty trace, and
whatever the budget of nested passes: at most one run of the tag's type handler
returns normally, and every run before the last one threw. -/
theorem fireOnce_handler_returns_at_most_once (fuel : Nat) (actions : List (Env × Action))
    (s : State) (tag : Tag) (hf : tag.fireOnce = true) (hs : s.trace = []) :
    (handlerResults tag (run fuel actions s).state.trace).count true ≤ 1
    ∧ ∀ b ∈ (handlerResults tag (run fuel actions s).state.trace).dropLast, b = false := by
  have h0 : FireOnceInv tag s := by
    unfold FireOnceInv
    rw [hs]
    simp [handlerResults]
  have h1 := reach_fireOnceInv tag hf (reach_run fuel actions s) h0
  exact ⟨count_true_le_one _ h1.2, h1.2⟩

/-! ## Execution of one tag -/

/-- Claim C1, the code at the failing input: the handler of a fire-once tag runs
twice. The tag's id is recorded by `state.executedTags.add` only after the
handler has returned. A fire-once tag whose handler throws is therefore run by
each of two pageview passes that satisfy its trigger. And a fire-once tag whose
code pushes an event is run again by the pass of that event, which begins
inside the handler, before the id is recorded: in one pageview pass its handler
returns normally twice. -/
theorem fireOnce_handler_runs_twice :
    throwingTag.fireOnce = true
    ∧ everyTrigger sampleEnv (State.loadedWith (sampleConfig [throwingTag])) pageviewData
        throwingTag.triggers = Except.ok true
    ∧ handlerResults throwingTag
        (run 1 [(sampleEnv, Action.pass pageviewData), (sampleEnv, Action.pass pageviewData)]
          (State.loadedWith (sampleConfig [throwingTag]))).state.trace = [false, false]
    ∧ pushOnceTag.fireOnce = true
    ∧ handlerResults pushOnceTag
        (processTagsLive liveHost 2 pageviewData
          (State.loadedWith (sampleConfig [pushOnceTag]))).state.trace = [true, true] := by
  decide

/-- Two pageview passes over a fire-once script tag, on the sample page: the
handler returns once. -/
theorem fireOnce_handler_returns_at_most_once_witness :
    (handlerResults scriptTag
        (run 1 [(sampleEnv, Action.pass pageviewData), (sampleEnv, Action.pass pageviewData)]
          (State.loadedWith (sampleConfig [scriptTag]))).state.trace).count true ≤ 1
    ∧ ∀ b ∈ (handlerResults scriptTag
        (run 1 [(sampleEnv, Action.pass pageviewData), (sampleEnv, Action.pass pageviewData)]
          (State.loadedWith (sampleConfig [scriptTag]))).state.trace).dropLast, b = false :=
  fireOnce_handler_returns_at_most_once 1
    [(sampleEnv, Action.pass pageviewData), (sampleEnv, Action.pass pageviewData)]
    (State.loadedWith (sampleConfig [scriptTag])) scriptTag (by decide) (by decide)

/-- Claim C2, the code at the failing input: the handler of a fire-once tag
throws, the exception is caught, and when `executeTag` has returned the tag's
id is not in `executedTags`; a second call of `executeTag` runs the handler
again, and the id is still not recorded. -/
theorem throwing_fireOnce_tag_not_recorded :
    throwingTag.fireOnce = true
    ∧ runHandler sampleEnv
        ((State.loadedWith (sampleConfig [throwingTag])).log (Event.call throwingTag pageviewData))
        throwingTag pageviewData = some (Except.error (Thrown.error "Error" "1"))
    ∧ (∃ s, executeTag sampleEnv (pushIn sampleEnv 1) throwingTag pageviewData
        (State.loadedWith (sampleConfig [throwingTag])) = Res.done s ∧ s.executedTags = [])
    ∧ (executeTag sampleEnv (pushIn sampleEnv 1) throwingTag pageviewData
        (executeTag sampleEnv (pushIn sampleEnv 1) throwingTag pageviewData
          (State.loadedWith (sampleConfig [throwingTag]))).state).state.executedTags = []
    ∧ handlerResults throwingTag
        (executeTag sampleEnv (pushIn sampleEnv 1) throwingTag pageviewData
          (executeTag sampleEnv (pushIn sampleEnv 1) throwingTag pageviewData
            (State.loadedWith (sampleConfig [throwingTag]))).state).state.trace
      = [false, false] := by
  refine ⟨by decide, by decide, ⟨_, rfl, by decide⟩, by decide, by decide⟩

/-- When the type handler of a tag throws, control goes to the `catch` block
with `executedTags` as it was before the call: the id is not added. With
`onError` not set, `executeTag` returns normally right after logging the error
and `executedTags` is unchanged. -/
theorem throwing_tag_caught_and_not_recorded (env : Env) (push : List Item → State → Res)
    (tag : Tag) (eventData : Record) (s : State) (e : Thrown)
    (hfree : ¬ (tag.fireOnce = true ∧ tag.id ∈ s.executedTags))
    (hthrow : runHandler env (s.log (Event.call tag eventData)) tag eventData
      = some (Except.error e)) :
    executeTag env push tag eventData s
      = catchBlock push tag e
          ((s.log (Event.call tag eventData)).log (Event.handler tag eventData (Except.error e)))
    ∧ ((s.log (Event.call tag eventData)).log
          (Event.handler tag eventData (Except.error e))).executedTags = s.executedTags
    ∧ (tag.onError = false →
        executeTag env push tag eventData s
          = Res.done (((s.log (Event.call tag eventData)).log
              (Event.handler tag eventData (Except.error e))).log
                (Event.errorLogged tag.name e))
        ∧ (executeTag env push tag eventData s).state.executedTags = s.executedTags) := by
  have hfree' : ¬ (tag.fireOnce = true ∧ tag.id ∈ (s.log (Event.call tag eventData)).executedTags) :=
    hfree
  have h1 : executeTag env push tag eventData s
      = catchBlock push tag e
          ((s.log (Event.call tag eventData)).log (Event.handler tag eventData (Except.error e))) := by
    unfold executeTag
    simp only [if_neg hfree', hthrow]
  refine ⟨h1, rfl, fun hno => ?_⟩
  have h2 : executeTag env push tag eventData s
      = Res.done (((s.log (Event.call tag eventData)).log
          (Event.handler tag eventData (Except.error e))).log (Event.errorLogged tag.name e)) := by
    rw [h1]
    unfold catchBlock
    simp [hno]
  exact ⟨h2, by rw [h2]; rfl⟩

/-- The throwing fire-once tag of the samples leaves `executedTags` as it was. -/
theorem throwing_tag_caught_and_not_recorded_witness :
    (executeTag sampleEnv (pushIn sampleEnv 1) throwingTag pageviewData
        (State.loadedWith (sampleConfig [throwingTag]))).state.executedTags
      = (State.loadedWith (sampleConfig [throwingTag])).executedTags :=
  ((throwing_tag_caught_and_not_recorded sampleEnv (pushIn sampleEnv 1) throwingTag pageviewData
    (State.loadedWith (sampleConfig [throwingTag])) (Thrown.error "Error" "1")
    (by decide) (by decide)).2.2 (by decide)).2

/-- Claim C3, the code at the failing input: a custom tag with `onError` set
whose code throws `null`, followed by an enabled script tag whose trigger
matches. The `catch` block reads `error.message`, the `TypeError` of that read
leaves `executeTag` and `processTags`, and `executeTag` is never entered on the
script tag. -/
theorem pass_aborted_by_catch_block :
    nullThrowingTag.enabled = true ∧ scriptTag.enabled = true
    ∧ everyTrigger sampleEnv (State.loadedWith (sampleConfig [nullThrowingTag, scriptTag]))
        pageviewData scriptTag.triggers = Except.ok true
    ∧ (∃ s, processTags sampleEnv 1 pageviewData
        (State.loadedWith (sampleConfig [nullThrowingTag, scriptTag])) = Res.threw typeError s)
    ∧ calledTags (processTags sampleEnv 1 pageviewData
        (State.loadedWith (sampleConfig [nullThrowingTag, scriptTag]))).state.trace
        = [nullThrowingTag] := by
  refine ⟨by decide, by decide, by decide, ⟨_, rfl⟩, by decide⟩

/-- Where the `catch` block does not throw: when the handler of an enabled tag
whose triggers match throws and `onError` is not set, the loop of `processTags`
goes on with the later tags from the state in which the error was logged. -/
theorem forEachTag_continues_after_caught_throw (env : Env) (push : List Item → State → Res)
    (tag : Tag) (rest : List Tag) (eventData : Record) (s : State) (e : Thrown)
    (he : tag.enabled = true)
    (ht : everyTrigger env s eventData tag.triggers = Except.ok true)
    (hfree : ¬ (tag.fireOnce = true ∧ tag.id ∈ s.executedTags))
    (hthrow : runHandler env (s.log (Event.call tag eventData)) tag eventData
      = some (Except.error e))
    (hno : tag.onError = false) :
    forEachTag env push eventData (tag :: rest) s
      = forEachTag env push eventData rest
          (((s.log (Event.call tag eventData)).log
            (Event.handler tag eventData (Except.error e))).log
              (Event.errorLogged tag.name e)) := by
  have hfree' : ¬ (tag.fireOnce = true ∧
      tag.id ∈ (s.log (Event.call tag eventData)).executedTags) := hfree
  have h1 : executeTag env push tag eventData s
      = Res.done (((s.log (Event.call tag eventData)).log
          (Event.handler tag eventData (Except.error e))).log
            (Event.errorLogged tag.name e)) := by
    unfold executeTag
    simp only [if_neg hfree', hthrow]
    simp [catchBlock, hno]
  simp only [forEachTag]
  rw [if_neg (by simp [he]), ht]
  simp only [h1]

/-- Claim C4, the code at the failing input: a disabled tag with a click trigger.
The pageview pass skips it, `setupClickListeners` binds its listener all the
same, and the click calls `executeTag` on it: its handler runs and its id is
recorded. -/
theorem click_listener_executes_disabled_tag :
    disabledTag.enabled = false
    ∧ calledTags (run 1 [(sampleEnv, Action.pass pageviewData), (sampleEnv, Action.setupClicks),
          (sampleEnv, Action.click buyClickEvent)]
        (State.loadedWith (sampleConfig [disabledTag]))).state.trace = [disabledTag]
    ∧ handlerResults disabledTag
        (run 1 [(sampleEnv, Action.pass pageviewData), (sampleEnv, Action.setupClicks),
          (sampleEnv, Action.click buyClickEvent)]
        (State.loadedWith (sampleConfig [disabledTag]))).state.trace = [true]
    ∧ (run 1 [(sampleEnv, Action.pass pageviewData), (sampleEnv, Action.setupClicks),
          (sampleEnv, Action.click buyClickEvent)]
        (State.loadedWith (sampleConfig [disabledTag]))).state.executedTags = ["t5"] := by
  decide

/-! ## One pass over the tags -/

/-- The loop of `processTags` calls `executeTag` on the enabled tags whose triggers hold, in order. -/
theorem forEachTag_eq_executeAll (env : Env) (push : List Item → State → Res)
    (eventData : Record) (m : Tag → Bool) (tags : List Tag)
    (hm : ∀ tag ∈ tags, tag.enabled = true →
      ∀ s, everyTrigger env s eventData tag.triggers = Except.ok (m tag)) (s : State) :
    forEachTag env push eventData tags s
      = executeAll env push eventData (tags.filter (fun t => t.enabled && m t)) s := by
  induction tags generalizing s with
  | nil => rfl
  | cons tag rest ih =>
    have ih' := ih (fun t ht => hm t (List.mem_cons_of_mem _ ht))
    simp only [forEachTag]
    by_cases he : tag.enabled = true
    · have hs := hm tag (List.mem_cons_self _ _) he s
      rw [if_neg (by simp [he]), hs]
      cases hmt : m tag with
      | false =>
        simp only [List.filter_cons, he, hmt, Bool.and_false]
        exact ih' s
      | true =>
        simp only [List.filter_cons, he, hmt, Bool.and_self, if_true, executeAll]
        cases executeTag env push tag eventData s with
        | done s1 => exact ih' s1
        | threw e s1 => rfl
        | fuelOut s1 => rfl
    · have he' : tag.enabled = false := by simpa using he
      rw [if_pos he']
      simp only [List.filter_cons, he', Bool.false_and]
      exact ih' s

/-- The called tags of a trace in two parts. -/
theorem calledTags_append (xs ys : List Event) :
    calledTags (xs ++ ys) = calledTags xs ++ calledTags ys := by
  induction xs with
  | nil => rfl
  | cons e rest ih => cases e <;> simp [calledTags, ih]

/-- The called tags after one more entry. -/
theorem calledTags_log (s : State) (e : Event) :
    calledTags (s.log e).trace = calledTags s.trace ++ calledTags [e] :=
  calledTags_append s.trace [e]

/-- Without `onSuccess` and `onError`, `executeTag` returns normally and the trace gains exactly one call. -/
theorem executeTag_plain (env : Env) (push : List Item → State → Res) (tag : Tag)
    (eventData : Record) (s : State) (h1 : tag.onSuccess = false) (h2 : tag.onError = false) :
    ∃ s1, executeTag env push tag eventData s = Res.done s1
      ∧ calledTags s1.trace = calledTags s.trace ++ [tag] := by
  unfold executeTag
  simp only
  split
  · exact ⟨_, rfl, by rw [calledTags_log]; rfl⟩
  · split
    · rename_i e _
      refine ⟨((s.log (Event.call tag eventData)).log
        (Event.handler tag eventData (Except.error e))).log (Event.errorLogged tag.name e),
        by simp [catchBlock, h2], ?_⟩
      rw [calledTags_log, calledTags_log, calledTags_log]
      simp [calledTags]
    · rename_i effect _
      refine ⟨((s.log (Event.call tag eventData)).log
        (Event.handler tag eventData (Except.ok effect))).addExecuted tag.id,
        by simp [afterSwitch, h1], ?_⟩
      show calledTags ((s.log _).log _).trace = _
      rw [calledTags_log, calledTags_log]
      simp [calledTags]
    · refine ⟨(s.log (Event.call tag eventData)).addExecuted tag.id,
        by simp [afterSwitch, h1], ?_⟩
      show calledTags (s.log _).trace = _
      rw [calledTags_log]
      simp [calledTags]

/-- Without `onSuccess` and `onError`, a sequence of calls returns normally and the trace gains exactly those calls. -/
theorem executeAll_plain (env : Env) (push : List Item → State → Res) (eventData : Record)
    (tags : List Tag) (h : ∀ tag ∈ tags, tag.onSuccess = false ∧ tag.onError = false)
    (s : State) :
    ∃ s1, executeAll env push eventData tags s = Res.done s1
      ∧ calledTags s1.trace = calledTags s.trace ++ tags := by
  induction tags generalizing s with
  | nil => exact ⟨s, rfl, by simp⟩
  | cons tag rest ih =>
    obtain ⟨h1, h2⟩ := h tag (List.mem_cons_self _ _)
    obtain ⟨s1, hs1, hc1⟩ := executeTag_plain env push tag eventData s h1 h2
    obtain ⟨s2, hs2, hc2⟩ := ih (fun t ht => h t (List.mem_cons_of_mem _ ht)) s1
    refine ⟨s2, ?_, ?_⟩
    · simp only [executeAll, hs1]
      exact hs2
    · rw [hc2, hc1]
      simp

/-- Claim C5. Let `m tag` be the value of the conjunction of the triggers of each
enabled tag for the context. Then the loop of `processTags` is the sequence of
calls of `executeTag` on exactly the enabled tags with `m tag = true`, in the
order of `config.tags`, and `processTags` is that sequence between the marks of
the pass; an enabled tag with no trigger is one of the tags dispatched, in
whatever context, the pageview pass included; and when no tag sets `onSuccess`
or `onError` the pass returns and the tags on which `executeTag` was entered
during it are exactly that list. -/
theorem processTags_dispatches_matching_tags (env : Env) (eventData : Record)
    (config : Config) (tags : List Tag) (m : Tag → Bool) (hc : config.tags = some tags)
    (hm : ∀ tag ∈ tags, tag.enabled = true →
      ∀ s, everyTrigger env s eventData tag.triggers = Except.ok (m tag)) :
    (∀ push s, forEachTag env push eventData tags s
      = executeAll env push eventData (tags.filter (fun t => t.enabled && m t)) s)
    ∧ (∀ fuel s, s.config = some config →
        processTags env (fuel + 1) eventData s
          = match executeAll env (pushIn env fuel) eventData
              (tags.filter (fun t => t.enabled && m t)) (s.log (Event.passBegin eventData)) with
            | Res.done s1 => Res.done (s1.log Event.passEnd)
            | r => r)
    ∧ (∀ tag ∈ tags, tag.enabled = true → tag.triggers = [] →
        tag ∈ tags.filter (fun t => t.enabled && m t))
    ∧ ((∀ tag ∈ tags, tag.onSuccess = false ∧ tag.onError = false) →
        ∀ fuel s, s.config = some config →
          ∃ s1, processTags env (fuel + 1) eventData s = Res.done s1
            ∧ calledTags s1.trace
                = calledTags s.trace ++ tags.filter (fun t => t.enabled && m t)) := by
  have hA := fun push s => forEachTag_eq_executeAll env push eventData m tags hm s
  have hB : ∀ fuel s, s.config = some config →
      processTags env (fuel + 1) eventData s
        = match executeAll env (pushIn env fuel) eventData
            (tags.filter (fun t => t.enabled && m t)) (s.log (Event.passBegin eventData)) with
          | Res.done s1 => Res.done (s1.log Event.passEnd)
          | r => r := by
    intro fuel s hs
    show processTagsWith env (pushIn env fuel) eventData s = _
    unfold processTagsWith
    simp only [hs, hc]
    rw [hA]
  refine ⟨hA, hB, ?_, ?_⟩
  · intro tag ht he htr
    have := hm tag ht he State.initial
    rw [htr] at this
    simp only [everyTrigger, Except.ok.injEq] at this
    simp [List.mem_filter, ht, he, ← this]
  · intro hplain fuel s hs
    obtain ⟨s1, h1, h2⟩ := executeAll_plain env (pushIn env fuel) eventData
      (tags.filter (fun t => t.enabled && m t))
      (fun t ht => hplain t (List.mem_filter.mp ht).1) (s.log (Event.passBegin eventData))
    refine ⟨s1.log Event.passEnd, ?_, ?_⟩
    · rw [hB fuel s hs, h1]
    · rw [calledTags_log, h2, calledTags_log]
      simp [calledTags]

/-- Witness for C5: the pageview pass over a tag without triggers, a disabled
tag, a tag on another event and a pageview tag dispatches the first and the
last, in that order. -/
theorem processTags_dispatches_matching_tags_witness :
    ∃ s1, processTags sampleEnv 1 pageviewData
        (State.loadedWith (sampleConfig [bareTag, disabledTag, purchaseTag, scriptTag]))
          = Res.done s1
      ∧ calledTags s1.trace = [bareTag, scriptTag] :=
  (processTags_dispatches_matching_tags sampleEnv pageviewData
    (sampleConfig [bareTag, disabledTag, purchaseTag, scriptTag])
    [bareTag, disabledTag, purchaseTag, scriptTag] sampleMatches rfl
    (by
      intro tag ht he s
      simp only [List.mem_cons, List.mem_singleton, List.not_mem_nil, or_false] at ht
      rcases ht with rfl | rfl | rfl | rfl
      · rfl
      · exact absurd he (by decide)
      · rfl
      · rfl)).2.2.2 (by decide) 0 _ rfl

/-! ## Invalid patterns and unknown tag types -/

/-- Counterexample to C6 as stated: on a url-match trigger whose pattern does not
compile `checkTrigger` raises instead of evaluating to false, and the pass ends
with that exception before `executeTag` is entered on the enabled tag that
follows, whose trigger matches. -/
theorem invalid_regex_raises_counterexample :
    badRegex.type = "url_match" ∧ badRegex.matchType = "regex"
    ∧ sampleEnv.regexTest badRegex.url sampleEnv.page.href = none
    ∧ checkTrigger sampleEnv State.initial (some badRegex) pageviewData
        = Except.error regexSyntaxError
    ∧ scriptTag.enabled = true
    ∧ everyTrigger sampleEnv State.initial pageviewData scriptTag.triggers = Except.ok true
    ∧ processTags sampleEnv 1 pageviewData (State.loadedWith (sampleConfig [badRegexTag, scriptTag]))
        = Res.threw regexSyntaxError
            ((State.loadedWith (sampleConfig [badRegexTag, scriptTag])).log
              (Event.passBegin pageviewData))
    ∧ calledTags (processTags sampleEnv 1 pageviewData
        (State.loadedWith (sampleConfig [badRegexTag, scriptTag]))).state.trace = [] := by
  decide

/-- The conjunction raises when it reaches a trigger whose evaluation raises. -/
theorem everyTrigger_append_error (env : Env) (s : State) (d : Record) (trigger : Trigger)
    (e : Thrown) (h : checkTrigger env s (some trigger) d = Except.error e)
    (before after : List Trigger) (hb : everyTrigger env s d before = Except.ok true) :
    everyTrigger env s d (before ++ trigger :: after) = Except.error e := by
  induction before with
  | nil => simp [everyTrigger, h]
  | cons t rest ih =>
    simp only [everyTrigger] at hb
    simp only [List.cons_append, everyTrigger]
    cases hc : checkTrigger env s (some t) d with
    | error e1 => rw [hc] at hb; cases hb
    | ok v =>
      rw [hc] at hb
      simp only at hb ⊢
      by_cases hv : v.truthy = true
      · rw [if_pos hv] at hb ⊢
        exact ih hb
      · rw [if_neg hv] at hb
        cases hb

/-- Claim C6, amended. On a url-match trigger with `matchType = regex` whose
pattern does not compile, `checkTrigger` raises the `SyntaxError`; when the loop
reaches that trigger (the tag is enabled and the triggers before it match) the
loop ends there with that exception, in the state it had, and the exception
leaves `processTags`. -/
theorem invalid_regex_ends_the_pass (env : Env) (s : State) (trigger : Trigger)
    (eventData : Record) (h1 : trigger.type = "url_match") (h2 : trigger.matchType = "regex")
    (h3 : env.regexTest trigger.url env.page.href = none) :
    checkTrigger env s (some trigger) eventData = Except.error regexSyntaxError
    ∧ (∀ push tag rest before after, tag.enabled = true →
        tag.triggers = before ++ trigger :: after →
        everyTrigger env s eventData before = Except.ok true →
        forEachTag env push eventData (tag :: rest) s = Res.threw regexSyntaxError s)
    ∧ (∀ push config tags s0 e s1, s0.config = some config → config.tags = some tags →
        forEachTag env push eventData tags (s0.log (Event.passBegin eventData)) = Res.threw e s1 →
        processTagsWith env push eventData s0 = Res.threw e s1) := by
  have hc : checkTrigger env s (some trigger) eventData = Except.error regexSyntaxError := by
    simp [checkTrigger, h1, h2, h3]
  refine ⟨hc, ?_, ?_⟩
  · intro push tag rest before after he ht hb
    simp only [forEachTag]
    rw [if_neg (by simp [he]), ht,
      everyTrigger_append_error env s eventData trigger _ hc before after hb]
  · intro push config tags s0 e s1 hs0 hcfg hf
    unfold processTagsWith
    simp only [hs0, hcfg, hf]

/-- Witness for the amended C6: the sample tag behind the pattern `(`. -/
theorem invalid_regex_ends_the_pass_witness :
    forEachTag sampleEnv (pushIn sampleEnv 0) pageviewData [badRegexTag, scriptTag] State.initial
      = Res.threw regexSyntaxError State.initial :=
  (invalid_regex_ends_the_pass sampleEnv State.initial badRegex pageviewData
    (by decide) (by decide) (by decide)).2.1 (pushIn sampleEnv 0) badRegexTag [scriptTag] [] []
    (by decide) (by decide) (by decide)

/-- Counterexample to C7 as stated: a tag of the unknown type `video` is executed
on a state with no recorded tag, and its id is in `executedTags` afterwards. -/
theorem unknown_type_recorded_counterexample :
    (videoTag.type ≠ "html" ∧ videoTag.type ≠ "script" ∧ videoTag.type ≠ "image"
      ∧ videoTag.type ≠ "custom")
    ∧ (State.loadedWith (sampleConfig [videoTag])).executedTags = []
    ∧ (executeTag sampleEnv (pushIn sampleEnv 1) videoTag pageviewData
        (State.loadedWith (sampleConfig [videoTag]))).state.executedTags = ["t4"] := by
  decide

/-- Claim C7, amended. For a tag whose type is none of `html`, `script`, `image`
and `custom`, no type handler runs, and the tag's id is recorded: with
`onSuccess` not set the call adds the id and returns, and in every case the id
is in `executedTags` when `executeTag` has ended. -/
theorem unknown_type_runs_no_handler_and_is_recorded (env : Env) (tag : Tag)
    (eventData : Record) (s : State)
    (ht : tag.type ≠ "html" ∧ tag.type ≠ "script" ∧ tag.type ≠ "image" ∧ tag.type ≠ "custom") :
    runHandler env s tag eventData = none
    ∧ (∀ push, ¬ (tag.fireOnce = true ∧ tag.id ∈ s.executedTags) → tag.onSuccess = false →
        executeTag env push tag eventData s
          = Res.done ((s.log (Event.call tag eventData)).addExecuted tag.id))
    ∧ (∀ fuel, tag.id ∈ (executeTag env (pushIn env fuel) tag eventData s).state.executedTags) := by
  obtain ⟨t1, t2, t3, t4⟩ := ht
  have hr : ∀ s0, runHandler env s0 tag eventData = none := by
    intro s0
    simp [runHandler, t1, t2, t3, t4]
  refine ⟨hr s, ?_, ?_⟩
  · intro push hfree hs
    have hfree' : ¬ (tag.fireOnce = true ∧
        tag.id ∈ (s.log (Event.call tag eventData)).executedTags) := hfree
    unfold executeTag
    simp only [if_neg hfree', hr]
    simp [afterSwitch, hs]
  · intro fuel
    by_cases hb : tag.fireOnce = true ∧ tag.id ∈ (s.log (Event.call tag eventData)).executedTags
    · have : executeTag env (pushIn env fuel) tag eventData s
          = Res.done (s.log (Event.call tag eventData)) := by
        unfold executeTag
        simp only [if_pos hb]
      rw [this]
      exact hb.2
    · have : executeTag env (pushIn env fuel) tag eventData s
          = afterSwitch (pushIn env fuel) tag (s.log (Event.call tag eventData)) := by
        unfold executeTag
        simp only [if_neg hb, hr]
      rw [this]
      exact reach_executed_mono
        (reach_afterSwitch (pushIn env fuel) (reach_pushIn env fuel) tag _) tag.id
        ((mem_addExecuted _ _ _).mpr (Or.inr rfl))

/-- Witness for the amended C7: the sample tag of type `video`. -/
theorem unknown_type_runs_no_handler_and_is_recorded_witness :
    runHandler sampleEnv State.initial videoTag pageviewData = none
    ∧ videoTag.id ∈ (executeTag sampleEnv (pushIn sampleEnv 1) videoTag pageviewData
        State.initial).state.executedTags :=
  ⟨(unknown_type_runs_no_handler_and_is_recorded sampleEnv videoTag pageviewData State.initial
      (by decide)).1,
   (unknown_type_runs_no_handler_and_is_recorded sampleEnv videoTag pageviewData State.initial
      (by decide)).2.2 1⟩

/-- The five page attributes are exactly the names in `pageAttributeNames`. -/
theorem pageAttribute_eq_none (page : Page) (name : String) :
    pageAttribute page name = none ↔ name ∉ pageAttributeNames := by
  unfold pageAttribute pageAttributeNames
  constructor
  · intro h
    split at h; · cases h
    split at h; · cases h
    split at h; · cases h
    split at h; · cases h
    split at h; · cases h
    simp [*]
  · intro h
    simp only [List.mem_cons, List.mem_singleton, not_or, List.not_mem_nil, or_false] at h
    obtain ⟨a1, a2, a3, a4, a5⟩ := h
    simp [a1, a2, a3, a4, a5]

/-- Claim C11. The callback of `replaceVariables` resolves a name in this
order: the value in the event data when that value is not `undefined`;
otherwise the page attribute of that name, whatever the Event Log holds;
otherwise what `getDataLayerValue` finds, or the placeholder itself. So a key
`page.url` of the event data overrides the page attribute, and without such a
key the page attribute is used even when a record of the Event Log holds
`page.url`. -/
theorem resolveVariable_precedence (page : Page) (dataLayer : List Item) (eventData : Record)
    (matched captured : String) :
    (eventData.get (trim captured) ≠ JSVal.undefined →
      resolveVariable page dataLayer eventData matched captured
        = Except.ok (eventData.get (trim captured)))
    ∧ (∀ text, eventData.get (trim captured) = JSVal.undefined →
        pageAttribute page (trim captured) = some text →
        resolveVariable page dataLayer eventData matched captured
          = Except.ok (JSVal.str text))
    ∧ (eventData.get (trim captured) = JSVal.undefined →
        pageAttribute page (trim captured) = none →
        resolveVariable page dataLayer eventData matched captured
          = match getDataLayerValue dataLayer (trim captured) with
            | Except.error e => Except.error e
            | Except.ok dlValue =>
              if dlValue ≠ JSVal.undefined then Except.ok dlValue
              else Except.ok (JSVal.str matched))
    ∧ replaceVariables page [Item.record [("page.url", JSVal.str "from the log")]]
          [("page.url", JSVal.str "from the context")]
          (JSVal.str "\x7b\x7bpage.url\x7d\x7d")
        = Except.ok (JSVal.str "from the context")
    ∧ replaceVariables page [Item.record [("page.url", JSVal.str "from the log")]] []
          (JSVal.str "\x7b\x7bpage.url\x7d\x7d")
        = Except.ok (JSVal.str page.href) := by
  refine ⟨?_, ?_, ?_, rfl, ?_⟩
  · intro h
    simp [resolveVariable, h]
  · intro text h1 h2
    unfold pageAttribute at h2
    unfold resolveVariable
    simp only [h1, ne_eq, not_true_eq_false, if_false]
    split at h2
    · rename_i hn; cases h2; simp [hn]
    · rename_i n1
      split at h2
      · rename_i hn; cases h2; simp [hn, n1]
      · rename_i n2
        split at h2
        · rename_i hn; cases h2; simp [hn, n1, n2]
        · rename_i n3
          split at h2
          · rename_i hn; cases h2; simp [hn, n1, n2, n3]
          · rename_i n4
            split at h2
            · rename_i hn; cases h2; simp [hn, n1, n2, n3, n4]
            · cases h2
  · intro h1 h2
    have h3 := (pageAttribute_eq_none page (trim captured)).mp h2
    simp only [pageAttributeNames, List.mem_cons, List.mem_singleton, not_or, List.not_mem_nil,
      or_false] at h3
    obtain ⟨a1, a2, a3, a4, a5⟩ := h3
    simp [resolveVariable, h1, a1, a2, a3, a4, a5]
  · have h : replaceVariables page [Item.record [("page.url", JSVal.str "from the log")]] []
          (JSVal.str "\x7b\x7bpage.url\x7d\x7d")
        = Except.ok (JSVal.str (String.mk (page.href.data ++ []))) := rfl
    rw [h, List.append_nil]

/-- Witness for C11: `page.title` with an empty context and a log that holds
`page.title` resolves to the title of the page. -/
theorem resolveVariable_precedence_witness :
    resolveVariable samplePage [Item.record [("page.title", JSVal.str "log")]] []
        "\x7b\x7bpage.title\x7d\x7d" "page.title" = Except.ok (JSVal.str "A") :=
  (resolveVariable_precedence samplePage [Item.record [("page.title", JSVal.str "log")]] []
    "\x7b\x7bpage.title\x7d\x7d" "page.title").2.1 "A" (by decide) (by decide)

/-- The pattern matches at a placeholder whose captured group is not empty and
holds no closing brace, and captures that group. -/
theorem matchAt_hole (captured after : List Char) (hne : captured ≠ [])
    (hclose : closeBrace ∉ captured) :
    matchAt ((Segment.hole captured).source ++ after) = some (captured, after) := by
  have hspan : List.span (fun c => c != closeBrace) (captured ++ closeBrace :: closeBrace :: after)
      = (captured, closeBrace :: closeBrace :: after) := by
    rw [List.span_eq_take_drop]
    have hall : ∀ c ∈ captured, (c != closeBrace) = true := by
      intro c hc
      simp only [bne_iff_ne, ne_eq]
      intro h
      exact hclose (h ▸ hc)
    rw [List.takeWhile_append_of_pos hall, List.dropWhile_append_of_pos hall]
    simp [List.takeWhile, List.dropWhile]
  cases captured with
  | nil => exact absurd rfl hne
  | cons g gs =>
    simp only [Segment.source, List.cons_append, List.append_assoc, List.singleton_append,
      List.nil_append, matchAt, and_self, if_true] at hspan ⊢
    rw [hspan]
    simp

/-- The result of the replacement is the concatenation of what the segments
contribute, when each placeholder resolves to the value `val` gives it. -/
theorem renderAll_eq_render (page : Page) (dataLayer : List Item) (eventData : Record)
    (val : List Char → JSVal) (segments : List Segment)
    (h : ∀ captured, Segment.hole captured ∈ segments →
      resolveVariable page dataLayer eventData (String.mk (Segment.hole captured).source)
        (String.mk captured) = Except.ok (val captured)) :
    renderAll page dataLayer eventData segments
      = Except.ok (segments.flatMap (Segment.render val)) := by
  induction segments with
  | nil => rfl
  | cons seg rest ih =>
    have ih' := ih (fun c hc => h c (List.mem_cons_of_mem _ hc))
    cases seg with
    | text c => simp [renderAll, renderSegment, Segment.render, ih']
    | hole captured =>
      simp [renderAll, renderSegment, Segment.render, ih', h captured (List.mem_cons_self _ _)]

/-- Claim C12. The template is scanned once: the result is the concatenation of
what its segments contribute, a placeholder contributing the text of the value
it resolves to. So a template that is one placeholder becomes exactly the text
of the value found in the event data, whatever that text holds; with
`a = {{other}}` and `other = X`, the placeholder of `a` followed by that of
`other` becomes the placeholder of `other` followed by `X`. -/
theorem replaceVariables_single_pass (page : Page) (dataLayer : List Item) (eventData : Record) :
    (∀ (template : String) (val : List Char → JSVal),
      (∀ captured, Segment.hole captured ∈ scan template.data →
        resolveVariable page dataLayer eventData (String.mk (Segment.hole captured).source)
          (String.mk captured) = Except.ok (val captured)) →
      replaceVariables page dataLayer eventData (JSVal.str template)
        = Except.ok (JSVal.str (String.mk ((scan template.data).flatMap (Segment.render val)))))
    ∧ (∀ (captured : List Char) (value : JSVal), captured ≠ [] → closeBrace ∉ captured →
        eventData.get (trim (String.mk captured)) = value → value ≠ JSVal.undefined →
        replaceVariables page dataLayer eventData
            (JSVal.str (String.mk (Segment.hole captured).source))
          = Except.ok (JSVal.str value.toStr))
    ∧ replaceVariables page dataLayer
          [("a", JSVal.str "\x7b\x7bother\x7d\x7d"), ("other", JSVal.str "X")]
          (JSVal.str "\x7b\x7ba\x7d\x7d \x7b\x7bother\x7d\x7d")
        = Except.ok (JSVal.str "\x7b\x7bother\x7d\x7d X") := by
  refine ⟨?_, ?_, rfl⟩
  · intro template val h
    simp only [replaceVariables]
    rw [renderAll_eq_render page dataLayer eventData val _ h]
  · intro captured value hne hclose hv hdef
    have hm := matchAt_hole captured [] hne hclose
    rw [List.append_nil] at hm
    have hscan : scan (Segment.hole captured).source = [Segment.hole captured] := by
      unfold scan
      cases hs : (Segment.hole captured).source with
      | nil => simp [Segment.source] at hs
      | cons c cs =>
        rw [hs] at hm
        simp only [List.length_cons, scanFuel, hm]
        cases cs.length <;> rfl
    have hr : resolveVariable page dataLayer eventData
        (String.mk (Segment.hole captured).source) (String.mk captured) = Except.ok value := by
      subst hv
      simp [resolveVariable, hdef]
    simp only [replaceVariables, hscan, renderAll, renderSegment, hr, List.append_nil]

/-- Witness for C12: a value that is itself the placeholder of a page attribute
is inserted as it is. -/
theorem replaceVariables_single_pass_witness :
    replaceVariables samplePage [] [("a", JSVal.str "\x7b\x7bpage.url\x7d\x7d")]
        (JSVal.str (String.mk (Segment.hole "a".data).source))
      = Except.ok (JSVal.str "\x7b\x7bpage.url\x7d\x7d") :=
  (replaceVariables_single_pass samplePage [] [("a", JSVal.str "\x7b\x7bpage.url\x7d\x7d")]).2.1
    "a".data (JSVal.str "\x7b\x7bpage.url\x7d\x7d") (by decide) (by decide) (by decide)
    (by decide)

/-- The backward scan returns the value of the first record, most recent first,
in which the key is not `undefined`. -/
theorem getDataLayerValueFrom_find (key : String) (records : List Record) :
    getDataLayerValueFrom (records.map Item.record) key
      = Except.ok (match records.find? (fun r => decide (Record.get r key ≠ JSVal.undefined)) with
          | some r => Record.get r key
          | none => JSVal.undefined) := by
  induction records with
  | nil => rfl
  | cons r rest ih =>
    by_cases h : Record.get r key = JSVal.undefined
    · simp [getDataLayerValueFrom, Item.get, List.find?, h, ih]
    · simp [getDataLayerValueFrom, Item.get, List.find?, h]

/-- Records that leave the key undefined are passed over by the backward scan. -/
theorem getDataLayerValueFrom_skip (key : String) (skipped : List Record) (older : List Item)
    (h : ∀ r ∈ skipped, Record.get r key = JSVal.undefined) :
    getDataLayerValueFrom (skipped.map Item.record ++ older) key
      = getDataLayerValueFrom older key := by
  induction skipped with
  | nil => rfl
  | cons r rest ih =>
    have hr : Record.get r key = JSVal.undefined := h r (List.mem_cons_self _ _)
    simp [getDataLayerValueFrom, Item.get, hr, ih (fun r' hr' => h r' (List.mem_cons_of_mem _ hr'))]

/-- Counterexample to C13 as stated: the most recent record holds the key, with
the value `undefined`, and the lookup returns the value of the older record. -/
theorem getDataLayerValue_skips_undefined_counterexample :
    List.lookup "x" [("x", JSVal.undefined)] = some JSVal.undefined
    ∧ getDataLayerValue
        [Item.record [("x", JSVal.num 1)], Item.record [("x", JSVal.undefined)]] "x"
        = Except.ok (JSVal.num 1) := by
  decide

/-- Claim C13, amended. On an Event Log of records, `getDataLayerValue` returns
the value of the key in the most recent record in which that value is not
`undefined`: a record that gives the key a defined value wins over every older
record when all the more recent ones leave the key undefined, and the result is
`undefined` when every record leaves it undefined. -/
theorem getDataLayerValue_last_defined (log : List Record) (key : String) :
    getDataLayerValue (log.map Item.record) key = Except.ok (lastDefined key log)
    ∧ (∀ older r newer, log = older ++ r :: newer →
        Record.get r key ≠ JSVal.undefined →
        (∀ r' ∈ newer, Record.get r' key = JSVal.undefined) →
        getDataLayerValue (log.map Item.record) key = Except.ok (Record.get r key))
    ∧ ((∀ r ∈ log, Record.get r key = JSVal.undefined) →
        getDataLayerValue (log.map Item.record) key = Except.ok JSVal.undefined) := by
  refine ⟨?_, ?_, ?_⟩
  · unfold getDataLayerValue lastDefined
    rw [← List.map_reverse]
    exact getDataLayerValueFrom_find key log.reverse
  · intro older r newer hlog hr hnewer
    unfold getDataLayerValue
    rw [hlog, List.map_append, List.reverse_append, List.map_cons, List.reverse_cons,
      List.append_assoc, ← List.map_reverse,
      getDataLayerValueFrom_skip key newer.reverse _
        (fun r' hr' => hnewer r' (List.mem_reverse.mp hr'))]
    simp [getDataLayerValueFrom, Item.get, hr]
  · intro h
    exact getDataLayerValue_records key log h

/-- Witness for the amended C13: two pushes of the key, then a push without it. -/
theorem getDataLayerValue_last_defined_witness :
    getDataLayerValue
        ([[("x", JSVal.num 1)], [("x", JSVal.num 2)], [("y", JSVal.num 3)]].map Item.record) "x"
      = Except.ok (JSVal.num 2) :=
  (getDataLayerValue_last_defined
    [[("x", JSVal.num 1)], [("x", JSVal.num 2)], [("y", JSVal.num 3)]] "x").2.1
    [[("x", JSVal.num 1)]] [("x", JSVal.num 2)] [[("y", JSVal.num 3)]] rfl (by decide)
    (by decide)

/-- Claim C14. On a custom-event trigger `checkTrigger` returns the boolean
`eventData.event === trigger.eventName`. That comparison is equality of values
with no coercion (identity for two objects): two strings are equal exactly when
they are the same string, so `Purchase` is not `purchase`, the number 1 is not
the string `1`, and `null` is not `undefined`. -/
theorem checkTrigger_custom_event (env : Env) (s : State) (trigger : Trigger)
    (eventData : Record) (h : trigger.type = "custom_event") :
    checkTrigger env s (some trigger) eventData
      = Except.ok (JSVal.bool ((eventData.get "event").strictEq trigger.eventName))
    ∧ (∀ a b : JSVal, (∀ i t, a ≠ JSVal.obj i t) → (a.strictEq b = true ↔ a = b))
    ∧ (∀ i j t u, (JSVal.obj i t).strictEq (JSVal.obj j u) = true ↔ i = j)
    ∧ (∀ a b : String, (JSVal.str a).strictEq (JSVal.str b) = true ↔ a = b)
    ∧ (JSVal.str "Purchase").strictEq (JSVal.str "purchase") = false
    ∧ (JSVal.num 1).strictEq (JSVal.str "1") = false
    ∧ JSVal.null.strictEq JSVal.undefined = false := by
  refine ⟨?_, ?_, ?_, ?_, by decide, by decide, by decide⟩
  · simp [checkTrigger, h]
  · intro a b ha
    cases a <;> cases b <;> simp [JSVal.strictEq] at ha ⊢
  · intro i j t u
    simp [JSVal.strictEq]
  · intro a b
    simp [JSVal.strictEq]

/-- Witness for C14: the sample purchase trigger on a pushed purchase event. -/
theorem checkTrigger_custom_event_witness :
    checkTrigger sampleEnv State.initial
        (some { sampleTrigger "custom_event" with eventName := JSVal.str "purchase" })
        [("event", JSVal.str "purchase"), ("amount", JSVal.num 42)]
      = Except.ok (JSVal.bool true) :=
  (checkTrigger_custom_event sampleEnv State.initial
    { sampleTrigger "custom_event" with eventName := JSVal.str "purchase" }
    [("event", JSVal.str "purchase"), ("amount", JSVal.num 42)] rfl).1

/-- The method `includes` holds exactly when the needle occurs in the text. -/
theorem includes_iff (hay needle : String) :
    includes hay needle = true ↔ ∃ before after, hay.data = before ++ needle.data ++ after := by
  unfold includes
  rw [List.any_eq_true]
  constructor
  · rintro ⟨t, ht, hp⟩
    rw [List.mem_tails] at ht
    obtain ⟨before, hb⟩ := ht
    obtain ⟨after, ha⟩ := List.isPrefixOf_iff_prefix.mp hp
    exact ⟨before, after, by rw [← hb, ← ha, List.append_assoc]⟩
  · rintro ⟨before, after, h⟩
    refine ⟨needle.data ++ after, ?_, ?_⟩
    · rw [List.mem_tails]
      exact ⟨before, by rw [h, List.append_assoc]⟩
    · exact List.isPrefixOf_iff_prefix.mpr ⟨after, rfl⟩

/-- Claim C15. On a url-match trigger `checkTrigger` returns whether the current
URL is the pattern when `matchType` is `equals`, and whether the pattern occurs
in the current URL when `matchType` is `contains`. The four examples of the
claim hold: `equals` on `https://x.com/a` matches that pattern and not the
pattern with a trailing slash; `contains` with `/checkout` matches
`https://x.com/cart/checkout` and not `https://x.com/cart`. -/
theorem checkTrigger_url_match (env : Env) (s : State) (trigger : Trigger)
    (eventData : Record) (h : trigger.type = "url_match") :
    (trigger.matchType = "equals" →
      checkTrigger env s (some trigger) eventData
        = Except.ok (JSVal.bool (decide (env.page.href = trigger.url))))
    ∧ (trigger.matchType = "contains" →
        checkTrigger env s (some trigger) eventData
          = Except.ok (JSVal.bool (includes env.page.href trigger.url))
        ∧ (includes env.page.href trigger.url = true ↔
            ∃ before after, env.page.href.data = before ++ trigger.url.data ++ after))
    ∧ checkTrigger (envAt "https://x.com/a") s (some (urlTrigger "equals" "https://x.com/a"))
          eventData = Except.ok (JSVal.bool true)
    ∧ checkTrigger (envAt "https://x.com/a") s (some (urlTrigger "equals" "https://x.com/a/"))
          eventData = Except.ok (JSVal.bool false)
    ∧ checkTrigger (envAt "https://x.com/cart/checkout") s
          (some (urlTrigger "contains" "/checkout")) eventData = Except.ok (JSVal.bool true)
    ∧ checkTrigger (envAt "https://x.com/cart") s (some (urlTrigger "contains" "/checkout"))
          eventData = Except.ok (JSVal.bool false) := by
  refine ⟨?_, ?_, rfl, rfl, rfl, rfl⟩
  · intro hm
    simp [checkTrigger, h, hm]
  · intro hm
    exact ⟨by simp [checkTrigger, h, hm], includes_iff _ _⟩

/-- Witness for C15: the pattern `x.com` occurs in the URL of the sample page. -/
theorem checkTrigger_url_match_witness :
    checkTrigger sampleEnv State.initial (some (urlTrigger "contains" "x.com")) pageviewData
      = Except.ok (JSVal.bool (includes sampleEnv.page.href "x.com")) :=
  ((checkTrigger_url_match sampleEnv State.initial (urlTrigger "contains" "x.com") pageviewData
    rfl).2.1 rfl).1

/-- Claim C18. On a `dom_ready` trigger `checkTrigger` returns a boolean that is
true exactly when the ready state is `interactive` or `complete`, and on a
`window_load` trigger one that is true exactly when it is `complete`, whatever
the event data and the engine state. So when the ready state has not gone back,
a trigger of either type that evaluated true evaluates true again, under any
other event data. -/
theorem checkTrigger_lifecycle (env : Env) (s : State) (trigger : Trigger)
    (eventData : Record) :
    (trigger.type = "dom_ready" →
      ∃ b, checkTrigger env s (some trigger) eventData = Except.ok (JSVal.bool b)
        ∧ (b = true ↔ env.page.readyState = ReadyState.interactive
            ∨ env.page.readyState = ReadyState.complete))
    ∧ (trigger.type = "window_load" →
        ∃ b, checkTrigger env s (some trigger) eventData = Except.ok (JSVal.bool b)
          ∧ (b = true ↔ env.page.readyState = ReadyState.complete))
    ∧ (∀ (later : Env) (s1 : State) (eventData1 : Record),
        trigger.type = "dom_ready" ∨ trigger.type = "window_load" →
        env.page.readyState.rank ≤ later.page.readyState.rank →
        checkTrigger env s (some trigger) eventData = Except.ok (JSVal.bool true) →
        checkTrigger later s1 (some trigger) eventData1 = Except.ok (JSVal.bool true)) := by
  refine ⟨?_, ?_, ?_⟩
  · intro h
    refine ⟨_, by simp only [checkTrigger, h]; rfl, ?_⟩
    cases env.page.readyState <;> simp
  · intro h
    refine ⟨_, by simp only [checkTrigger, h]; rfl, ?_⟩
    cases env.page.readyState <;> simp
  · intro later s1 eventData1 h hr ht
    rcases h with h | h
    · simp only [checkTrigger, h] at ht ⊢
      revert hr ht
      cases env.page.readyState <;> cases later.page.readyState <;>
        simp [ReadyState.rank]
    · simp only [checkTrigger, h] at ht ⊢
      revert hr ht
      cases env.page.readyState <;> cases later.page.readyState <;>
        simp [ReadyState.rank]

/-- Witness for C18: a `dom_ready` trigger on the fully loaded sample page. -/
theorem checkTrigger_lifecycle_witness :
    checkTrigger sampleEnv State.initial (some (sampleTrigger "dom_ready"))
        [("event", JSVal.str "purchase")] = Except.ok (JSVal.bool true) :=
  (checkTrigger_lifecycle sampleEnv State.initial (sampleTrigger "dom_ready") pageviewData).2.2
    sampleEnv State.initial [("event", JSVal.str "purchase")] (Or.inl rfl) (Nat.le_refl _)
    (by decide)

/-- The function `isElementVisible` holds exactly when the four edges of the box
lie within the viewport. -/
theorem isElementVisible_iff (page : Page) (rect : Rect) :
    isElementVisible page rect = true ↔
      0 ≤ rect.top ∧ 0 ≤ rect.left ∧ rect.bottom ≤ (viewportHeight page : Rat)
        ∧ rect.right ≤ (viewportWidth page : Rat) := by
  simp only [isElementVisible, viewportHeight, viewportWidth, Bool.and_eq_true,
    decide_eq_true_eq, ge_iff_le]
  constructor
  · rintro ⟨⟨⟨h1, h2⟩, h3⟩, h4⟩
    exact ⟨h1, h2, h3, h4⟩
  · rintro ⟨h1, h2, h3, h4⟩
    exact ⟨⟨⟨h1, h2⟩, h3⟩, h4⟩

/-- Claim C19. On an element-visibility trigger the result of `checkTrigger` is
truthy exactly when `querySelector` finds an element whose box has `top >= 0`,
`left >= 0`, `bottom` at most the viewport height and `right` at most the
viewport width; a missing element gives `null`, and a box that crosses one of
the four edges gives `false`. -/
theorem checkTrigger_element_visibility (env : Env) (s : State) (trigger : Trigger)
    (eventData : Record) (h : trigger.type = "element_visibility") :
    ((∃ v, checkTrigger env s (some trigger) eventData = Except.ok v ∧ v.truthy = true) ↔
      ∃ rect, env.querySelector s trigger.selector = Query.found rect
        ∧ 0 ≤ rect.top ∧ 0 ≤ rect.left ∧ rect.bottom ≤ (viewportHeight env.page : Rat)
        ∧ rect.right ≤ (viewportWidth env.page : Rat))
    ∧ (env.querySelector s trigger.selector = Query.missing →
        checkTrigger env s (some trigger) eventData = Except.ok JSVal.null
        ∧ JSVal.null.truthy = false)
    ∧ (∀ rect, env.querySelector s trigger.selector = Query.found rect →
        rect.top < 0 ∨ rect.left < 0 ∨ (viewportHeight env.page : Rat) < rect.bottom
          ∨ (viewportWidth env.page : Rat) < rect.right →
        checkTrigger env s (some trigger) eventData = Except.ok (JSVal.bool false)) := by
  have hc : checkTrigger env s (some trigger) eventData
      = match env.querySelector s trigger.selector with
        | Query.invalid => Except.error selectorSyntaxError
        | Query.missing => Except.ok JSVal.null
        | Query.found rect => Except.ok (JSVal.bool (isElementVisible env.page rect)) := by
    simp [checkTrigger, h]
  refine ⟨?_, ?_, ?_⟩
  · rw [hc]
    cases hq : env.querySelector s trigger.selector with
    | invalid => simp
    | missing => simp [JSVal.truthy]
    | found rect =>
      simp only [Except.ok.injEq, exists_eq_left', JSVal.truthy, Query.found.injEq]
      rw [isElementVisible_iff]
  · intro hq
    rw [hc, hq]
    exact ⟨rfl, rfl⟩
  · intro rect hq hout
    rw [hc, hq]
    have : isElementVisible env.page rect = false := by
      rw [← Bool.not_eq_true, isElementVisible_iff]
      rintro ⟨h1, h2, h3, h4⟩
      rcases hout with h | h | h | h
      · exact absurd h1 (not_le.mpr h)
      · exact absurd h2 (not_le.mpr h)
      · exact absurd h3 (not_le.mpr h)
      · exact absurd h4 (not_le.mpr h)
    simp [this]

/-- Witness for C19: a box whose right edge is past the sample viewport. -/
theorem checkTrigger_element_visibility_witness :
    checkTrigger (envWithHero { top := 10, left := 700, bottom := 90, right := 820 })
        State.initial (some heroTrigger) pageviewData = Except.ok (JSVal.bool false) :=
  (checkTrigger_element_visibility
    (envWithHero { top := 10, left := 700, bottom := 90, right := 820 })
    State.initial heroTrigger pageviewData rfl).2.2
    { top := 10, left := 700, bottom := 90, right := 820 } rfl
    (Or.inr (Or.inr (Or.inr (by decide))))

/-- A trace extends itself by nothing. -/
theorem Extends.same (P : Event → Prop) (s : State) : Extends P s s :=
  ⟨[], by simp, by simp⟩

/-- Extensions compose. -/
theorem Extends.andThen {P : Event → Prop} {a b c : State} (h1 : Extends P a b)
    (h2 : Extends P b c) : Extends P a c := by
  obtain ⟨e1, t1, p1⟩ := h1
  obtain ⟨e2, t2, p2⟩ := h2
  refine ⟨e1 ++ e2, by rw [t2, t1, List.append_assoc], ?_⟩
  intro e he
  rcases List.mem_append.mp he with h | h
  · exact p1 e h
  · exact p2 e h

/-- Logging one entry that satisfies `P`. -/
theorem extends_log (P : Event → Prop) (s : State) (e : Event) (h : P e) :
    Extends P s (s.log e) :=
  ⟨[e], rfl, by simpa using h⟩

/-- A change that leaves the trace alone. -/
theorem extends_of_trace_eq (P : Event → Prop) (s s1 : State) (h : s1.trace = s.trace) :
    Extends P s s1 :=
  ⟨[], by simp [h], by simp⟩

/-- The `catch` block logs an error and pushes. -/
theorem extends_catchBlock (ok : Tag → Prop) (push : List Item → State → Res)
    (hpush : ∀ args s, Extends (OnTags ok) s (push args s).state) (tag : Tag) (e : Thrown)
    (s : State) : Extends (OnTags ok) s (catchBlock push tag e s).state := by
  have h1 : Extends (OnTags ok) s (s.log (Event.errorLogged tag.name e)) :=
    extends_log _ s _ trivial
  unfold catchBlock
  simp only
  split
  · split
    · exact h1
    · exact h1.andThen (hpush _ _)
  · exact h1

/-- The rest of the `try` block records the tag and pushes. -/
theorem extends_afterSwitch (ok : Tag → Prop) (push : List Item → State → Res)
    (hpush : ∀ args s, Extends (OnTags ok) s (push args s).state) (tag : Tag) (s : State) :
    Extends (OnTags ok) s (afterSwitch push tag s).state := by
  have h0 : Extends (OnTags ok) s (s.addExecuted tag.id) := extends_of_trace_eq _ _ _ rfl
  unfold afterSwitch
  simp only
  split
  · have hp := hpush [tagFiredItem tag] (s.addExecuted tag.id)
    cases h : push [tagFiredItem tag] (s.addExecuted tag.id) with
    | done s1 => rw [h] at hp; exact h0.andThen hp
    | fuelOut s1 => rw [h] at hp; exact h0.andThen hp
    | threw e s3 =>
      rw [h] at hp
      exact (h0.andThen hp).andThen (extends_catchBlock ok push hpush _ _ _)
  · exact h0

/-- A call of `executeTag` on a tag that satisfies `ok` only logs entries on such
tags, when `push` does. -/
theorem extends_executeTag (ok : Tag → Prop) (env : Env) (push : List Item → State → Res)
    (hpush : ∀ args s, Extends (OnTags ok) s (push args s).state) (tag : Tag) (htag : ok tag)
    (d : Record) (s : State) : Extends (OnTags ok) s (executeTag env push tag d s).state := by
  have h0 : Extends (OnTags ok) s (s.log (Event.call tag d)) := extends_log _ s _ htag
  unfold executeTag
  simp only
  split
  · exact h0
  · split
    · rename_i e _
      exact (h0.andThen (extends_log _ _ (Event.handler tag d (Except.error e)) htag)).andThen
        (extends_catchBlock ok push hpush _ _ _)
    · rename_i effect _
      exact (h0.andThen (extends_log _ _ (Event.handler tag d (Except.ok effect)) htag)).andThen
        (extends_afterSwitch ok push hpush _ _)
    · exact h0.andThen (extends_afterSwitch ok push hpush _ _)

/-- The loop of `processTags` only logs entries on tags that satisfy `ok`, when
every enabled tag whose triggers all hold does. -/
theorem extends_forEachTag (ok : Tag → Prop) (env : Env) (push : List Item → State → Res)
    (hpush : ∀ args s, Extends (OnTags ok) s (push args s).state) (d : Record)
    (hok : ∀ tag s, tag.enabled = true → everyTrigger env s d tag.triggers = Except.ok true →
      ok tag)
    (tags : List Tag) (s : State) :
    Extends (OnTags ok) s (forEachTag env push d tags s).state := by
  induction tags generalizing s with
  | nil => exact Extends.same _ _
  | cons tag rest ih =>
    simp only [forEachTag]
    split
    · exact ih s
    · rename_i hen
      split
      · exact Extends.same _ _
      · exact ih s
      · rename_i hev
        have htag : ok tag := hok tag s (by simpa using hen) hev
        have he := extends_executeTag ok env push hpush tag htag d s
        cases h : executeTag env push tag d s with
        | done s1 => rw [h] at he; exact he.andThen (ih s1)
        | threw e s1 => rw [h] at he; exact he
        | fuelOut s1 => rw [h] at he; exact he

/-- The body of `processTags` only logs entries on tags that satisfy `ok`. -/
theorem extends_processTagsWith (ok : Tag → Prop) (env : Env)
    (push : List Item → State → Res)
    (hpush : ∀ args s, Extends (OnTags ok) s (push args s).state) (d : Record)
    (hok : ∀ tag s, tag.enabled = true → everyTrigger env s d tag.triggers = Except.ok true →
      ok tag)
    (s : State) : Extends (OnTags ok) s (processTagsWith env push d s).state := by
  unfold processTagsWith
  split
  · exact Extends.same _ _
  · split
    · exact Extends.same _ _
    · rename_i tags _
      have h1 : Extends (OnTags ok) s (s.log (Event.passBegin d)) := extends_log _ s _ trivial
      have h2 := extends_forEachTag ok env push hpush d hok tags (s.log (Event.passBegin d))
      cases h : forEachTag env push d tags (s.log (Event.passBegin d)) with
      | done s1 =>
        rw [h] at h2
        exact (h1.andThen h2).andThen (extends_log _ s1 _ trivial)
      | threw e s1 => rw [h] at h2; exact h1.andThen h2
      | fuelOut s1 => rw [h] at h2; exact h1.andThen h2

/-- The loop of the enhanced push only logs what the passes it starts log. -/
theorem extends_pushLoop (P : Event → Prop) (pass : Record → State → Res)
    (hpass : ∀ d s, Extends P s (pass d s).state) (args : List Item) (s : State) :
    Extends P s (pushLoop pass args s).state := by
  induction args generalizing s with
  | nil => exact Extends.same _ _
  | cons item rest ih =>
    simp only [pushLoop]
    split
    · split
      · exact Extends.same _ _
      · split
        · rename_i event _ _
          have hp := hpass (Record.set item.spread "event" event) s
          unfold triggerEvent
          cases h : pass (Record.set item.spread "event" event) s with
          | done s1 => rw [h] at hp; exact hp.andThen (ih s1)
          | threw e s1 => rw [h] at hp; exact hp
          | fuelOut s1 => rw [h] at hp; exact hp
        · exact ih s
    · exact ih s

/-- The enhanced push only logs what the passes it starts log. -/
theorem extends_dataLayerPush (P : Event → Prop) (pass : Record → State → Res)
    (hpass : ∀ d s, Extends P s (pass d s).state) (args : List Item) (s : State) :
    Extends P s (dataLayerPush pass args s).state :=
  (extends_of_trace_eq P s _ rfl).andThen (extends_pushLoop P pass hpass args _)

/-- A pass, with the passes nested in it, only logs entries on tags that satisfy
`ok`, when every enabled tag whose triggers all hold does. -/
theorem extends_processTags (ok : Tag → Prop) (env : Env)
    (hok : ∀ tag s d, tag.enabled = true →
      everyTrigger env s d tag.triggers = Except.ok true → ok tag)
    (fuel : Nat) (d : Record) (s : State) :
    Extends (OnTags ok) s (processTags env fuel d s).state := by
  induction fuel generalizing d s with
  | zero => exact Extends.same _ _
  | succ n ih =>
    exact extends_processTagsWith ok env _
      (fun args s => extends_dataLayerPush _ _ ih args s) d (fun tag s => hok tag s d) s

/-- When the conjunction of a trigger list holds, every trigger of the list
evaluates to a truthy value. -/
theorem everyTrigger_true (env : Env) (s : State) (d : Record) (triggers : List Trigger)
    (h : everyTrigger env s d triggers = Except.ok true) :
    ∀ trigger ∈ triggers, ∃ v, checkTrigger env s (some trigger) d = Except.ok v
      ∧ v.truthy = true := by
  induction triggers with
  | nil => simp
  | cons t rest ih =>
    simp only [everyTrigger] at h
    cases hc : checkTrigger env s (some t) d with
    | error e => rw [hc] at h; cases h
    | ok v =>
      rw [hc] at h
      simp only at h
      by_cases hv : v.truthy = true
      · rw [if_pos hv] at h
        intro trigger ht
        rcases List.mem_cons.mp ht with rfl | ht
        · exact ⟨v, hc, hv⟩
        · exact ih h trigger ht
      · rw [if_neg hv] at h
        cases h

/-- A click trigger evaluates to `false`. -/
theorem checkTrigger_click (env : Env) (s : State) (trigger : Trigger) (d : Record)
    (h : trigger.type = "click") :
    checkTrigger env s (some trigger) d = Except.ok (JSVal.bool false) := by
  simp [checkTrigger, h]

/-- The conjunction of a trigger list with a click trigger never holds. -/
theorem everyTrigger_hasClick (env : Env) (s : State) (d : Record) (tag : Tag)
    (h : tag.hasClick) : everyTrigger env s d tag.triggers ≠ Except.ok true := by
  intro he
  obtain ⟨trigger, hm, ht⟩ := h
  obtain ⟨v, hv, htr⟩ := everyTrigger_true env s d tag.triggers he trigger hm
  rw [checkTrigger_click env s trigger d ht] at hv
  cases hv
  simp [JSVal.truthy] at htr

/-- The tags called in entries that are all on tags satisfying `ok` satisfy `ok`. -/
theorem calledTags_onTags (ok : Tag → Prop) (evs : List Event) (h : ∀ e ∈ evs, OnTags ok e) :
    ∀ tag ∈ calledTags evs, ok tag := by
  induction evs with
  | nil => simp [calledTags]
  | cons e rest ih =>
    have ih' := ih (fun e' he' => h e' (List.mem_cons_of_mem _ he'))
    have he := h e (List.mem_cons_self _ _)
    cases e with
    | call t d =>
      intro tag ht
      simp only [calledTags, List.mem_cons] at ht
      rcases ht with rfl | ht
      · exact he
      · exact ih' tag ht
    | passBegin d => simpa [calledTags] using ih'
    | passEnd => simpa [calledTags] using ih'
    | handler t d r => simpa [calledTags] using ih'
    | errorLogged n e => simpa [calledTags] using ih'

/-- Entries that are all on tags satisfying `ok` hold no handler run of a tag
that does not. -/
theorem handlerResults_onTags (ok : Tag → Prop) (tag : Tag) (hn : ¬ ok tag)
    (evs : List Event) (h : ∀ e ∈ evs, OnTags ok e) : handlerResults tag evs = [] := by
  induction evs with
  | nil => rfl
  | cons e rest ih =>
    have ih' := ih (fun e' he' => h e' (List.mem_cons_of_mem _ he'))
    have he := h e (List.mem_cons_self _ _)
    cases e with
    | handler t d r =>
      have : t ≠ tag := fun heq => hn (heq ▸ he)
      simp [handlerResults, this, ih']
    | passBegin d => simpa [handlerResults] using ih'
    | passEnd => simpa [handlerResults] using ih'
    | call t d => simpa [handlerResults] using ih'
    | errorLogged n e => simpa [handlerResults] using ih'

/-- Claim C16. A click trigger evaluates to `false` in `checkTrigger`, so the
conjunction of a trigger list that holds a click trigger never holds, whatever
the other triggers; and in what a pass of `processTags` adds to the trace, the
nested passes included and however the pass ends, `executeTag` is never entered
on a tag with a click trigger and no handler of such a tag runs. -/
theorem processTags_never_executes_click_tags (env : Env) :
    (∀ s trigger d, trigger.type = "click" →
      checkTrigger env s (some trigger) d = Except.ok (JSVal.bool false))
    ∧ (∀ s d (tag : Tag), tag.hasClick → everyTrigger env s d tag.triggers ≠ Except.ok true)
    ∧ (∀ fuel d s, ∃ evs, (processTags env fuel d s).state.trace = s.trace ++ evs
        ∧ ∀ tag : Tag, tag.hasClick → tag ∉ calledTags evs ∧ handlerResults tag evs = []) := by
  refine ⟨checkTrigger_click env, everyTrigger_hasClick env, ?_⟩
  intro fuel d s
  obtain ⟨evs, ht, hp⟩ := extends_processTags (fun t => ¬ t.hasClick) env
    (fun tag s d _ he hc => everyTrigger_hasClick env s d tag hc he) fuel d s
  refine ⟨evs, ht, fun tag hc => ⟨?_, ?_⟩⟩
  · intro hm
    exact calledTags_onTags _ evs hp tag hm hc
  · exact handlerResults_onTags _ tag (fun hn => hn hc) evs hp

/-- Witness for C16: a pageview pass over a tag that joins a pageview trigger
and a click trigger, followed by a pageview tag, enters `executeTag` on the
second tag only. -/
theorem processTags_never_executes_click_tags_witness :
    calledTags (processTags sampleEnv 1 pageviewData
        (State.loadedWith (sampleConfig
          [sampleTag "t9" "script" "var f = 6" [sampleTrigger "pageview", buyClick],
           scriptTag]))).state.trace = [scriptTag]
    ∧ everyTrigger sampleEnv State.initial pageviewData
        [sampleTrigger "pageview", buyClick] ≠ Except.ok true :=
  ⟨by decide,
   (processTags_never_executes_click_tags sampleEnv).2.1 State.initial pageviewData
     (sampleTag "t9" "script" "var f = 6" [sampleTrigger "pageview", buyClick])
     ⟨buyClick, by decide, rfl⟩⟩

/-- Every entry is on a tag that satisfies the trivial condition. -/
theorem onTags_true (e : Event) : OnTags (fun _ => True) e := by
  cases e <;> exact trivial

/-- After logging its call, `executeTag` only logs entries on tags that satisfy
`ok`, when the tag does and `push` does. -/
theorem extends_executeTag_from_call (ok : Tag → Prop) (env : Env)
    (push : List Item → State → Res)
    (hpush : ∀ args s, Extends (OnTags ok) s (push args s).state) (tag : Tag) (htag : ok tag)
    (d : Record) (s : State) :
    Extends (OnTags ok) (s.log (Event.call tag d)) (executeTag env push tag d s).state := by
  unfold executeTag
  simp only
  split
  · exact Extends.same _ _
  · split
    · rename_i e _
      exact (extends_log _ _ (Event.handler tag d (Except.error e)) htag).andThen
        (extends_catchBlock ok push hpush _ _ _)
    · rename_i effect _
      exact (extends_log _ _ (Event.handler tag d (Except.ok effect)) htag).andThen
        (extends_afterSwitch ok push hpush _ _)
    · exact extends_afterSwitch ok push hpush _ _

/-- The push seen by a pass only logs entries on tags that satisfy `ok`, when
every enabled tag whose triggers all hold does. -/
theorem extends_pushIn (ok : Tag → Prop) (env : Env)
    (hok : ∀ tag s d, tag.enabled = true →
      everyTrigger env s d tag.triggers = Except.ok true → ok tag)
    (fuel : Nat) (args : List Item) (s : State) :
    Extends (OnTags ok) s (pushIn env fuel args s).state :=
  extends_dataLayerPush _ _ (extends_processTags ok env hok fuel) args s

/-- The trace after `executeTag` is the trace before it, the call, and more. -/
theorem executeTag_trace (env : Env) (fuel : Nat) (tag : Tag) (d : Record) (s : State) :
    ∃ evs, (executeTag env (pushIn env fuel) tag d s).state.trace
      = s.trace ++ Event.call tag d :: evs := by
  obtain ⟨evs, h, _⟩ := extends_executeTag_from_call (fun _ => True) env (pushIn env fuel)
    (extends_pushIn _ env (fun _ _ _ _ _ => trivial) fuel) tag trivial d s
  exact ⟨evs, by rw [h]; simp [State.log]⟩

/-- A listener adds to the trace, and nothing when its selector is not matched. -/
theorem clickListener_trace (env : Env) (fuel : Nat) (listener : Listener) (click : Click)
    (s : State) :
    ∃ evs, (clickListener env (pushIn env fuel) listener click s).state.trace = s.trace ++ evs
      ∧ ∀ target, click.closest listener.selector = Closest.found target →
          Event.call listener.tag (clickData target) ∈ evs := by
  unfold clickListener
  cases hc : click.closest listener.selector with
  | invalid => exact ⟨[], by simp [Res.state], by intro t ht; cases ht⟩
  | none => exact ⟨[], by simp [Res.state], by intro t ht; cases ht⟩
  | found target =>
    obtain ⟨evs, h⟩ := executeTag_trace env fuel listener.tag (clickData target) s
    refine ⟨Event.call listener.tag (clickData target) :: evs, h, ?_⟩
    intro t ht
    cases ht
    exact List.mem_cons_self _ _

/-- When a click has been dispatched to the end, `executeTag` was entered, with
the click data, on the tag of every listener whose selector the click matched. -/
theorem dispatchClick_calls (env : Env) (fuel : Nat) (click : Click)
    (listeners : List Listener) (s : State) :
    ∃ evs, (dispatchClick env (pushIn env fuel) click listeners s).state.trace = s.trace ++ evs
      ∧ ((∀ s1, dispatchClick env (pushIn env fuel) click listeners s ≠ Res.fuelOut s1) →
          ∀ listener ∈ listeners, ∀ target,
            click.closest listener.selector = Closest.found target →
            Event.call listener.tag (clickData target) ∈ evs) := by
  induction listeners generalizing s with
  | nil => exact ⟨[], by simp [dispatchClick, Res.state], by simp⟩
  | cons l rest ih =>
    obtain ⟨e1, h1, c1⟩ := clickListener_trace env fuel l click s
    simp only [dispatchClick]
    cases hr : clickListener env (pushIn env fuel) l click s with
    | fuelOut s1 =>
      rw [hr] at h1
      exact ⟨e1, h1, fun hno => absurd rfl (hno s1)⟩
    | done s1 =>
      rw [hr] at h1
      obtain ⟨e2, h2, c2⟩ := ih s1
      have h1' : s1.trace = s.trace ++ e1 := h1
      refine ⟨e1 ++ e2, ?_, ?_⟩
      · show (dispatchClick env (pushIn env fuel) click rest s1).state.trace = _
        rw [h2, h1', List.append_assoc]
      · intro hno listener hl target ht
        rcases List.mem_cons.mp hl with rfl | hl
        · exact List.mem_append_left _ (c1 target ht)
        · exact List.mem_append_right _ (c2 hno listener hl target ht)
    | threw e s1 =>
      rw [hr] at h1
      obtain ⟨e2, h2, c2⟩ := ih s1
      have h1' : s1.trace = s.trace ++ e1 := h1
      refine ⟨e1 ++ e2, ?_, ?_⟩
      · show (dispatchClick env (pushIn env fuel) click rest s1).state.trace = _
        rw [h2, h1', List.append_assoc]
      · intro hno listener hl target ht
        rcases List.mem_cons.mp hl with rfl | hl
        · exact List.mem_append_left _ (c1 target ht)
        · exact List.mem_append_right _ (c2 hno listener hl target ht)

/-- During the dispatch of a click, `executeTag` is not entered on a tag with a
click trigger when the click matches the selector of none of its listeners. -/
theorem dispatchClick_skips (env : Env) (fuel : Nat) (click : Click) (tag : Tag)
    (hc : tag.hasClick) (listeners : List Listener)
    (hno : ∀ listener ∈ listeners, listener.tag = tag →
      ∀ target, click.closest listener.selector ≠ Closest.found target)
    (s : State) :
    Extends (OnTags (fun t => t ≠ tag)) s
      (dispatchClick env (pushIn env fuel) click listeners s).state := by
  have hpush := extends_pushIn (fun t => t ≠ tag) env
    (fun t s d _ he ht => everyTrigger_hasClick env s d t (ht ▸ hc) he) fuel
  induction listeners generalizing s with
  | nil => exact Extends.same _ _
  | cons l rest ih =>
    have ih' := ih (fun l' hl' => hno l' (List.mem_cons_of_mem _ hl'))
    have hl : Extends (OnTags (fun t => t ≠ tag)) s
        (clickListener env (pushIn env fuel) l click s).state := by
      unfold clickListener
      cases hcl : click.closest l.selector with
      | invalid => exact Extends.same _ _
      | none => exact Extends.same _ _
      | found target =>
        have hne : l.tag ≠ tag := fun heq => hno l (List.mem_cons_self _ _) heq target hcl
        exact extends_executeTag _ env _ hpush l.tag hne _ s
    simp only [dispatchClick]
    cases hr : clickListener env (pushIn env fuel) l click s with
    | fuelOut s1 => rw [hr] at hl; exact hl
    | done s1 => rw [hr] at hl; exact hl.andThen (ih' s1)
    | threw e s1 => rw [hr] at hl; exact hl.andThen (ih' s1)

/-- Claim C17. For a tag of the configuration and a click trigger of it with a
non-empty selector, `setupClickListeners` binds a listener for the pair. On a
click for which `closest` finds an element for the selector, the listener is
the call of `executeTag` on the tag with the click data, whatever the tag's
other triggers: the event is `click`, `clickText` is the text content of the
element and `clickUrl` its `href`, or the empty string when the `href` is not
truthy. When `closest` finds nothing the listener leaves the state as it is.
When the browser dispatches a click, `executeTag` is entered with the click data
on the tag of every listener that the click matches, and on no tag with a click
trigger whose listeners the click does not match. -/
theorem click_listener_executes_tag (env : Env) (fuel : Nat) (s : State) (config : Config)
    (tags : List Tag) (tag : Tag) (trigger : Trigger)
    (hs : s.config = some config) (hc : config.tags = some tags) (htag : tag ∈ tags)
    (htr : trigger ∈ tag.triggers) (hty : trigger.type = "click")
    (hsel : trigger.selector ≠ "") :
    ({ tag := tag, selector := trigger.selector } : Listener) ∈ (setupClickListeners s).listeners
    ∧ (∀ push click target s1, click.closest trigger.selector = Closest.found target →
        clickListener env push { tag := tag, selector := trigger.selector } click s1
          = executeTag env push tag (clickData target) s1)
    ∧ (∀ target : Element, Record.get (clickData target) "event" = JSVal.str "click"
        ∧ Record.get (clickData target) "clickText" = target.textContent
        ∧ Record.get (clickData target) "clickUrl"
            = if target.href.truthy then target.href else JSVal.str "")
    ∧ (∀ push click s1, click.closest trigger.selector = Closest.none →
        clickListener env push { tag := tag, selector := trigger.selector } click s1
          = Res.done s1)
    ∧ (∀ click s1, ∃ evs,
        (dispatchClick env (pushIn env fuel) click s1.listeners s1).state.trace
          = s1.trace ++ evs
        ∧ ((∀ s2, dispatchClick env (pushIn env fuel) click s1.listeners s1 ≠ Res.fuelOut s2) →
            ∀ listener ∈ s1.listeners, ∀ target,
              click.closest listener.selector = Closest.found target →
              Event.call listener.tag (clickData target) ∈ evs)
        ∧ ((∀ listener ∈ s1.listeners, listener.tag = tag →
              ∀ target, click.closest listener.selector ≠ Closest.found target) →
            tag ∉ calledTags evs)) := by
  refine ⟨?_, ?_, ?_, ?_, ?_⟩
  · unfold setupClickListeners
    simp only [hs, hc]
    apply List.mem_append_right
    rw [List.mem_flatMap]
    refine ⟨tag, htag, ?_⟩
    rw [List.mem_map]
    exact ⟨trigger, by simp [List.mem_filter, htr, hty, hsel], rfl⟩
  · intro push click target s1 hcl
    simp [clickListener, hcl]
  · intro target
    refine ⟨rfl, rfl, rfl⟩
  · intro push click s1 hcl
    simp [clickListener, hcl]
  · intro click s1
    obtain ⟨evs, h1, h2⟩ := dispatchClick_calls env fuel click s1.listeners s1
    refine ⟨evs, h1, h2, ?_⟩
    intro hno hm
    obtain ⟨evs1, h3, h4⟩ := dispatchClick_skips env fuel click tag ⟨trigger, htr, hty⟩
      s1.listeners hno s1
    have : evs1 = evs := List.append_cancel_left (h3.symm.trans h1)
    subst this
    exact calledTags_onTags _ evs1 h4 tag hm rfl

/-- Witness for C17: the listener bound for the sample tag on `#buy`, whose
second trigger does not hold on a click, is the call of `executeTag` with the
click data of the matched link. -/
theorem click_listener_executes_tag_witness :
    clickListener sampleEnv (pushIn sampleEnv 1) { tag := buyTag, selector := "#buy" }
        buyClickEvent (State.loadedWith (sampleConfig [buyTag]))
      = executeTag sampleEnv (pushIn sampleEnv 1) buyTag
          (clickData { id := 1, text := "[object HTMLAnchorElement]",
                       textContent := JSVal.str "Buy", href := JSVal.str "https://x.com/buy" })
          (State.loadedWith (sampleConfig [buyTag])) :=
  (click_listener_executes_tag sampleEnv 1 (State.loadedWith (sampleConfig [buyTag]))
    (sampleConfig [buyTag]) [buyTag] buyTag buyClick rfl rfl (by decide) (by decide) rfl
    (by decide)).2.1 (pushIn sampleEnv 1) buyClickEvent _ _ rfl

/-- Without a configuration a pass returns at once. -/
theorem processTags_no_config (env : Env) (fuel : Nat) (d : Record) (s : State)
    (h : s.config = none) : processTags env (fuel + 1) d s = Res.done s := by
  show processTagsWith env _ d s = Res.done s
  unfold processTagsWith
  simp [h]

/-- Without a configuration the loop of the enhanced push starts no pass that
does anything. -/
theorem pushLoop_no_config (env : Env) (fuel : Nat) (args : List Item) (s : State)
    (h : s.config = none) : pushLoop (processTags env (fuel + 1)) args s = Res.done s := by
  induction args with
  | nil => rfl
  | cons item rest ih =>
    simp only [pushLoop]
    split
    · split
      · rename_i htruthy _ e he
        cases item <;> simp [Item.truthy, Item.get] at htruthy he
      · split
        · simp only [triggerEvent, processTags_no_config env fuel _ s h]
          exact ih
        · exact ih
    · exact ih

/-- Without a configuration the enhanced push only appends to the data layer. -/
theorem dataLayerPush_no_config (env : Env) (fuel : Nat) (args : List Item) (s : State)
    (h : s.config = none) :
    dataLayerPush (processTags env (fuel + 1)) args s
      = Res.done { s with dataLayer := s.dataLayer ++ args } :=
  pushLoop_no_config env fuel args _ h

/-- Without a configuration and without listeners an action returns normally
and changes nothing but the data layer. -/
theorem step_unloaded (env : Env) (fuel : Nat) (action : Action) (s : State)
    (h : s.Unloaded) :
    ∃ s1, step env (fuel + 1) action s = Res.done s1 ∧ s1.Unloaded
      ∧ s1.executedTags = s.executedTags ∧ s1.trace = s.trace ∧ s1.loaded = s.loaded := by
  obtain ⟨hc, hl⟩ := h
  cases action with
  | pass d => exact ⟨s, processTags_no_config env fuel d s hc, ⟨hc, hl⟩, rfl, rfl, rfl⟩
  | push args =>
    exact ⟨_, dataLayerPush_no_config env fuel args s hc, ⟨hc, hl⟩, rfl, rfl, rfl⟩
  | trigger name data =>
    exact ⟨s, processTags_no_config env fuel _ s hc, ⟨hc, hl⟩, rfl, rfl, rfl⟩
  | setupClicks =>
    refine ⟨s, ?_, ⟨hc, hl⟩, rfl, rfl, rfl⟩
    simp [step, setupClickListeners, hc]
  | click c =>
    refine ⟨s, ?_, ⟨hc, hl⟩, rfl, rfl, rfl⟩
    simp [step, hl, dispatchClick]

/-- Without a configuration and without listeners a sequence of actions returns
normally and changes nothing but the data layer. -/
theorem run_unloaded (fuel : Nat) (actions : List (Env × Action)) (s : State)
    (h : s.Unloaded) :
    ∃ s1, run (fuel + 1) actions s = Res.done s1 ∧ s1.Unloaded
      ∧ s1.executedTags = s.executedTags ∧ s1.trace = s.trace ∧ s1.loaded = s.loaded := by
  induction actions generalizing s with
  | nil => exact ⟨s, rfl, h, rfl, rfl, rfl⟩
  | cons a rest ih =>
    obtain ⟨env, action⟩ := a
    obtain ⟨s1, h1, u1, e1, t1, l1⟩ := step_unloaded env fuel action s h
    obtain ⟨s2, h2, u2, e2, t2, l2⟩ := ih s1 u1
    refine ⟨s2, ?_, u2, e2.trans e1, t2.trans t1, l2.trans l1⟩
    simp only [run, h1]
    exact h2

/-- Claim C20. In a state without configuration (and without click listeners,
as before a successful load), every call of `processTags` returns at once with
the state as it was, every push only appends its arguments to the data layer,
and every `trigger` call changes nothing; over any sequence of such events the
run returns normally, `executedTags` and the trace are unchanged (so
`executeTag` is never entered), and the state stays without configuration, with
`loaded` as it was. A fetch that fails (network error, a response that is not
`ok` such as a 404, a body that is not JSON) makes `loadConfig` return `null`
with the state untouched, and `init` end there without listening for any
lifecycle signal. -/
theorem unloaded_engine_executes_nothing (fuel : Nat) (s : State) (h : s.Unloaded) :
    (∀ env d, processTags env (fuel + 1) d s = Res.done s)
    ∧ (∀ env args, dataLayerPush (processTags env (fuel + 1)) args s
        = Res.done { s with dataLayer := s.dataLayer ++ args })
    ∧ (∀ env name data, triggerEvent (processTags env (fuel + 1)) name data s = Res.done s)
    ∧ (∀ actions, ∃ s1, run (fuel + 1) actions s = Res.done s1 ∧ s1.Unloaded
        ∧ s1.executedTags = s.executedTags ∧ s1.trace = s.trace ∧ s1.loaded = s.loaded)
    ∧ (∀ fetch, fetch.failed = true → loadConfig fetch s = (s, none)
        ∧ ∀ env, init env (fuel + 1) fetch s
            = { result := Res.done s, onDomContentLoaded := false, onLoad := false }) := by
  refine ⟨fun env d => processTags_no_config env fuel d s h.1,
    fun env args => dataLayerPush_no_config env fuel args s h.1,
    fun env name data => processTags_no_config env fuel _ s h.1,
    fun actions => run_unloaded fuel actions s h, ?_⟩
  intro fetch hf
  have hl : loadConfig fetch s = (s, none) := by
    cases fetch with
    | networkError => rfl
    | response ok json =>
      cases ok with
      | false => rfl
      | true =>
        cases json with
        | none => rfl
        | some c => simp [Fetch.failed] at hf
  exact ⟨hl, fun env => by simp [init, hl]⟩

/-- Witness for C20: after a 404, a push of a purchase event, a `trigger` call
and a pageview pass leave the initial engine without any executed tag. -/
theorem unloaded_engine_executes_nothing_witness :
    ∃ s1, run 1 [(sampleEnv, Action.push [Item.record [("event", JSVal.str "purchase")]]),
          (sampleEnv, Action.trigger (JSVal.str "purchase") Item.undefined),
          (sampleEnv, Action.pass pageviewData)]
        (loadConfig (Fetch.response false none) State.initial).1 = Res.done s1
      ∧ s1.Unloaded ∧ s1.executedTags = State.initial.executedTags
      ∧ s1.trace = State.initial.trace ∧ s1.loaded = State.initial.loaded :=
  (unloaded_engine_executes_nothing 0 State.initial ⟨rfl, rfl⟩).2.2.2.1 _

/-- On a plain tag `executeTag` returns normally, whatever `push` is. -/
theorem executeTag_eq_plainResult (env : Env) (push : List Item → State → Res) (tag : Tag)
    (d : Record) (s : State) (hp : tag.plain) :
    executeTag env push tag d s = Res.done (plainResult env tag d s) := by
  obtain ⟨h1, h2⟩ := hp
  have hex : (s.log (Event.call tag d)).executedTags = s.executedTags := rfl
  unfold executeTag plainResult
  simp only [hex]
  split
  · rfl
  · split <;> simp [catchBlock, afterSwitch, h1, h2]

/-- The trace after `executeTag` on a plain tag. -/
theorem plainResult_trace (env : Env) (tag : Tag) (d : Record) (s : State) :
    (plainResult env tag d s).trace = s.trace ++ plainEntries env tag d s := by
  unfold plainResult plainEntries
  split
  · rfl
  · split <;> simp [State.log, State.addExecuted]

/-- The configuration and the listeners after `executeTag` on a plain tag. -/
theorem plainResult_config (env : Env) (tag : Tag) (d : Record) (s : State) :
    (plainResult env tag d s).config = s.config
      ∧ (plainResult env tag d s).listeners = s.listeners
      ∧ (plainResult env tag d s).dataLayer = s.dataLayer
      ∧ (plainResult env tag d s).loaded = s.loaded := by
  unfold plainResult
  split
  · exact ⟨rfl, rfl, rfl, rfl⟩
  · split <;> exact ⟨rfl, rfl, rfl, rfl⟩

/-- What `executeTag` adds on a plain tag: one call, of that tag, and nothing
that begins or ends a pass. -/
theorem plainEntries_facts (env : Env) (tag : Tag) (d : Record) (s : State) :
    calledTags (plainEntries env tag d s) = [tag]
      ∧ passesBegun (plainEntries env tag d s) = []
      ∧ ∀ e ∈ plainEntries env tag d s, NotPass e := by
  unfold plainEntries
  split
  · simp [calledTags, passesBegun, NotPass]
  · split <;> simp [calledTags, passesBegun, NotPass]

/-- The handler runs that `executeTag` adds on a plain tag are runs of that tag. -/
theorem plainEntries_handlerResults_other (env : Env) (tag other : Tag) (d : Record) (s : State)
    (h : tag ≠ other) : handlerResults other (plainEntries env tag d s) = [] := by
  unfold plainEntries
  split
  · simp [handlerResults]
  · split <;> simp [handlerResults, h]

/-- A tag that is not fire-once and whose handler returns is run once by
`executeTag`, whatever `executedTags` holds. -/
theorem plainEntries_handlerResults_ran (env : Env) (tag : Tag) (d : Record) (s : State)
    (hf : tag.fireOnce = false) (effect : Effect)
    (hr : runHandler env (s.log (Event.call tag d)) tag d = some (Except.ok effect)) :
    handlerResults tag (plainEntries env tag d s) = [true] := by
  unfold plainEntries
  simp [hf, hr, handlerResults]

/-- The passes begun in a trace in two parts. -/
theorem passesBegun_append (xs ys : List Event) :
    passesBegun (xs ++ ys) = passesBegun xs ++ passesBegun ys := by
  induction xs with
  | nil => rfl
  | cons e rest ih => cases e <;> simp [passesBegun, ih]

/-- The loop of `processTags` over plain tags never runs out of budget: it
returns or throws, adds no beginning or end of a pass, and enters `executeTag`
on a sublist of the tags, in order. -/
theorem forEachTag_plain (env : Env) (push : List Item → State → Res) (d : Record)
    (tags : List Tag) (hp : ∀ t ∈ tags, t.plain) (s : State) :
    (∀ s1, forEachTag env push d tags s ≠ Res.fuelOut s1)
      ∧ (forEachTag env push d tags s).state.config = s.config
      ∧ ∃ evs, (forEachTag env push d tags s).state.trace = s.trace ++ evs
          ∧ passesBegun evs = [] ∧ (∀ e ∈ evs, NotPass e)
          ∧ (calledTags evs).Sublist tags := by
  induction tags generalizing s with
  | nil =>
    refine ⟨fun s1 h => ?_, rfl, [], ?_, rfl, ?_, ?_⟩
    · cases h
    · simp [forEachTag, Res.state]
    · simp
    · simp [calledTags]
  | cons tag rest ih =>
    have ih' := ih (fun t ht => hp t (List.mem_cons_of_mem _ ht))
    simp only [forEachTag]
    split
    · obtain ⟨a, b, evs, c1, c2, c3, c4⟩ := ih' s
      exact ⟨a, b, evs, c1, c2, c3, c4.cons _⟩
    · split
      · refine ⟨fun s1 h => ?_, rfl, [], ?_, rfl, ?_, ?_⟩
        · cases h
        · simp [Res.state]
        · simp
        · simp [calledTags]
      · obtain ⟨a, b, evs, c1, c2, c3, c4⟩ := ih' s
        exact ⟨a, b, evs, c1, c2, c3, c4.cons _⟩
      · rw [executeTag_eq_plainResult env push tag d s (hp tag (List.mem_cons_self _ _))]
        simp only
        obtain ⟨a, b, evs, c1, c2, c3, c4⟩ := ih' (plainResult env tag d s)
        obtain ⟨f1, f2, f3⟩ := plainEntries_facts env tag d s
        refine ⟨a, b.trans (plainResult_config env tag d s).1,
          plainEntries env tag d s ++ evs, ?_, ?_, ?_, ?_⟩
        · rw [c1, plainResult_trace, List.append_assoc]
        · rw [passesBegun_append, f2, c2]; rfl
        · intro e he
          rcases List.mem_append.mp he with h | h
          · exact f3 e h
          · exact c3 e h
        · rw [calledTags_append, f1]
          exact c4.cons₂ _

/-! ## Passes nested in passes -/

/-- The `catch` block calls `push` on a callback record of its tag only. -/
theorem catchBlock_push_congr (push1 push2 : List Item → State → Res) (tag : Tag)
    (h : ∀ item s, CallbackRecord tag item → push1 [item] s = push2 [item] s)
    (e : Thrown) (s : State) : catchBlock push1 tag e s = catchBlock push2 tag e s := by
  unfold catchBlock
  simp only
  split
  · rename_i hon
    split
    · rfl
    · rename_i message _
      exact h _ _ (Or.inr ⟨hon, message, rfl⟩)
  · rfl

/-- The statements after the `switch` call `push` on a callback record of their
tag only. -/
theorem afterSwitch_push_congr (push1 push2 : List Item → State → Res) (tag : Tag)
    (h : ∀ item s, CallbackRecord tag item → push1 [item] s = push2 [item] s)
    (s : State) : afterSwitch push1 tag s = afterSwitch push2 tag s := by
  unfold afterSwitch
  simp only
  split
  · rename_i hon
    rw [h _ _ (Or.inl ⟨hon, rfl⟩)]
    split
    · exact catchBlock_push_congr push1 push2 tag h _ _
    · rfl
  · rfl

/-- A call of `executeTag` calls `push` on a callback record of its tag only. -/
theorem executeTag_push_congr (env : Env) (push1 push2 : List Item → State → Res) (tag : Tag)
    (h : ∀ item s, CallbackRecord tag item → push1 [item] s = push2 [item] s)
    (d : Record) (s : State) : executeTag env push1 tag d s = executeTag env push2 tag d s := by
  unfold executeTag
  simp only
  split
  · rfl
  · split
    · exact catchBlock_push_congr push1 push2 tag h _ _
    · exact afterSwitch_push_congr push1 push2 tag h _
    · exact afterSwitch_push_congr push1 push2 tag h _

/-- The loop of `processTags` calls `push` on callback records of its tags only. -/
theorem forEachTag_push_congr (env : Env) (push1 push2 : List Item → State → Res) (d : Record)
    (tags : List Tag)
    (h : ∀ tag ∈ tags, ∀ item s, CallbackRecord tag item → push1 [item] s = push2 [item] s)
    (s : State) : forEachTag env push1 d tags s = forEachTag env push2 d tags s := by
  induction tags generalizing s with
  | nil => rfl
  | cons tag rest ih =>
    have ih' := ih (fun t ht => h t (List.mem_cons_of_mem _ ht))
    simp only [forEachTag]
    split
    · exact ih' s
    · split
      · rfl
      · exact ih' s
      · rw [executeTag_push_congr env push1 push2 tag (h tag (List.mem_cons_self _ _)) d s]
        split
        · exact ih' _
        · rfl

/-- A plain tag has no callback record. -/
theorem callbackRecord_plain (tag : Tag) (hp : tag.plain) (item : Item) :
    ¬ CallbackRecord tag item := by
  obtain ⟨h1, h2⟩ := hp
  rintro (⟨h, _⟩ | ⟨h, _⟩)
  · rw [h1] at h; cases h
  · rw [h2] at h; cases h

/-- On a page whose payloads do not enter the engine, in a loaded
configuration in which no tag defines `onSuccess` or `onError`, one
`processTags` pass returns or throws without using any budget for nested passes
(the budget 1 of the pass itself is enough, and a larger budget gives the same
result), the trace it adds starts with the beginning of the pass and holds no
other beginning of a pass, and the calls of `executeTag` in it are a sublist of
the configured tags, in configuration order. For any configuration, the loop of
`processTags` depends on `push` only through its value on the `ctm.tagFired`
record of a tag that defines `onSuccess` and the `ctm.tagError` records of a tag
that defines `onError`. -/
theorem plain_pass_terminates_without_nested_pass (env : Env) (config : Config)
    (tags : List Tag) (d : Record) (s : State) (hs : s.config = some config)
    (hc : config.tags = some tags) (hp : ∀ t ∈ tags, t.plain) :
    (∀ fuel, processTags env (fuel + 1) d s = processTags env 1 d s)
      ∧ (∀ s1, processTags env 1 d s ≠ Res.fuelOut s1)
      ∧ (∃ evs, (processTags env 1 d s).state.trace = s.trace ++ Event.passBegin d :: evs
          ∧ passesBegun evs = [] ∧ (calledTags evs).Sublist tags)
      ∧ ∀ (push1 push2 : List Item → State → Res) (anyTags : List Tag) (s0 : State),
          (∀ tag ∈ anyTags, ∀ item s1, CallbackRecord tag item →
            push1 [item] s1 = push2 [item] s1) →
          forEachTag env push1 d anyTags s0 = forEachTag env push2 d anyTags s0 := by
  have hpush : ∀ (push1 push2 : List Item → State → Res) (s0 : State),
      forEachTag env push1 d tags s0 = forEachTag env push2 d tags s0 := fun push1 push2 s0 =>
    forEachTag_push_congr env push1 push2 d tags
      (fun t ht item s1 hcb => absurd hcb (callbackRecord_plain t (hp t ht) item)) s0
  obtain ⟨hfuel, -, evs, htrace, hbegun, -, hsub⟩ :=
    forEachTag_plain env (fun _ s0 => Res.done s0) d tags hp (s.log (Event.passBegin d))
  have hunfold : ∀ fuel, processTags env (fuel + 1) d s
      = match forEachTag env (fun _ s0 => Res.done s0) d tags (s.log (Event.passBegin d)) with
        | Res.done s1 => Res.done (s1.log Event.passEnd)
        | r => r := by
    intro fuel
    show processTagsWith env (dataLayerPush (processTags env fuel)) d s = _
    simp only [processTagsWith, hs, hc]
    rw [hpush (dataLayerPush (processTags env fuel)) (fun _ s0 => Res.done s0)]
  refine ⟨?_, ?_, ?_, ?_⟩
  · intro fuel
    rw [hunfold fuel, hunfold 0]
  · intro s1
    rw [hunfold 0]
    cases h : forEachTag env (fun _ s0 => Res.done s0) d tags (s.log (Event.passBegin d)) with
    | done s2 => simp
    | threw e s2 => simp
    | fuelOut s2 => exact absurd h (hfuel s2)
  · rw [hunfold 0]
    cases h : forEachTag env (fun _ s0 => Res.done s0) d tags (s.log (Event.passBegin d)) with
    | done s2 =>
      rw [h] at htrace
      refine ⟨evs ++ [Event.passEnd], ?_, ?_, ?_⟩
      · have h2 : s2.trace = (s.trace ++ [Event.passBegin d]) ++ evs := htrace
        show s2.trace ++ [Event.passEnd] = _
        rw [h2]; simp
      · rw [passesBegun_append, hbegun]; rfl
      · rw [calledTags_append]; simpa [calledTags] using hsub
    | threw e s2 =>
      rw [h] at htrace
      refine ⟨evs, ?_, hbegun, hsub⟩
      have h2 : s2.trace = (s.trace ++ [Event.passBegin d]) ++ evs := htrace
      show s2.trace = _
      rw [h2]; simp
    | fuelOut s2 => exact absurd h (hfuel s2)
  · intro push1 push2 anyTags s0 h
    exact forEachTag_push_congr env push1 push2 d anyTags h s0

/-- On the sample page: a pageview pass over a tag whose code throws, a
script tag and a tag on another event. -/
theorem plain_pass_terminates_without_nested_pass_witness :
    (State.loadedWith (sampleConfig [throwingTag, scriptTag, purchaseTag])).config
        = some (sampleConfig [throwingTag, scriptTag, purchaseTag])
      ∧ (∀ fuel, processTags sampleEnv (fuel + 1) pageviewData
            (State.loadedWith (sampleConfig [throwingTag, scriptTag, purchaseTag]))
          = processTags sampleEnv 1 pageviewData
            (State.loadedWith (sampleConfig [throwingTag, scriptTag, purchaseTag])))
      ∧ calledTags (processTags sampleEnv 1 pageviewData
            (State.loadedWith (sampleConfig [throwingTag, scriptTag, purchaseTag]))).state.trace
          = [throwingTag, scriptTag]
      ∧ passesBegun (processTags sampleEnv 1 pageviewData
            (State.loadedWith (sampleConfig [throwingTag, scriptTag, purchaseTag]))).state.trace
          = [pageviewData] :=
  ⟨rfl,
    (plain_pass_terminates_without_nested_pass sampleEnv
      (sampleConfig [throwingTag, scriptTag, purchaseTag]) [throwingTag, scriptTag, purchaseTag]
      pageviewData (State.loadedWith (sampleConfig [throwingTag, scriptTag, purchaseTag])) rfl rfl
      (by decide)).1,
    by decide, by decide⟩

/-- Reading back the key that was just written. -/
theorem Record.get_set (r : Record) (key : String) (value : JSVal) :
    (Record.set r key value).get key = value := by
  simp [Record.get, Record.set, List.lookup]

/-- The `catch` block only begins passes of callback records, when `push` does
on callback records. -/
theorem callback_catchBlock (push : List Item → State → Res)
    (hpush : ∀ tag item s, CallbackRecord tag item → Extends CallbackPass s (push [item] s).state)
    (tag : Tag) (e : Thrown) (s : State) :
    Extends CallbackPass s (catchBlock push tag e s).state := by
  have h1 : Extends CallbackPass s (s.log (Event.errorLogged tag.name e)) :=
    extends_log _ s _ trivial
  unfold catchBlock
  simp only
  split
  · rename_i hon
    split
    · exact h1
    · rename_i message _
      exact h1.andThen (hpush tag _ _ (Or.inr ⟨hon, message, rfl⟩))
  · exact h1

/-- The statements after the `switch` only begin passes of callback records. -/
theorem callback_afterSwitch (push : List Item → State → Res)
    (hpush : ∀ tag item s, CallbackRecord tag item → Extends CallbackPass s (push [item] s).state)
    (tag : Tag) (s : State) : Extends CallbackPass s (afterSwitch push tag s).state := by
  have h0 : Extends CallbackPass s (s.addExecuted tag.id) := extends_of_trace_eq _ _ _ rfl
  unfold afterSwitch
  simp only
  split
  · rename_i hon
    have hp := hpush tag (tagFiredItem tag) (s.addExecuted tag.id) (Or.inl ⟨hon, rfl⟩)
    cases h : push [tagFiredItem tag] (s.addExecuted tag.id) with
    | done s1 => rw [h] at hp; exact h0.andThen hp
    | fuelOut s1 => rw [h] at hp; exact h0.andThen hp
    | threw e s3 =>
      rw [h] at hp
      exact (h0.andThen hp).andThen (callback_catchBlock push hpush _ _ _)
  · exact h0

/-- A call of `executeTag` only begins passes of callback records. -/
theorem callback_executeTag (env : Env) (push : List Item → State → Res)
    (hpush : ∀ tag item s, CallbackRecord tag item → Extends CallbackPass s (push [item] s).state)
    (tag : Tag) (d : Record) (s : State) :
    Extends CallbackPass s (executeTag env push tag d s).state := by
  have h0 : Extends CallbackPass s (s.log (Event.call tag d)) := extends_log _ s _ trivial
  unfold executeTag
  simp only
  split
  · exact h0
  · split
    · rename_i e _
      exact (h0.andThen (extends_log _ _ (Event.handler tag d (Except.error e)) trivial)).andThen
        (callback_catchBlock push hpush _ _ _)
    · rename_i effect _
      exact (h0.andThen (extends_log _ _ (Event.handler tag d (Except.ok effect)) trivial)).andThen
        (callback_afterSwitch push hpush _ _)
    · exact h0.andThen (callback_afterSwitch push hpush _ _)

/-- The loop of `processTags` only begins passes of callback records. -/
theorem callback_forEachTag (env : Env) (push : List Item → State → Res)
    (hpush : ∀ tag item s, CallbackRecord tag item → Extends CallbackPass s (push [item] s).state)
    (d : Record) (tags : List Tag) (s : State) :
    Extends CallbackPass s (forEachTag env push d tags s).state := by
  induction tags generalizing s with
  | nil => exact Extends.same _ _
  | cons tag rest ih =>
    simp only [forEachTag]
    split
    · exact ih s
    · split
      · exact Extends.same _ _
      · exact ih s
      · have he := callback_executeTag env push hpush tag d s
        cases h : executeTag env push tag d s with
        | done s1 => rw [h] at he; exact he.andThen (ih s1)
        | threw e s1 => rw [h] at he; exact he
        | fuelOut s1 => rw [h] at he; exact he

/-- The enhanced push, called on one callback record, appends it and runs the
pass of that record. -/
theorem dataLayerPush_callbackRecord (pass : Record → State → Res) (tag : Tag) (item : Item)
    (h : CallbackRecord tag item) (s : State) :
    ∃ d, CallbackData d
      ∧ dataLayerPush pass [item] s = pass d { s with dataLayer := s.dataLayer ++ [item] } := by
  rcases h with ⟨-, rfl⟩ | ⟨-, message, rfl⟩
  · refine ⟨Record.set (tagFiredItem tag).spread "event" (JSVal.str "ctm.tagFired"),
      Or.inl (Record.get_set _ "event" (JSVal.str "ctm.tagFired")), ?_⟩
    simp only [dataLayerPush, pushLoop, tagFiredItem, Item.truthy, Item.get, Record.get,
      JSVal.truthy, triggerEvent, Item.spread, List.lookup, Option.getD]
    simp only [if_true]
    split <;> (try split) <;> simp_all
  · refine ⟨Record.set (tagErrorItem tag message).spread "event" (JSVal.str "ctm.tagError"),
      Or.inr (Record.get_set _ "event" (JSVal.str "ctm.tagError")), ?_⟩
    simp only [dataLayerPush, pushLoop, tagErrorItem, Item.truthy, Item.get, Record.get,
      JSVal.truthy, triggerEvent, Item.spread, List.lookup, Option.getD]
    simp only [if_true]
    split <;> (try split) <;> simp_all

/-- The body of `processTags` on the event data of a callback record only
begins passes of callback records. -/
theorem callback_processTagsWith (env : Env) (push : List Item → State → Res)
    (hpush : ∀ tag item s, CallbackRecord tag item → Extends CallbackPass s (push [item] s).state)
    (d : Record) (hd : CallbackData d) (s : State) :
    Extends CallbackPass s (processTagsWith env push d s).state := by
  unfold processTagsWith
  split
  · exact Extends.same _ _
  · split
    · exact Extends.same _ _
    · rename_i tags _
      have h1 : Extends CallbackPass s (s.log (Event.passBegin d)) := extends_log _ s _ hd
      have h2 := callback_forEachTag env push hpush d tags (s.log (Event.passBegin d))
      cases h : forEachTag env push d tags (s.log (Event.passBegin d)) with
      | done s1 =>
        rw [h] at h2
        exact (h1.andThen h2).andThen (extends_log _ s1 _ trivial)
      | threw e s1 => rw [h] at h2; exact h1.andThen h2
      | fuelOut s1 => rw [h] at h2; exact h1.andThen h2

/-- A pass on the event data of a callback record, with the passes nested in
it, only begins passes of callback records. -/
theorem callback_processTags (env : Env) (fuel : Nat) (d : Record) (hd : CallbackData d)
    (s : State) : Extends CallbackPass s (processTags env fuel d s).state := by
  induction fuel generalizing d s with
  | zero => exact Extends.same _ _
  | succ n ih =>
    refine callback_processTagsWith env _ ?_ d hd s
    intro tag item s0 hcb
    obtain ⟨d1, hd1, heq⟩ := dataLayerPush_callbackRecord (processTags env n) tag item hcb s0
    rw [heq]
    exact (extends_of_trace_eq CallbackPass s0 { s0 with dataLayer := s0.dataLayer ++ [item] }
      rfl).andThen (ih d1 hd1 _)

/-- The push seen by a pass only begins passes of callback records, when it is
called on a callback record. -/
theorem callback_pushIn (env : Env) (fuel : Nat) (tag : Tag) (item : Item) (s : State)
    (hcb : CallbackRecord tag item) : Extends CallbackPass s (pushIn env fuel [item] s).state := by
  obtain ⟨d1, hd1, heq⟩ := dataLayerPush_callbackRecord (processTags env fuel) tag item hcb s
  unfold pushIn
  rw [heq]
  exact (extends_of_trace_eq CallbackPass s { s with dataLayer := s.dataLayer ++ [item] }
    rfl).andThen (callback_processTags env fuel d1 hd1 _)

/-- The passes begun among entries that only begin passes of callback records. -/
theorem passesBegun_callback (evs : List Event) (h : ∀ e ∈ evs, CallbackPass e) :
    ∀ d ∈ passesBegun evs, CallbackData d := by
  induction evs with
  | nil => intro d hd; cases hd
  | cons e rest ih =>
    have ih' := ih (fun e1 h1 => h e1 (List.mem_cons_of_mem _ h1))
    have he := h e (List.mem_cons_self _ _)
    cases e <;> simp only [passesBegun] <;> try exact ih'
    intro d hd
    rcases List.mem_cons.mp hd with rfl | hd
    · exact he
    · exact ih' d hd

/-- A pass adds nothing to the trace, or the beginning of the pass followed by
entries that only begin passes of callback records. -/
theorem processTags_nested (env : Env) (fuel : Nat) (d : Record) (s : State) :
    ∃ evs, (processTags env fuel d s).state.trace = s.trace ++ evs
      ∧ (evs = [] ∨ ∃ rest, evs = Event.passBegin d :: rest
          ∧ ∀ d1 ∈ passesBegun rest, CallbackData d1) := by
  cases fuel with
  | zero => exact ⟨[], by simp [processTags, Res.state], Or.inl rfl⟩
  | succ n =>
    simp only [processTags, processTagsWith]
    split
    · exact ⟨[], by simp [Res.state], Or.inl rfl⟩
    · split
      · exact ⟨[], by simp [Res.state], Or.inl rfl⟩
      · rename_i tags _
        obtain ⟨evs, h1, h2⟩ := callback_forEachTag env (dataLayerPush (processTags env n))
          (fun tag item s0 hcb => callback_pushIn env n tag item s0 hcb) d tags
          (s.log (Event.passBegin d))
        have h1' : (forEachTag env (dataLayerPush (processTags env n)) d tags
            (s.log (Event.passBegin d))).state.trace = s.trace ++ Event.passBegin d :: evs := by
          rw [h1]; simp [State.log]
        cases h : forEachTag env (dataLayerPush (processTags env n)) d tags
            (s.log (Event.passBegin d)) with
        | done s1 =>
          rw [h] at h1'
          refine ⟨Event.passBegin d :: (evs ++ [Event.passEnd]), ?_, Or.inr ⟨_, rfl, ?_⟩⟩
          · have h3 : s1.trace = s.trace ++ Event.passBegin d :: evs := h1'
            show s1.trace ++ [Event.passEnd] = _
            rw [h3]; simp
          · rw [passesBegun_append]
            simpa [passesBegun] using passesBegun_callback evs h2
        | threw e s1 =>
          rw [h] at h1'
          exact ⟨Event.passBegin d :: evs, h1', Or.inr ⟨_, rfl, passesBegun_callback evs h2⟩⟩
        | fuelOut s1 =>
          rw [h] at h1'
          exact ⟨Event.passBegin d :: evs, h1', Or.inr ⟨_, rfl, passesBegun_callback evs h2⟩⟩

/-- The marks of a trace in two parts. -/
theorem passMarks_append (xs ys : List Event) :
    passMarks (xs ++ ys) = passMarks xs ++ passMarks ys := by
  induction xs with
  | nil => rfl
  | cons e rest ih => cases e <;> simp [passMarks, ih]

/-- Entries that neither begin nor end a pass leave no mark. -/
theorem passMarks_notPass (evs : List Event) (h : ∀ e ∈ evs, NotPass e) : passMarks evs = [] := by
  induction evs with
  | nil => rfl
  | cons e rest ih =>
    have ih' := ih (fun e1 h1 => h e1 (List.mem_cons_of_mem _ h1))
    have he := h e (List.mem_cons_self _ _)
    cases e <;> simp_all [passMarks, NotPass]

/-- What a pass over plain tags adds to the trace: it returns after the
beginning and the end of one pass, or throws after the beginning of one. -/
theorem processTags_plain_marks (env : Env) (fuel : Nat) (config : Config) (tags : List Tag)
    (hc : config.tags = some tags) (hp : ∀ t ∈ tags, t.plain) (d : Record) (s : State)
    (hs : s.config = some config) :
    ∃ evs, (processTags env (fuel + 1) d s).state.trace = s.trace ++ evs
      ∧ ((∃ s1, processTags env (fuel + 1) d s = Res.done s1 ∧ s1.config = some config
            ∧ passMarks evs = [some d, none])
        ∨ ((∃ e s1, processTags env (fuel + 1) d s = Res.threw e s1)
            ∧ passMarks evs = [some d])) := by
  obtain ⟨hfuel, hconfig, evs, htrace, -, hnot, -⟩ :=
    forEachTag_plain env (dataLayerPush (processTags env fuel)) d tags hp
      (s.log (Event.passBegin d))
  have hmarks := passMarks_notPass evs hnot
  show ∃ evs, (processTagsWith env (dataLayerPush (processTags env fuel)) d s).state.trace = _ ∧ _
  have hunfold : processTagsWith env (dataLayerPush (processTags env fuel)) d s
      = match forEachTag env (dataLayerPush (processTags env fuel)) d tags
          (s.log (Event.passBegin d)) with
        | Res.done s1 => Res.done (s1.log Event.passEnd)
        | r => r := by
    simp only [processTagsWith, hs, hc]
  show ∃ evs, (processTagsWith env (dataLayerPush (processTags env fuel)) d s).state.trace = _
    ∧ ((∃ s1, processTagsWith env (dataLayerPush (processTags env fuel)) d s = Res.done s1 ∧ _)
      ∨ ((∃ e s1, processTagsWith env (dataLayerPush (processTags env fuel)) d s
          = Res.threw e s1) ∧ _))
  rw [hunfold]
  cases h : forEachTag env (dataLayerPush (processTags env fuel)) d tags
      (s.log (Event.passBegin d)) with
  | done s2 =>
    rw [h] at htrace hconfig
    have h2 : s2.trace = (s.trace ++ [Event.passBegin d]) ++ evs := htrace
    have h3 : s2.config = s.config := hconfig
    refine ⟨Event.passBegin d :: (evs ++ [Event.passEnd]), ?_, Or.inl ⟨_, rfl, ?_, ?_⟩⟩
    · show s2.trace ++ [Event.passEnd] = _
      rw [h2]; simp
    · show s2.config = _
      rw [h3, hs]
    · simp [passMarks, passMarks_append, hmarks]
  | threw e s2 =>
    rw [h] at htrace
    have h2 : s2.trace = (s.trace ++ [Event.passBegin d]) ++ evs := htrace
    refine ⟨Event.passBegin d :: evs, ?_, Or.inr ⟨⟨e, s2, rfl⟩, ?_⟩⟩
    · show s2.trace = _
      rw [h2]; simp
    · simp [passMarks, hmarks]
  | fuelOut s2 => exact absurd h (hfuel s2)

/-- The loop of the enhanced push over plain tags runs its passes one after the
other. -/
theorem pushLoop_plain_marks (env : Env) (fuel : Nat) (config : Config) (tags : List Tag)
    (hc : config.tags = some tags) (hp : ∀ t ∈ tags, t.plain) (args : List Item) (s : State)
    (hs : s.config = some config) :
    ∃ evs, (pushLoop (processTags env (fuel + 1)) args s).state.trace = s.trace ++ evs
      ∧ Sequential (passMarks evs) := by
  induction args generalizing s with
  | nil => exact ⟨[], by simp [pushLoop, Res.state], trivial⟩
  | cons item rest ih =>
    simp only [pushLoop]
    split
    · split
      · exact ⟨[], by simp [Res.state], trivial⟩
      · split
        · rename_i event _ _
          unfold triggerEvent
          obtain ⟨evs, htrace, hcase⟩ := processTags_plain_marks env fuel config tags hc hp
            (Record.set item.spread "event" event) s hs
          rcases hcase with ⟨s1, hdone, hcfg, hmarks⟩ | ⟨⟨e, s1, hthrew⟩, hmarks⟩
          · rw [hdone] at htrace ⊢
            obtain ⟨evs2, htrace2, hseq⟩ := ih s1 hcfg
            refine ⟨evs ++ evs2, ?_, ?_⟩
            · have h1 : s1.trace = s.trace ++ evs := htrace
              show (pushLoop (processTags env (fuel + 1)) rest s1).state.trace = _
              rw [htrace2, h1, List.append_assoc]
            · rw [passMarks_append, hmarks]
              exact hseq
          · rw [hthrew] at htrace ⊢
            refine ⟨evs, htrace, ?_⟩
            rw [hmarks]
            trivial
        · exact ih s hs
    · exact ih s hs

/-- A click dispatched to listeners of plain tags begins no pass. -/
theorem dispatchClick_plain_marks (env : Env) (push : List Item → State → Res) (click : Click)
    (listeners : List Listener) (hl : ∀ l ∈ listeners, l.tag.plain) (s : State) :
    ∃ evs, (dispatchClick env push click listeners s).state.trace = s.trace ++ evs
      ∧ passMarks evs = [] := by
  induction listeners generalizing s with
  | nil => exact ⟨[], by simp [dispatchClick, Res.state], rfl⟩
  | cons l rest ih =>
    have ih' := ih (fun l1 h1 => hl l1 (List.mem_cons_of_mem _ h1))
    have hpl := hl l (List.mem_cons_self _ _)
    simp only [dispatchClick, clickListener]
    cases hclosest : click.closest l.selector with
    | invalid => simpa [Res.state] using ih' s
    | none => simpa [Res.state] using ih' s
    | found target =>
      simp only [executeTag_eq_plainResult env push l.tag (clickData target) s hpl]
      obtain ⟨evs, htrace, hmarks⟩ := ih' (plainResult env l.tag (clickData target) s)
      refine ⟨plainEntries env l.tag (clickData target) s ++ evs, ?_, ?_⟩
      · show (dispatchClick env push click rest (plainResult env l.tag (clickData target) s)
          ).state.trace = _
        rw [htrace, plainResult_trace, List.append_assoc]
      · rw [passMarks_append, hmarks,
          passMarks_notPass _ (plainEntries_facts env l.tag (clickData target) s).2.2]
        rfl

/-- With no budget the loop of the enhanced push leaves the trace alone. -/
theorem pushLoop_zero_trace (env : Env) (args : List Item) (s : State) :
    (pushLoop (processTags env 0) args s).state.trace = s.trace := by
  obtain ⟨evs, h1, h2⟩ := extends_pushLoop (fun _ => False) (processTags env 0)
    (fun d s0 => Extends.same _ _) args s
  cases evs with
  | nil => simpa using h1
  | cons e rest => exact absurd (h2 e (List.mem_cons_self _ _)) id

/-- Counterexample to C25 as stated: a pass begins inside a pass. The callback
tag defines `onSuccess`; in the pageview pass `executeTag` pushes its
`ctm.tagFired` record, and the enhanced push runs the pass of that record at
once: the trace shows the beginning of the pageview pass, the beginning of the
`ctm.tagFired` pass, and only then the two ends. The nested pass calls
`executeTag` on the tag a second time, while the first call has not returned. -/
theorem pass_begins_inside_pass_counterexample :
    callbackTag.onSuccess = true
      ∧ passMarks (processTags sampleEnv 2 pageviewData
          (State.loadedWith (sampleConfig [callbackTag]))).state.trace
        = [some pageviewData, some firedData, none, none]
      ∧ calledTags (processTags sampleEnv 2 pageviewData
          (State.loadedWith (sampleConfig [callbackTag]))).state.trace
        = [callbackTag, callbackTag] := by
  decide

/-- On a page whose payloads do not enter the engine, passes nest only
through the callbacks. Every pass that begins inside a pass, at any depth, is
the pass of a `ctm.tagFired` or `ctm.tagError` record: the trace that a pass
adds is empty (no configuration, or no budget) or starts with its own
beginning, and every later beginning of a pass in it carries one of these two
events. When no tag of the configuration and no bound listener defines
`onSuccess` or `onError`, passes do not nest at all: whatever the action, each
pass it begins ends, or is left by an exception that ends the action, before
the next one begins. -/
theorem passes_nest_only_through_callbacks (env : Env) (fuel : Nat) :
    (∀ d s, ∃ evs, (processTags env fuel d s).state.trace = s.trace ++ evs
        ∧ (evs = [] ∨ ∃ rest, evs = Event.passBegin d :: rest
            ∧ ∀ d1 ∈ passesBegun rest, CallbackData d1))
      ∧ ∀ (config : Config) (tags : List Tag) (action : Action) (s : State),
          s.config = some config → config.tags = some tags → (∀ t ∈ tags, t.plain) →
          (∀ l ∈ s.listeners, l.tag.plain) →
          ∃ evs, (step env fuel action s).state.trace = s.trace ++ evs
            ∧ Sequential (passMarks evs) := by
  refine ⟨fun d s => processTags_nested env fuel d s, ?_⟩
  intro config tags action s hs hc hp hl
  cases action with
  | pass d =>
    cases fuel with
    | zero => exact ⟨[], by simp [step, processTags, Res.state], trivial⟩
    | succ n =>
      obtain ⟨evs, htrace, hcase⟩ := processTags_plain_marks env n config tags hc hp d s hs
      refine ⟨evs, htrace, ?_⟩
      rcases hcase with ⟨_, _, _, hmarks⟩ | ⟨_, hmarks⟩ <;> rw [hmarks] <;> trivial
  | push args =>
    cases fuel with
    | zero =>
      refine ⟨[], ?_, trivial⟩
      simp only [step, dataLayerPush, List.append_nil]
      rw [pushLoop_zero_trace]
    | succ n =>
      obtain ⟨evs, htrace, hseq⟩ := pushLoop_plain_marks env n config tags hc hp args
        { s with dataLayer := s.dataLayer ++ args } hs
      exact ⟨evs, htrace, hseq⟩
  | trigger eventName data =>
    cases fuel with
    | zero => exact ⟨[], by simp [step, triggerEvent, processTags, Res.state], trivial⟩
    | succ n =>
      obtain ⟨evs, htrace, hcase⟩ := processTags_plain_marks env n config tags hc hp
        (Record.set data.spread "event" eventName) s hs
      refine ⟨evs, htrace, ?_⟩
      rcases hcase with ⟨_, _, _, hmarks⟩ | ⟨_, hmarks⟩ <;> rw [hmarks] <;> trivial
  | setupClicks =>
    refine ⟨[], ?_, trivial⟩
    simp only [step, setupClickListeners, hs, hc, Res.state, List.append_nil]
  | click click =>
    obtain ⟨evs, htrace, hmarks⟩ :=
      dispatchClick_plain_marks env (pushIn env fuel) click s.listeners hl s
    refine ⟨evs, htrace, ?_⟩
    rw [hmarks]
    trivial

/-- On the sample page: pushing the purchase record twice in one call runs
two passes over the purchase tag, the second after the first has ended. -/
theorem passes_nest_only_through_callbacks_witness :
    (∃ evs, (step sampleEnv 1
          (Action.push [Item.record purchaseRecord, Item.record purchaseRecord])
          (State.loadedWith (sampleConfig [purchaseTag]))).state.trace
        = (State.loadedWith (sampleConfig [purchaseTag])).trace ++ evs
        ∧ Sequential (passMarks evs))
      ∧ passMarks (step sampleEnv 1
          (Action.push [Item.record purchaseRecord, Item.record purchaseRecord])
          (State.loadedWith (sampleConfig [purchaseTag]))).state.trace
        = [some purchaseRecord, none, some purchaseRecord, none] :=
  ⟨(passes_nest_only_through_callbacks sampleEnv 1).2 (sampleConfig [purchaseTag]) [purchaseTag]
      (Action.push [Item.record purchaseRecord, Item.record purchaseRecord])
      (State.loadedWith (sampleConfig [purchaseTag])) rfl rfl (by decide) (by decide),
    by decide⟩

/-! ## Tags that are not fire-once -/

/-- The loop of `processTags` over plain tags whose triggers all have a value
runs the handler of an enabled tag that is not fire-once, whose triggers hold
and whose handler returns, once for each place the tag has in the list. -/
theorem forEachTag_plain_results (env : Env) (push : List Item → State → Res) (d : Record)
    (tag : Tag) (hen : tag.enabled = true) (hf : tag.fireOnce = false)
    (hsat : ∀ s, everyTrigger env s d tag.triggers = Except.ok true)
    (hhandler : ∀ s, ∃ effect, runHandler env s tag d = some (Except.ok effect))
    (tags : List Tag) (hp : ∀ t ∈ tags, t.plain)
    (hval : ∀ t ∈ tags, ∀ s, ∃ b, everyTrigger env s d t.triggers = Except.ok b) (s : State) :
    ∃ s1, forEachTag env push d tags s = Res.done s1 ∧ s1.config = s.config
      ∧ handlerResults tag s1.trace
        = handlerResults tag s.trace ++ List.replicate (tags.count tag) true := by
  induction tags generalizing s with
  | nil => exact ⟨s, rfl, rfl, by simp⟩
  | cons t rest ih =>
    have ih' := ih (fun t1 h1 => hp t1 (List.mem_cons_of_mem _ h1))
      (fun t1 h1 => hval t1 (List.mem_cons_of_mem _ h1))
    have hpt := hp t (List.mem_cons_self _ _)
    obtain ⟨b, hb⟩ := hval t (List.mem_cons_self _ _) s
    simp only [forEachTag]
    split
    · rename_i hdis
      have hne : t ≠ tag := fun h => by rw [h, hen] at hdis; cases hdis
      obtain ⟨s1, h1, h2, h3⟩ := ih' s
      exact ⟨s1, h1, h2, by rw [h3, List.count_cons_of_ne (Ne.symm hne)]⟩
    · rw [hb]
      cases b with
      | false =>
        have hne : t ≠ tag := fun h => by rw [h, hsat s] at hb; cases hb
        obtain ⟨s1, h1, h2, h3⟩ := ih' s
        exact ⟨s1, h1, h2, by rw [h3, List.count_cons_of_ne (Ne.symm hne)]⟩
      | true =>
        simp only [executeTag_eq_plainResult env push t d s hpt]
        obtain ⟨s1, h1, h2, h3⟩ := ih' (plainResult env t d s)
        refine ⟨s1, h1, h2.trans (plainResult_config env t d s).1, ?_⟩
        rw [h3, plainResult_trace, handlerResults_append, List.append_assoc]
        congr 1
        by_cases htag : t = tag
        · subst htag
          obtain ⟨effect, heff⟩ := hhandler (s.log (Event.call t d))
          rw [plainEntries_handlerResults_ran env t d s hf effect heff, List.count_cons_self,
            List.replicate_succ]
          rfl
        · rw [plainEntries_handlerResults_other env t tag d s htag, List.count_cons_of_ne (Ne.symm htag)]
          rfl

/-- One pass over plain tags whose triggers all have a value returns, and runs
the handler of an enabled tag that is not fire-once, whose triggers hold and
whose handler returns, once for each place the tag has in the configuration. -/
theorem processTags_plain_results (env : Env) (fuel : Nat) (d : Record)
    (tag : Tag) (hen : tag.enabled = true) (hf : tag.fireOnce = false)
    (hsat : ∀ s, everyTrigger env s d tag.triggers = Except.ok true)
    (hhandler : ∀ s, ∃ effect, runHandler env s tag d = some (Except.ok effect))
    (config : Config) (tags : List Tag) (hc : config.tags = some tags) (hp : ∀ t ∈ tags, t.plain)
    (hval : ∀ t ∈ tags, ∀ s, ∃ b, everyTrigger env s d t.triggers = Except.ok b) (s : State)
    (hs : s.config = some config) :
    ∃ s1, processTags env (fuel + 1) d s = Res.done s1 ∧ s1.config = some config
      ∧ handlerResults tag s1.trace
        = handlerResults tag s.trace ++ List.replicate (tags.count tag) true := by
  obtain ⟨s1, h1, h2, h3⟩ := forEachTag_plain_results env (dataLayerPush (processTags env fuel))
    d tag hen hf hsat hhandler tags hp hval (s.log (Event.passBegin d))
  refine ⟨s1.log Event.passEnd, ?_, ?_, ?_⟩
  · show processTagsWith env (dataLayerPush (processTags env fuel)) d s = _
    simp only [processTagsWith, hs, hc, h1]
  · show s1.config = _
    rw [h2]
    exact hs
  · rw [handlerResults_log tag s1 Event.passEnd (fun _ _ _ h => by cases h), h3,
      handlerResults_log tag s (Event.passBegin d) (fun _ _ _ h => by cases h)]

/-- Claim C24. An enabled tag with `fireOnce = false` whose handler returns is run by
every pass whose context satisfies all its triggers, whatever the Executed-Tag
Set holds. In a configuration where the tag has one place and no tag defines
`onSuccess` or `onError`, from any loaded state (any `executedTags`), any
sequence of `n` passes, each on its own page and context, in which the triggers
of every tag have a value and those of the tag hold, returns and adds exactly
`n` handler runs of the tag, all of which returned. -/
theorem repeatable_tag_runs_in_every_satisfying_pass (config : Config) (tags : List Tag)
    (tag : Tag) (hc : config.tags = some tags) (hp : ∀ t ∈ tags, t.plain)
    (hcount : tags.count tag = 1) (hen : tag.enabled = true) (hf : tag.fireOnce = false)
    (fuel : Nat) (passes : List (Env × Record))
    (hval : ∀ p ∈ passes, ∀ t ∈ tags, ∀ s, ∃ b, everyTrigger p.1 s p.2 t.triggers = Except.ok b)
    (hsat : ∀ p ∈ passes, ∀ s, everyTrigger p.1 s p.2 tag.triggers = Except.ok true)
    (hhandler : ∀ p ∈ passes, ∀ s, ∃ effect, runHandler p.1 s tag p.2 = some (Except.ok effect))
    (s : State) (hs : s.config = some config) :
    ∃ s1, run (fuel + 1) (passes.map (fun p => (p.1, Action.pass p.2))) s = Res.done s1
      ∧ handlerResults tag s1.trace
        = handlerResults tag s.trace ++ List.replicate passes.length true := by
  induction passes generalizing s with
  | nil => exact ⟨s, rfl, by simp⟩
  | cons p rest ih =>
    obtain ⟨s1, h1, h2, h3⟩ := processTags_plain_results p.1 fuel p.2 tag hen hf
      (hsat p (List.mem_cons_self _ _)) (hhandler p (List.mem_cons_self _ _)) config tags hc hp
      (hval p (List.mem_cons_self _ _)) s hs
    obtain ⟨s2, h4, h5⟩ := ih (fun q hq => hval q (List.mem_cons_of_mem _ hq))
      (fun q hq => hsat q (List.mem_cons_of_mem _ hq))
      (fun q hq => hhandler q (List.mem_cons_of_mem _ hq)) s1 h2
    refine ⟨s2, ?_, ?_⟩
    · simp only [List.map_cons, run, step, h1]
      exact h4
    · rw [h5, h3, hcount, List.append_assoc, List.length_cons, List.replicate_succ]
      rfl

/-- Witness for C24: the purchase event twice, with the tag already in
the Executed-Tag Set; and the same through two pushes of the event name. -/
theorem repeatable_tag_runs_in_every_satisfying_pass_witness :
    (∃ s1, run 1 ([(sampleEnv, purchaseRecord), (sampleEnv, purchaseRecord)].map
          (fun p => (p.1, Action.pass p.2)))
          ((State.loadedWith (sampleConfig [scriptTag, repeatTag])).addExecuted "t12")
        = Res.done s1
        ∧ handlerResults repeatTag s1.trace
          = handlerResults repeatTag
              ((State.loadedWith (sampleConfig [scriptTag, repeatTag])).addExecuted "t12").trace
            ++ List.replicate 2 true)
      ∧ handlerResults repeatTag (run 1
          [(sampleEnv, Action.push [Item.record purchaseRecord]),
            (sampleEnv, Action.push [Item.record purchaseRecord])]
          (State.loadedWith (sampleConfig [scriptTag, repeatTag]))).state.trace = [true, true] :=
  ⟨repeatable_tag_runs_in_every_satisfying_pass (sampleConfig [scriptTag, repeatTag])
      [scriptTag, repeatTag] repeatTag rfl (by decide) (by decide) rfl rfl 0
      [(sampleEnv, purchaseRecord), (sampleEnv, purchaseRecord)]
      (by
        intro p hp t ht s
        simp only [List.mem_cons, List.mem_singleton, List.not_mem_nil, or_false, or_self] at hp ht
        subst hp
        rcases ht with rfl | rfl
        · exact ⟨true, rfl⟩
        · exact ⟨true, rfl⟩)
      (by
        intro p hp s
        simp only [List.mem_cons, List.mem_singleton, List.not_mem_nil, or_false, or_self] at hp
        subst hp
        rfl)
      (by
        intro p hp s
        simp only [List.mem_cons, List.mem_singleton, List.not_mem_nil, or_false, or_self] at hp
        subst hp
        exact ⟨_, rfl⟩)
      ((State.loadedWith (sampleConfig [scriptTag, repeatTag])).addExecuted "t12") rfl,
    by decide⟩

/-! ## What a pass leaves alone -/

/-- A state frames itself. -/
theorem Frame.here (s : State) : Frame s s := ⟨rfl, rfl, rfl, [], by simp⟩

/-- Frames compose. -/
theorem Frame.next {a b c : State} (h1 : Frame a b) (h2 : Frame b c) : Frame a c := by
  obtain ⟨a1, a2, a3, m1, a4⟩ := h1
  obtain ⟨b1, b2, b3, m2, b4⟩ := h2
  exact ⟨b1.trans a1, b2.trans a2, b3.trans a3, m1 ++ m2, by rw [b4, a4, List.append_assoc]⟩

/-- Logging an entry. -/
theorem frame_log (s : State) (e : Event) : Frame s (s.log e) := ⟨rfl, rfl, rfl, [], by simp [State.log]⟩

/-- Recording an id. -/
theorem frame_addExecuted (s : State) (id : String) : Frame s (s.addExecuted id) :=
  ⟨rfl, rfl, rfl, [], by simp [State.addExecuted]⟩

/-- Appending to the data layer. -/
theorem frame_data (s : State) (args : List Item) :
    Frame s { s with dataLayer := s.dataLayer ++ args } := ⟨rfl, rfl, rfl, args, rfl⟩

/-- The `catch` block of `executeTag`. -/
theorem frame_catchBlock (push : List Item → State → Res)
    (hpush : ∀ args s, Frame s (push args s).state) (tag : Tag) (e : Thrown) (s : State) :
    Frame s (catchBlock push tag e s).state := by
  have h1 : Frame s (s.log (Event.errorLogged tag.name e)) := frame_log s _
  unfold catchBlock
  simp only
  split
  · split
    · exact h1
    · exact h1.next (hpush _ _)
  · exact h1

/-- The statements of the `try` block after the `switch`. -/
theorem frame_afterSwitch (push : List Item → State → Res)
    (hpush : ∀ args s, Frame s (push args s).state) (tag : Tag) (s : State) :
    Frame s (afterSwitch push tag s).state := by
  have h0 : Frame s (s.addExecuted tag.id) := frame_addExecuted s _
  unfold afterSwitch
  simp only
  split
  · have hp := hpush [tagFiredItem tag] (s.addExecuted tag.id)
    cases h : push [tagFiredItem tag] (s.addExecuted tag.id) with
    | done s1 => rw [h] at hp; exact h0.next hp
    | fuelOut s1 => rw [h] at hp; exact h0.next hp
    | threw e s3 =>
      rw [h] at hp
      exact (h0.next hp).next (frame_catchBlock push hpush _ _ _)
  · exact h0

/-- The function `executeTag`. -/
theorem frame_executeTag (env : Env) (push : List Item → State → Res)
    (hpush : ∀ args s, Frame s (push args s).state) (tag : Tag) (d : Record) (s : State) :
    Frame s (executeTag env push tag d s).state := by
  have h0 : Frame s (s.log (Event.call tag d)) := frame_log s _
  unfold executeTag
  simp only
  split
  · exact h0
  · split
    · exact (h0.next (frame_log _ _)).next (frame_catchBlock push hpush _ _ _)
    · exact (h0.next (frame_log _ _)).next (frame_afterSwitch push hpush _ _)
    · exact h0.next (frame_afterSwitch push hpush _ _)

/-- The loop of `processTags`. -/
theorem frame_forEachTag (env : Env) (push : List Item → State → Res)
    (hpush : ∀ args s, Frame s (push args s).state) (d : Record) (tags : List Tag) (s : State) :
    Frame s (forEachTag env push d tags s).state := by
  induction tags generalizing s with
  | nil => exact Frame.here _
  | cons tag rest ih =>
    simp only [forEachTag]
    split
    · exact ih s
    · split
      · exact Frame.here _
      · exact ih s
      · have he := frame_executeTag env push hpush tag d s
        cases h : executeTag env push tag d s with
        | done s1 => rw [h] at he; exact he.next (ih s1)
        | threw e s1 => rw [h] at he; exact he
        | fuelOut s1 => rw [h] at he; exact he

/-- The body of `processTags`. -/
theorem frame_processTagsWith (env : Env) (push : List Item → State → Res)
    (hpush : ∀ args s, Frame s (push args s).state) (d : Record) (s : State) :
    Frame s (processTagsWith env push d s).state := by
  unfold processTagsWith
  split
  · exact Frame.here _
  · split
    · exact Frame.here _
    · rename_i tags _
      have h1 : Frame s (s.log (Event.passBegin d)) := frame_log s _
      have h2 := frame_forEachTag env push hpush d tags (s.log (Event.passBegin d))
      cases h : forEachTag env push d tags (s.log (Event.passBegin d)) with
      | done s1 =>
        rw [h] at h2
        exact (h1.next h2).next (frame_log s1 _)
      | threw e s1 => rw [h] at h2; exact h1.next h2
      | fuelOut s1 => rw [h] at h2; exact h1.next h2

/-- The loop of the enhanced push. -/
theorem frame_pushLoop (pass : Record → State → Res)
    (hpass : ∀ d s, Frame s (pass d s).state) (args : List Item) (s : State) :
    Frame s (pushLoop pass args s).state := by
  induction args generalizing s with
  | nil => exact Frame.here _
  | cons item rest ih =>
    simp only [pushLoop]
    split
    · split
      · exact Frame.here _
      · split
        · rename_i event _ _
          have hp := hpass (Record.set item.spread "event" event) s
          unfold triggerEvent
          cases h : pass (Record.set item.spread "event" event) s with
          | done s1 => rw [h] at hp; exact hp.next (ih s1)
          | threw e s1 => rw [h] at hp; exact hp
          | fuelOut s1 => rw [h] at hp; exact hp
        · exact ih s
    · exact ih s

/-- The enhanced push. -/
theorem frame_dataLayerPush (pass : Record → State → Res)
    (hpass : ∀ d s, Frame s (pass d s).state) (args : List Item) (s : State) :
    Frame s (dataLayerPush pass args s).state :=
  (frame_data s args).next (frame_pushLoop pass hpass args _)

/-- A pass, with the passes nested in it, leaves the configuration, the `loaded`
flag and the listeners alone, and only appends to the data layer. -/
theorem frame_processTags (env : Env) (fuel : Nat) (d : Record) (s : State) :
    Frame s (processTags env fuel d s).state := by
  induction fuel generalizing d s with
  | zero => exact Frame.here _
  | succ n ih =>
    exact frame_processTagsWith env _ (fun args s => frame_dataLayerPush _ ih args s) d s

/-! ## The lifecycle passes -/

/-- With a configuration loaded, `setupClickListeners` appends the listeners of
the configured tags. -/
theorem setupClickListeners_loaded (s : State) (config : Config) (tags : List Tag)
    (hs : s.config = some config) (hc : config.tags = some tags) :
    setupClickListeners s = { s with listeners := s.listeners ++ listenersOf tags } := by
  simp only [setupClickListeners, hs, hc, listenersOf]

/-- With a configuration loaded, a pass that has a budget logs its beginning,
and every pass begun after it before it ends is the pass of a callback record. -/
theorem processTags_loaded_trace (env : Env) (n : Nat) (d : Record) (s : State)
    (config : Config) (tags : List Tag) (hs : s.config = some config)
    (hc : config.tags = some tags) :
    ∃ rest, (processTags env (n + 1) d s).state.trace = s.trace ++ Event.passBegin d :: rest
      ∧ ∀ d1 ∈ passesBegun rest, CallbackData d1 := by
  obtain ⟨evs, h1, h2⟩ := callback_forEachTag env (dataLayerPush (processTags env n))
    (fun tag item s0 hcb => callback_pushIn env n tag item s0 hcb) d tags
    (s.log (Event.passBegin d))
  have h1' : (forEachTag env (dataLayerPush (processTags env n)) d tags
      (s.log (Event.passBegin d))).state.trace = s.trace ++ Event.passBegin d :: evs := by
    rw [h1]; simp [State.log]
  show ∃ rest, (processTagsWith env (dataLayerPush (processTags env n)) d s).state.trace = _ ∧ _
  simp only [processTagsWith, hs, hc]
  cases h : forEachTag env (dataLayerPush (processTags env n)) d tags
      (s.log (Event.passBegin d)) with
  | done s1 =>
    rw [h] at h1'
    refine ⟨evs ++ [Event.passEnd], ?_, ?_⟩
    · have h3 : s1.trace = s.trace ++ Event.passBegin d :: evs := h1'
      show s1.trace ++ [Event.passEnd] = _
      rw [h3]; simp
    · rw [passesBegun_append]
      simpa [passesBegun] using passesBegun_callback evs h2
  | threw e s1 =>
    rw [h] at h1'
    exact ⟨evs, h1', passesBegun_callback evs h2⟩
  | fuelOut s1 =>
    rw [h] at h1'
    exact ⟨evs, h1', passesBegun_callback evs h2⟩

/-- The pass of a callback record is not a pass of the lifecycle. -/
theorem lifecyclePasses_callback (rest : List Event)
    (h : ∀ d1 ∈ passesBegun rest, CallbackData d1) : lifecyclePasses rest = [] := by
  unfold lifecyclePasses
  rw [List.filter_eq_nil_iff]
  intro d hd
  have hcb := h d hd
  simp only [decide_eq_true_eq, lifecycleData, List.mem_cons, List.mem_singleton,
    List.not_mem_nil, or_false]
  rintro (rfl | rfl | rfl) <;> rcases hcb with hcb | hcb <;> revert hcb <;> decide

/-- The lifecycle passes of a trace in two parts. -/
theorem lifecyclePasses_append (xs ys : List Event) :
    lifecyclePasses (xs ++ ys) = lifecyclePasses xs ++ lifecyclePasses ys := by
  simp [lifecyclePasses, passesBegun_append]

/-- What one pass of the lifecycle that returns leaves: the configuration and
the listeners as they were, and in the trace that pass alone among the passes
of the lifecycle. -/
theorem lifecycle_pass (env : Env) (n : Nat) (d : Record) (hd : d ∈ lifecycleData) (s s1 : State)
    (config : Config) (tags : List Tag) (hs : s.config = some config)
    (hc : config.tags = some tags) (h : processTags env (n + 1) d s = Res.done s1) :
    s1.config = some config ∧ s1.listeners = s.listeners
      ∧ ∃ evs, s1.trace = s.trace ++ evs ∧ lifecyclePasses evs = [d] := by
  have hf := frame_processTags env (n + 1) d s
  obtain ⟨rest, ht, hcb⟩ := processTags_loaded_trace env n d s config tags hs hc
  rw [h] at hf ht
  obtain ⟨f1, -, f3, -⟩ := hf
  refine ⟨f1.trans hs, f3, Event.passBegin d :: rest, ht, ?_⟩
  have hrest := lifecyclePasses_callback rest hcb
  unfold lifecyclePasses at hrest ⊢
  simp only [passesBegun]
  rw [List.filter_cons_of_pos (by simpa using hd), hrest]

/-- The loop of `processTags` over plain tags whose triggers all have a value
returns. -/
theorem forEachTag_plain_done (env : Env) (push : List Item → State → Res) (d : Record)
    (tags : List Tag) (hp : ∀ t ∈ tags, t.plain)
    (hval : ∀ t ∈ tags, ∀ s, ∃ b, everyTrigger env s d t.triggers = Except.ok b) (s : State) :
    ∃ s1, forEachTag env push d tags s = Res.done s1 := by
  induction tags generalizing s with
  | nil => exact ⟨s, rfl⟩
  | cons t rest ih =>
    have ih' := ih (fun t1 h1 => hp t1 (List.mem_cons_of_mem _ h1))
      (fun t1 h1 => hval t1 (List.mem_cons_of_mem _ h1))
    obtain ⟨b, hb⟩ := hval t (List.mem_cons_self _ _) s
    simp only [forEachTag]
    split
    · exact ih' s
    · rw [hb]
      cases b with
      | false => exact ih' s
      | true =>
        simp only [executeTag_eq_plainResult env push t d s (hp t (List.mem_cons_self _ _))]
        exact ih' _

/-- A pass over plain tags whose triggers all have a value returns. -/
theorem processTags_plain_done (env : Env) (fuel : Nat) (d : Record) (config : Config)
    (tags : List Tag) (hc : config.tags = some tags) (hp : ∀ t ∈ tags, t.plain)
    (hval : ∀ t ∈ tags, ∀ s, ∃ b, everyTrigger env s d t.triggers = Except.ok b) (s : State)
    (hs : s.config = some config) : ∃ s1, processTags env (fuel + 1) d s = Res.done s1 := by
  obtain ⟨s1, h1⟩ := forEachTag_plain_done env (dataLayerPush (processTags env fuel)) d tags hp
    hval (s.log (Event.passBegin d))
  refine ⟨s1.log Event.passEnd, ?_⟩
  show processTagsWith env (dataLayerPush (processTags env fuel)) d s = _
  simp only [processTagsWith, hs, hc, h1]

/-- Claim C21. With a configuration loaded and passes that return, `init` and the
host signals after it run the pageview pass, the dom_ready pass and the
window_load pass once each, in this order, and bind the click listeners of the
configured tags once. `init` itself begins with the pageview pass and runs the
passes whose point the document has reached when the configuration arrives:
the pageview pass alone while the document is loading (both listeners are left
to the signals, and no click listener is bound yet), the pageview and dom_ready
passes with the click listeners when it is interactive (the `load` listener is
left), all three when it is complete (no listener is left). The passes that are
left run when the signal arrives: the host sends `DOMContentLoaded` to a
document that was loading and `load` to one that was not complete. The passes
of `ctm.tagFired` and `ctm.tagError` records that tags with callbacks start
inside these passes are not counted. -/
theorem init_runs_each_lifecycle_pass_once (fuel : Nat) (config : Config) (tags : List Tag)
    (atInit : Env) (domContentLoaded load : Option Env) (s : State)
    (hc : config.tags = some tags)
    (hdone : ∀ env d s0, s0.config = some config → ∃ s1, processTags env fuel d s0 = Res.done s1)
    (hdcl : atInit.page.readyState = ReadyState.loading → domContentLoaded.isSome = true)
    (hload : atInit.page.readyState ≠ ReadyState.complete → load.isSome = true) :
    (∃ s0 evs0, (init atInit fuel (Fetch.response true (some config)) s).result = Res.done s0
        ∧ s0.trace = s.trace ++ evs0
        ∧ evs0.head? = some (Event.passBegin pageviewData)
        ∧ lifecyclePasses evs0 = lifecycleData.take (atInit.page.readyState.rank + 1)
        ∧ s0.listeners = (if atInit.page.readyState = ReadyState.loading then s.listeners
            else s.listeners ++ listenersOf tags)
        ∧ (init atInit fuel (Fetch.response true (some config)) s).onDomContentLoaded
            = decide (atInit.page.readyState = ReadyState.loading)
        ∧ (init atInit fuel (Fetch.response true (some config)) s).onLoad
            = decide (atInit.page.readyState ≠ ReadyState.complete))
      ∧ ∃ s1 evs, lifecycle fuel (Fetch.response true (some config)) atInit domContentLoaded
            load s = Res.done s1
          ∧ s1.trace = s.trace ++ evs
          ∧ lifecyclePasses evs = [pageviewData, domReadyData, windowLoadData]
          ∧ s1.listeners = s.listeners ++ listenersOf tags := by
  cases fuel with
  | zero =>
    obtain ⟨s1, h1⟩ := hdone atInit pageviewData { s with config := some config } rfl
    cases h1
  | succ n =>
    obtain ⟨s2, h2⟩ := hdone atInit pageviewData { s with config := some config, loaded := true } rfl
    obtain ⟨c2, l2, evA, tA, pA⟩ := lifecycle_pass atInit n pageviewData (by decide) _ s2 config
      tags rfl hc h2
    have l2' : s2.listeners = s.listeners := l2
    have tA' : s2.trace = s.trace ++ evA := tA
    have hheadA : evA.head? = some (Event.passBegin pageviewData) := by
      obtain ⟨rest, hrest, -⟩ := processTags_loaded_trace atInit n pageviewData
        { s with config := some config, loaded := true } config tags rfl hc
      rw [h2] at hrest
      have : s2.trace = s.trace ++ Event.passBegin pageviewData :: rest := hrest
      rw [tA'] at this
      rw [List.append_cancel_left this]
      rfl
    cases hr : atInit.page.readyState with
    | loading =>
      have hinit : init atInit (n + 1) (Fetch.response true (some config)) s
          = { result := Res.done s2, onDomContentLoaded := true, onLoad := true } := by
        simp [init, loadConfig, h2, hr]
      obtain ⟨envD, hD⟩ := Option.isSome_iff_exists.mp (hdcl hr)
      obtain ⟨envL, hL⟩ := Option.isSome_iff_exists.mp (hload (by rw [hr]; decide))
      obtain ⟨s3, h3⟩ := hdone envD domReadyData s2 c2
      obtain ⟨c3, l3, evB, tB, pB⟩ := lifecycle_pass envD n domReadyData (by decide) s2 s3 config
        tags c2 hc h3
      have hsetup := setupClickListeners_loaded s3 config tags c3 hc
      obtain ⟨s4, h4⟩ := hdone envL windowLoadData (setupClickListeners s3)
        (by rw [hsetup]; exact c3)
      obtain ⟨c4, l4, evC, tC, pC⟩ := lifecycle_pass envL n windowLoadData (by decide)
        (setupClickListeners s3) s4 config tags (by rw [hsetup]; exact c3) hc h4
      refine ⟨⟨s2, evA, by rw [hinit], tA', hheadA, ?_, ?_, by rw [hinit]; rfl,
        by rw [hinit]; rfl⟩, s4, evA ++ evB ++ evC, ?_, ?_, ?_, ?_⟩
      · rw [pA]; rfl
      · simp [l2']
      · simp [lifecycle, hinit, hD, hL, domContentLoadedListener, loadListener, h3, h4, Res.state]
      · rw [tC, hsetup]
        show s3.trace ++ evC = _
        rw [tB, tA']
        simp
      · rw [lifecyclePasses_append, lifecyclePasses_append, pA, pB, pC]; rfl
      · rw [l4, hsetup]
        show s3.listeners ++ listenersOf tags = _
        rw [l3, l2']
    | interactive =>
      obtain ⟨envL, hL⟩ := Option.isSome_iff_exists.mp (hload (by rw [hr]; decide))
      obtain ⟨s3, h3⟩ := hdone atInit domReadyData s2 c2
      obtain ⟨c3, l3, evB, tB, pB⟩ := lifecycle_pass atInit n domReadyData (by decide) s2 s3
        config tags c2 hc h3
      have hsetup := setupClickListeners_loaded s3 config tags c3 hc
      obtain ⟨s4, h4⟩ := hdone envL windowLoadData (setupClickListeners s3)
        (by rw [hsetup]; exact c3)
      obtain ⟨c4, l4, evC, tC, pC⟩ := lifecycle_pass envL n windowLoadData (by decide)
        (setupClickListeners s3) s4 config tags (by rw [hsetup]; exact c3) hc h4
      have hinit : init atInit (n + 1) (Fetch.response true (some config)) s
          = { result := Res.done (setupClickListeners s3), onDomContentLoaded := false,
              onLoad := true } := by
        simp [init, loadConfig, h2, h3, hr]
      refine ⟨⟨setupClickListeners s3, evA ++ evB, by rw [hinit], ?_, ?_, ?_, ?_,
        by rw [hinit]; rfl, by rw [hinit]; rfl⟩, s4, evA ++ evB ++ evC, ?_, ?_, ?_, ?_⟩
      · rw [hsetup]
        show s3.trace = _
        rw [tB, tA', List.append_assoc]
      · rw [List.head?_append_of_ne_nil _ (by intro h; rw [h] at hheadA; cases hheadA)]
        exact hheadA
      · rw [lifecyclePasses_append, pA, pB]; rfl
      · rw [hsetup]
        show s3.listeners ++ listenersOf tags = _
        rw [l3, l2']
        simp
      · cases domContentLoaded <;>
          simp [lifecycle, hinit, hL, loadListener, h4, Res.state]
      · rw [tC, hsetup]
        show s3.trace ++ evC = _
        rw [tB, tA']
        simp
      · rw [lifecyclePasses_append, lifecyclePasses_append, pA, pB, pC]; rfl
      · rw [l4, hsetup]
        show s3.listeners ++ listenersOf tags = _
        rw [l3, l2']
    | complete =>
      obtain ⟨s3, h3⟩ := hdone atInit domReadyData s2 c2
      obtain ⟨c3, l3, evB, tB, pB⟩ := lifecycle_pass atInit n domReadyData (by decide) s2 s3
        config tags c2 hc h3
      have hsetup := setupClickListeners_loaded s3 config tags c3 hc
      obtain ⟨s4, h4⟩ := hdone atInit windowLoadData (setupClickListeners s3)
        (by rw [hsetup]; exact c3)
      obtain ⟨c4, l4, evC, tC, pC⟩ := lifecycle_pass atInit n windowLoadData (by decide)
        (setupClickListeners s3) s4 config tags (by rw [hsetup]; exact c3) hc h4
      have hinit : init atInit (n + 1) (Fetch.response true (some config)) s
          = { result := Res.done s4, onDomContentLoaded := false, onLoad := false } := by
        simp [init, loadConfig, h2, h3, h4, hr]
      have htrace : s4.trace = s.trace ++ (evA ++ evB ++ evC) := by
        rw [tC, hsetup]
        show s3.trace ++ evC = _
        rw [tB, tA']
        simp
      have hpasses : lifecyclePasses (evA ++ evB ++ evC)
          = [pageviewData, domReadyData, windowLoadData] := by
        rw [lifecyclePasses_append, lifecyclePasses_append, pA, pB, pC]; rfl
      have hlisteners : s4.listeners = s.listeners ++ listenersOf tags := by
        rw [l4, hsetup]
        show s3.listeners ++ listenersOf tags = _
        rw [l3, l2']
      refine ⟨⟨s4, evA ++ evB ++ evC, by rw [hinit], htrace, ?_, ?_, ?_,
        by rw [hinit]; rfl, by rw [hinit]; rfl⟩, s4, evA ++ evB ++ evC, ?_, htrace, hpasses,
        hlisteners⟩
      · rw [List.append_assoc,
          List.head?_append_of_ne_nil _ (by intro h; rw [h] at hheadA; cases hheadA)]
        exact hheadA
      · rw [hpasses]; rfl
      · simpa using hlisteners
      · cases domContentLoaded <;> cases load <;> simp [lifecycle, hinit]

/-- Witness for C21, on the sample page reached while the document is loading: the pageview
pass runs in `init`, the dom_ready pass and the click listener of the buy tag
come with `DOMContentLoaded`, the window_load pass with `load`. -/
theorem init_runs_each_lifecycle_pass_once_witness :
    (∃ s1 evs, lifecycle 1 (Fetch.response true (some (sampleConfig [scriptTag, buyTag])))
          loadingEnv (some interactiveEnv) (some sampleEnv) State.initial = Res.done s1
        ∧ s1.trace = State.initial.trace ++ evs
        ∧ lifecyclePasses evs = [pageviewData, domReadyData, windowLoadData]
        ∧ s1.listeners = State.initial.listeners ++ listenersOf [scriptTag, buyTag])
      ∧ (init loadingEnv 1 (Fetch.response true (some (sampleConfig [scriptTag, buyTag])))
          State.initial).result.state.listeners = []
      ∧ (lifecycle 1 (Fetch.response true (some (sampleConfig [scriptTag, buyTag])))
          loadingEnv (some interactiveEnv) (some sampleEnv) State.initial).state.listeners
        = [{ tag := buyTag, selector := "#buy" }] :=
  ⟨(init_runs_each_lifecycle_pass_once 1 (sampleConfig [scriptTag, buyTag]) [scriptTag, buyTag]
      loadingEnv (some interactiveEnv) (some sampleEnv) State.initial rfl
      (fun env d s0 hs0 => processTags_plain_done env 0 d (sampleConfig [scriptTag, buyTag])
        [scriptTag, buyTag] rfl (by decide)
        (by
          intro t ht s
          simp only [List.mem_cons, List.mem_singleton, List.not_mem_nil, or_false] at ht
          rcases ht with rfl | rfl
          · exact ⟨true, rfl⟩
          · exact ⟨false, rfl⟩)
        s0 hs0)
      (fun _ => rfl) (fun _ => rfl)).2,
    by decide, by decide⟩

/-! ## The public API -/

/-- Looking up another key than the one filtered out. -/
theorem lookup_filter_ne (r : Record) (key k : String) (h : key ≠ k) :
    (r.filter (fun kv => kv.1 != k)).lookup key = r.lookup key := by
  induction r with
  | nil => rfl
  | cons kv rest ih =>
    obtain ⟨k1, v1⟩ := kv
    by_cases h1 : k1 = k
    · subst h1
      have hk : (key == k1) = false := by simpa using h
      simp [List.filter, List.lookup, hk, ih]
    · have hk : (k1 != k) = true := by simpa using h1
      simp only [List.filter, hk, List.lookup]
      rw [ih]

/-- Reading another key than the one that was written. -/
theorem Record.get_set_ne (r : Record) (key k : String) (value : JSVal) (h : key ≠ k) :
    (Record.set r k value).get key = r.get key := by
  have hk : (key == k) = false := by simpa using h
  simp only [Record.get, Record.set, List.lookup, hk]
  rw [lookup_filter_ne r key k h]

/-- Writing a key twice is writing it once. -/
theorem Record.set_set (r : Record) (k : String) (value : JSVal) :
    Record.set (Record.set r k value) k value = Record.set r k value := by
  simp [Record.set, List.filter_filter]

/-- The enhanced push called on one record whose event is truthy appends the
record and runs one pass, on the record with its event written again. -/
theorem dataLayerPush_record_event (pass : Record → State → Res) (r : Record) (s : State)
    (h : (r.get "event").truthy = true) :
    dataLayerPush pass [Item.record r] s
      = pass (Record.set r "event" (r.get "event"))
          { s with dataLayer := s.dataLayer ++ [Item.record r] } := by
  simp only [dataLayerPush, pushLoop, Item.truthy, Item.get, h, triggerEvent, Item.spread,
    if_true]
  split <;> simp_all

/-- The enhanced push called on one record whose event is not truthy appends
the record and runs no pass. -/
theorem dataLayerPush_record_no_event (pass : Record → State → Res) (r : Record) (s : State)
    (h : (r.get "event").truthy = false) :
    dataLayerPush pass [Item.record r] s
      = Res.done { s with dataLayer := s.dataLayer ++ [Item.record r] } := by
  simp [dataLayerPush, pushLoop, Item.truthy, Item.get, h]

/-- Counterexample to C22 as stated: the record `{event: ""}` carries an
event key and its push starts no pass, because the enhanced push tests the
value of `item.event` for truthiness. The bare tag has no trigger and is
executed by every pass: the push of `{event: "x"}` executes it, the push of
`{event: ""}` only appends the record. -/
theorem push_with_empty_event_starts_no_pass_counterexample :
    emptyEventRecord.lookup "event" = some (JSVal.str "")
      ∧ dataLayerPush (processTags sampleEnv 1) [Item.record emptyEventRecord]
          (State.loadedWith (sampleConfig [bareTag]))
        = Res.done { State.loadedWith (sampleConfig [bareTag]) with
            dataLayer := [Item.record emptyEventRecord] }
      ∧ (dataLayerPush (processTags sampleEnv 1) [Item.record emptyEventRecord]
          (State.loadedWith (sampleConfig [bareTag]))).state.trace = []
      ∧ calledTags (dataLayerPush (processTags sampleEnv 1)
          [Item.record [("event", JSVal.str "x")]]
          (State.loadedWith (sampleConfig [bareTag]))).state.trace = [bareTag] := by
  decide

/-- Claim C22, amended. A push of one record appends the record to the data layer,
and then runs exactly one pass if the value of the record's `event` is truthy,
and no pass otherwise (no `event` key, or a value such as `""`, `0`, `null`,
`false`). The context of the pass reads like the record at every key. The
append comes first and stays: after the push of any items, however the passes
end, the data layer is the old one, then the items, then what the passes
pushed. -/
theorem push_appends_and_runs_one_pass_per_truthy_event (pass : Record → State → Res)
    (r : Record) (s : State) :
    ((r.get "event").truthy = true →
        dataLayerPush pass [Item.record r] s
          = pass (Record.set r "event" (r.get "event"))
              { s with dataLayer := s.dataLayer ++ [Item.record r] })
      ∧ (∀ key, (Record.set r "event" (r.get "event")).get key = r.get key)
      ∧ ((r.get "event").truthy = false →
          dataLayerPush pass [Item.record r] s
            = Res.done { s with dataLayer := s.dataLayer ++ [Item.record r] })
      ∧ ∀ (env : Env) (fuel : Nat) (args : List Item), ∃ more,
          (dataLayerPush (processTags env fuel) args s).state.dataLayer
            = s.dataLayer ++ args ++ more := by
  refine ⟨dataLayerPush_record_event pass r s, ?_, dataLayerPush_record_no_event pass r s, ?_⟩
  · intro key
    by_cases h : key = "event"
    · rw [h, Record.get_set]
    · exact Record.get_set_ne r key "event" _ h
  · intro env fuel args
    obtain ⟨-, -, -, more, hmore⟩ := frame_pushLoop (processTags env fuel)
      (frame_processTags env fuel) args { s with dataLayer := s.dataLayer ++ args }
    exact ⟨more, hmore⟩

/-- Witness for the amended C22: the push of `{event: "purchase", amount: 42}`
runs one pass, in which the amount tag is executed and its address is
interpolated with `42`; the record is in the data layer. -/
theorem push_appends_and_runs_one_pass_per_truthy_event_witness :
    (dataLayerPush (processTags sampleEnv 1) [Item.record purchaseRecord]
        (State.loadedWith (sampleConfig [scriptTag, amountTag]))
      = processTags sampleEnv 1 (Record.set purchaseRecord "event" (purchaseRecord.get "event"))
          { State.loadedWith (sampleConfig [scriptTag, amountTag]) with
            dataLayer := (State.loadedWith (sampleConfig [scriptTag, amountTag])).dataLayer
              ++ [Item.record purchaseRecord] })
      ∧ (dataLayerPush (processTags sampleEnv 1) [Item.record purchaseRecord]
          (State.loadedWith (sampleConfig [amountTag]))).state.trace
        = [Event.passBegin purchaseRecord, Event.call amountTag purchaseRecord,
            Event.handler amountTag purchaseRecord
              (Except.ok (Effect.image (JSVal.str "https://t.example/p?a=42"))),
            Event.passEnd]
      ∧ (dataLayerPush (processTags sampleEnv 1) [Item.record purchaseRecord]
          (State.loadedWith (sampleConfig [amountTag]))).state.dataLayer
        = [Item.record purchaseRecord]
      ∧ replaceVariables samplePage [] purchaseRecord (JSVal.str "\x7b\x7bamount\x7d\x7d")
        = Except.ok (JSVal.str "42") :=
  ⟨(push_appends_and_runs_one_pass_per_truthy_event (processTags sampleEnv 1) purchaseRecord
      (State.loadedWith (sampleConfig [scriptTag, amountTag]))).1 (by decide),
    by decide, by decide, by decide⟩

/-- Counterexample to C23 as stated: `ctm.trigger` is `triggerEvent`, which runs
the pass and never appends to the data layer, while the push appends the record
first. After `ctm.trigger("purchase", {amount: 42})` the data layer is
empty; after `ctm.push({event: "purchase", amount: 42})` it holds the
record. With an event name that is not truthy the two differ in the passes too:
the trigger of `""` runs a pass, in which the bare tag is executed, and the push
of `{event: ""}` runs none. -/
theorem trigger_does_not_append_counterexample :
    (triggerEvent (processTags sampleEnv 1) (JSVal.str "purchase")
        (Item.record [("amount", JSVal.num 42)])
        (State.loadedWith (sampleConfig [amountTag]))).state.dataLayer = []
      ∧ (dataLayerPush (processTags sampleEnv 1)
          [Item.record (Record.set [("amount", JSVal.num 42)] "event" (JSVal.str "purchase"))]
          (State.loadedWith (sampleConfig [amountTag]))).state.dataLayer
        = [Item.record purchaseRecord]
      ∧ calledTags (triggerEvent (processTags sampleEnv 1) (JSVal.str "") (Item.record [])
          (State.loadedWith (sampleConfig [bareTag]))).state.trace = [bareTag]
      ∧ calledTags (dataLayerPush (processTags sampleEnv 1)
          [Item.record (Record.set [] "event" (JSVal.str ""))]
          (State.loadedWith (sampleConfig [bareTag]))).state.trace = [] := by
  decide

/-- Claim C23, amended. The call `ctm.trigger(eventName, data)` runs the pass that
`ctm.push({...data, event: eventName})` runs when the event name is truthy,
on the same context, but from a data layer to which the record was not
appended; with an event name that is not truthy the trigger still runs its pass
and the push runs none. -/
theorem trigger_runs_the_pass_of_push_without_append (pass : Record → State → Res)
    (eventName : JSVal) (data : Item) (s : State) :
    triggerEvent pass eventName data s = pass (Record.set data.spread "event" eventName) s
      ∧ (eventName.truthy = true →
          dataLayerPush pass [Item.record (Record.set data.spread "event" eventName)] s
            = pass (Record.set data.spread "event" eventName)
                { s with dataLayer := s.dataLayer
                    ++ [Item.record (Record.set data.spread "event" eventName)] })
      ∧ (eventName.truthy = false →
          dataLayerPush pass [Item.record (Record.set data.spread "event" eventName)] s
            = Res.done { s with dataLayer := s.dataLayer
                ++ [Item.record (Record.set data.spread "event" eventName)] }) := by
  refine ⟨rfl, ?_, ?_⟩
  · intro h
    have hget := Record.get_set data.spread "event" eventName
    have h1 := dataLayerPush_record_event pass (Record.set data.spread "event" eventName) s
      (by rw [hget]; exact h)
    rw [hget, Record.set_set] at h1
    exact h1
  · intro h
    exact dataLayerPush_record_no_event pass _ s
      (by rw [Record.get_set data.spread "event" eventName]; exact h)

/-- Witness for the amended C23: the trigger of `purchase` with the amount and the
push of the record run the same pass over the amount tag. -/
theorem trigger_runs_the_pass_of_push_without_append_witness :
    (dataLayerPush (processTags sampleEnv 1)
        [Item.record (Record.set (Item.record [("amount", JSVal.num 42)]).spread "event"
          (JSVal.str "purchase"))]
        (State.loadedWith (sampleConfig [amountTag]))
      = processTags sampleEnv 1
          (Record.set (Item.record [("amount", JSVal.num 42)]).spread "event"
            (JSVal.str "purchase"))
          { State.loadedWith (sampleConfig [amountTag]) with
            dataLayer := (State.loadedWith (sampleConfig [amountTag])).dataLayer
              ++ [Item.record (Record.set (Item.record [("amount", JSVal.num 42)]).spread
                "event" (JSVal.str "purchase"))] })
      ∧ (triggerEvent (processTags sampleEnv 1) (JSVal.str "purchase")
          (Item.record [("amount", JSVal.num 42)])
          (State.loadedWith (sampleConfig [amountTag]))).state.trace
        = (dataLayerPush (processTags sampleEnv 1) [Item.record purchaseRecord]
          (State.loadedWith (sampleConfig [amountTag]))).state.trace :=
  ⟨(trigger_runs_the_pass_of_push_without_append (processTags sampleEnv 1)
      (JSVal.str "purchase") (Item.record [("amount", JSVal.num 42)])
      (State.loadedWith (sampleConfig [amountTag]))).2.1 (by decide),
    by decide⟩

/-! ## The configuration endpoint -/

/-- Claim C26. The handler of `GET /api/config/:containerId` answers 404 exactly when the database
has no container of that id or the container's `enabled` is not truthy.
Otherwise it answers a document with the container's version, whose tags are,
in database order, exactly the stored tags whose `containerId` is that id and
whose `enabled` is truthy: no disabled tag and no tag of another container.
Each tag carries the triggers that its `triggerIds` name, in the order of the
ids (an id that names no trigger is skipped; when every id names one, there is
one trigger per id). -/
theorem getConfig_serves_enabled_tags_of_container (db : Database) (containerId : String) :
    (getConfig db containerId = Except.error 404
        ↔ (db.containers.lookup containerId = none
          ∨ ∃ container, db.containers.lookup containerId = some container
              ∧ container.enabled.truthy = false))
      ∧ (∀ status, getConfig db containerId = Except.error status → status = 404)
      ∧ ∀ container, db.containers.lookup containerId = some container →
          container.enabled.truthy = true →
          ∃ doc, getConfig db containerId = Except.ok doc
            ∧ doc.version = container.version
            ∧ doc.tags.map (fun served => served.tag)
              = db.tags.values.filter
                  (fun tag => tag.containerId = containerId ∧ tag.enabled.truthy = true)
            ∧ (∀ tag, tag ∈ doc.tags.map (fun served => served.tag)
                ↔ tag ∈ db.tags.values ∧ tag.containerId = containerId
                  ∧ tag.enabled.truthy = true)
            ∧ ∀ served ∈ doc.tags,
                served.triggers = served.tag.triggerIds.filterMap db.triggers.lookup
                  ∧ ((∀ id ∈ served.tag.triggerIds, (db.triggers.lookup id).isSome = true) →
                    served.triggers.map some = served.tag.triggerIds.map db.triggers.lookup) := by
  refine ⟨?_, ?_, ?_⟩
  · unfold getConfig
    cases h : db.containers.lookup containerId with
    | none => simp
    | some container =>
      by_cases he : container.enabled.truthy = false <;> simp [he]
  · intro status
    unfold getConfig
    cases h : db.containers.lookup containerId with
    | none => simp; exact fun h => h.symm
    | some container =>
      by_cases he : container.enabled.truthy = false <;> simp [he]
      exact fun h => h.symm
  · intro container hc he
    have hdoc : getConfig db containerId = Except.ok
        { containerId := containerId
          name := container.name
          tags := (db.tags.values.filter
              (fun tag => tag.containerId = containerId ∧ tag.enabled.truthy = true)).map
            (fun tag => { tag := tag, triggers := tag.triggerIds.filterMap db.triggers.lookup })
          version := container.version } := by
      simp [getConfig, hc, he]
    refine ⟨_, hdoc, rfl, ?_, ?_, ?_⟩
    · simp [List.map_map, Function.comp_def]
    · intro tag
      simp [List.map_map, Function.comp_def, List.mem_filter]
    · intro served hserved
      simp only [List.mem_map] at hserved
      obtain ⟨tag, -, rfl⟩ := hserved
      refine ⟨rfl, ?_⟩
      intro hall
      simp only
      generalize tag.triggerIds = ids at hall
      induction ids with
      | nil => rfl
      | cons id rest ih =>
        have hid := hall id (List.mem_cons_self _ _)
        obtain ⟨trigger, htrigger⟩ := Option.isSome_iff_exists.mp hid
        simp only [List.filterMap_cons, htrigger, List.map_cons]
        rw [ih (fun i hi => hall i (List.mem_cons_of_mem _ hi))]

/-- Witness for C26: on the sample database the document of the first container has its
version and its enabled tag with both triggers; the disabled tag and the tag of
the other container are left out; an unknown container is not found. -/
theorem getConfig_serves_enabled_tags_of_container_witness :
    (∃ doc, getConfig sampleDatabase "CTM-1" = Except.ok doc
        ∧ doc.version = (sampleContainer "CTM-1" 3).version
        ∧ doc.tags.map (fun served => served.tag)
          = sampleDatabase.tags.values.filter
              (fun tag => tag.containerId = "CTM-1" ∧ tag.enabled.truthy = true)
        ∧ (∀ tag, tag ∈ doc.tags.map (fun served => served.tag)
            ↔ tag ∈ sampleDatabase.tags.values ∧ tag.containerId = "CTM-1"
              ∧ tag.enabled.truthy = true)
        ∧ ∀ served ∈ doc.tags,
            served.triggers = served.tag.triggerIds.filterMap sampleDatabase.triggers.lookup
              ∧ ((∀ id ∈ served.tag.triggerIds,
                    (sampleDatabase.triggers.lookup id).isSome = true) →
                served.triggers.map some
                  = served.tag.triggerIds.map sampleDatabase.triggers.lookup))
      ∧ getConfig sampleDatabase "CTM-1" = Except.ok
          { containerId := "CTM-1", name := JSVal.str "Shop",
            tags := [{ tag := storedTag "TAG-1" "CTM-1" true ["TRG-1", "TRG-2"],
                       triggers := [storedTrigger "TRG-1" "pageview",
                         storedTrigger "TRG-2" "url_match"] }],
            version := 3 }
      ∧ getConfig sampleDatabase "CTM-9" = Except.error 404 :=
  ⟨(getConfig_serves_enabled_tags_of_container sampleDatabase "CTM-1").2.2
      (sampleContainer "CTM-1" 3) rfl rfl,
    by decide, by decide⟩

/-! ## Deleting a container -/

/-- Claim C27, the code at the failing input: `DELETE /api/containers/:id` never deletes
a trigger. Whatever the database, the user and the id, `database.triggers` is
the same after the request. On the sample database the owner deletes the first
container: the status is 204, the container and its two tags are gone, and the
three triggers of those tags are still stored, named by no tag;
`DELETE /api/tags/:id` on the first tag, the sibling handler, does delete the
two triggers of that tag. -/
theorem deleteContainer_leaves_triggers (db : Database) (user : User) (id : String) :
    (deleteContainer db user id).2.triggers = db.triggers
      ∧ deleteContainer sampleDatabase sampleUser "CTM-1"
        = (204, { containers := [("CTM-2", sampleContainer "CTM-2" 1)]
                  tags := [("TAG-3", storedTag "TAG-3" "CTM-2" true [])]
                  triggers := sampleDatabase.triggers })
      ∧ (deleteContainer sampleDatabase sampleUser "CTM-1").2.triggers.lookup "TRG-1"
        = some (storedTrigger "TRG-1" "pageview")
      ∧ parentTag (deleteContainer sampleDatabase sampleUser "CTM-1").2 "TRG-1" = none
      ∧ (deleteTag sampleDatabase sampleUser "TAG-1").1 = 204
      ∧ (deleteTag sampleDatabase sampleUser "TAG-1").2.triggers
        = [("TRG-3", storedTrigger "TRG-3" "click")] := by
  refine ⟨?_, by decide, by decide, by decide, by decide, by decide⟩
  unfold deleteContainer
  split
  · rfl
  · split <;> rfl

/-! ## Tables -/

/-- Looking up a key in a table that begins with an entry of that key. -/
theorem lookup_cons_self {α : Type} (t : Table α) (key : String) (value : α) :
    List.lookup key ((key, value) :: t) = some value := by
  simp [List.lookup]

/-- Looking up a key in a table that begins with an entry of another key. -/
theorem lookup_cons_ne {α : Type} (t : Table α) (key other : String) (value : α)
    (h : other ≠ key) : List.lookup other ((key, value) :: t) = List.lookup other t := by
  have h' : (other == key) = false := by simpa using h
  simp [List.lookup, h']

/-- Looking up in a table where the entries of one key were rewritten. -/
theorem lookup_map_replace {α : Type} (t : Table α) (key other : String) (value : α) :
    (t.map (fun kv => if kv.1 = key then (key, value) else kv)).lookup other
      = if other = key then (t.lookup key).map (fun _ => value) else t.lookup other := by
  induction t with
  | nil => simp
  | cons kv rest ih =>
    obtain ⟨k, v⟩ := kv
    rw [List.map_cons]
    by_cases hk : k = key
    · rw [if_pos hk]
      by_cases ho : other = key
      · rw [if_pos ho, ho, lookup_cons_self, hk, lookup_cons_self]
        rfl
      · rw [if_neg ho, lookup_cons_ne _ _ _ _ ho, hk, lookup_cons_ne _ _ _ _ ho, ih, if_neg ho]
    · rw [if_neg hk]
      by_cases ho : other = key
      · have hok : other ≠ k := fun h => hk (h.symm.trans ho)
        rw [if_pos ho, lookup_cons_ne _ _ _ _ hok, ih, if_pos ho,
          lookup_cons_ne _ _ _ _ (Ne.symm hk)]
      · rw [if_neg ho]
        by_cases hok : other = k
        · rw [hok, lookup_cons_self, lookup_cons_self]
        · rw [lookup_cons_ne _ _ _ _ hok, lookup_cons_ne _ _ _ _ hok, ih, if_neg ho]

/-- Looking up in a table with one more entry at the end. -/
theorem lookup_append_entry {α : Type} (t : Table α) (key other : String) (value : α) :
    (t ++ [(key, value)]).lookup other
      = match t.lookup other with
        | some found => some found
        | none => if other = key then some value else none := by
  induction t with
  | nil =>
    by_cases ho : other = key
    · rw [ho]; simp [List.lookup]
    · rw [List.nil_append, lookup_cons_ne _ _ _ _ ho]
      simp [ho]
  | cons kv rest ih =>
    obtain ⟨k, v⟩ := kv
    rw [List.cons_append]
    by_cases ho : other = k
    · rw [ho, lookup_cons_self, lookup_cons_self]
    · rw [lookup_cons_ne _ _ _ _ ho, lookup_cons_ne _ _ _ _ ho, ih]

/-- Reading a table after an assignment. -/
theorem Table.lookup_put {α : Type} (t : Table α) (key other : String) (value : α) :
    (t.put key value).lookup other = if other = key then some value else t.lookup other := by
  unfold Table.put
  split
  · rename_i h
    obtain ⟨found, hfound⟩ := Option.isSome_iff_exists.mp h
    rw [lookup_map_replace, hfound]
    rfl
  · rename_i h
    have hnone : t.lookup key = none := by
      cases hl : List.lookup key t with
      | none => rfl
      | some found => rw [hl] at h; exact absurd rfl h
    rw [lookup_append_entry]
    by_cases ho : other = key
    · rw [ho, hnone]
    · rw [if_neg ho, if_neg ho]
      cases t.lookup other <;> rfl

/-- Reading a table after a deletion. -/
theorem Table.lookup_delete {α : Type} (t : Table α) (key other : String) :
    (t.delete key).lookup other = if other = key then none else t.lookup other := by
  unfold Table.delete
  induction t with
  | nil => simp
  | cons kv rest ih =>
    obtain ⟨k, v⟩ := kv
    by_cases hk : k = key
    · have hk' : (k != key) = false := by simpa using hk
      rw [List.filter_cons_of_neg (by simpa using hk), ih]
      by_cases ho : other = key
      · rw [if_pos ho, if_pos ho]
      · rw [if_neg ho, if_neg ho, hk, lookup_cons_ne _ _ _ _ ho]
    · rw [List.filter_cons_of_pos (by simpa using hk)]
      by_cases hok : other = k
      · rw [hok, lookup_cons_self, lookup_cons_self, if_neg hk]
      · rw [lookup_cons_ne _ _ _ _ hok, lookup_cons_ne _ _ _ _ hok, ih]

/-! ## Triggers stored with the defaults -/

/-- Every string includes the empty string. -/
theorem includes_empty (hay : String) : includes hay "" = true :=
  (includes_iff hay "").mpr ⟨[], hay.data, rfl⟩

/-- A url-match trigger with `matchType` `contains` and an empty url holds on
every page. -/
theorem checkTrigger_contains_empty (env : Env) (s : State) (d : Record) (trigger : Trigger)
    (htype : trigger.type = "url_match") (hmatch : trigger.matchType = "contains")
    (hurl : trigger.url = "") :
    checkTrigger env s (some trigger) d = Except.ok (JSVal.bool true) := by
  simp [checkTrigger, htype, hmatch, hurl, includes_empty]

/-- Claim C30. A url-match trigger with `matchType = "contains"` and an empty url
makes `checkTrigger` true on every page, for every context; and
`POST /api/tags/:tagId/triggers` stores `url = ""` and `matchType = "contains"`
for a body of type `url_match` without these fields (or with values that are
not truthy), so the trigger that the engine reads from the stored one holds on
every page. -/
theorem url_match_without_url_matches_every_page (db db1 : Database) (user : User)
    (tagId stamp : String) (body : Record)
    (hcreated : addTrigger db user true tagId body stamp = (201, db1))
    (htype : body.get "type" = JSVal.str "url_match")
    (hurl : (body.get "url").truthy = false)
    (hmatch : (body.get "matchType").truthy = false) :
    (∀ (env : Env) (s : State) (d : Record) (trigger : Trigger),
        trigger.type = "url_match" → trigger.matchType = "contains" → trigger.url = "" →
        checkTrigger env s (some trigger) d = Except.ok (JSVal.bool true))
      ∧ ∃ stored, db1.triggers.lookup ("TRG-" ++ stamp) = some stored
          ∧ stored.url = JSVal.str "" ∧ stored.matchType = JSVal.str "contains"
          ∧ ∀ trigger, stored.toTrigger = some trigger →
              ∀ (env : Env) (s : State) (d : Record),
                checkTrigger env s (some trigger) d = Except.ok (JSVal.bool true) := by
  refine ⟨fun env s d trigger h1 h2 h3 => checkTrigger_contains_empty env s d trigger h1 h2 h3,
    ?_⟩
  unfold addTrigger at hcreated
  simp only [Bool.true_eq_false, if_false] at hcreated
  split at hcreated
  · cases hcreated
  · split at hcreated
    · cases hcreated
    · split at hcreated
      · cases hcreated
      · simp only [Prod.mk.injEq, true_and] at hcreated
        subst hcreated
        refine ⟨_, (Table.lookup_put _ _ _ _).trans (if_pos rfl), ?_, ?_, ?_⟩
        · simp [JSVal.orElse, hurl]
        · simp [JSVal.orElse, hmatch]
        · intro trigger htrigger env s d
          simp only [StoredTrigger.toTrigger, htype, JSVal.orElse, hurl, hmatch] at htrigger
          split at htrigger
          · rename_i type url matchType selector h1 h2 h3 h4
            simp only [Option.some.injEq] at htrigger
            subst htrigger
            simp only [JSVal.str.injEq, Bool.false_eq_true, if_false] at h1 h2 h3
            exact checkTrigger_contains_empty env s d _ h1.symm h3.symm h2.symm
          · cases htrigger

/-- Witness for C30: on the sample database a url-match trigger created with only its type
is stored with the defaults, served in the configuration of its container, and
holds on the sample page. -/
theorem url_match_without_url_matches_every_page_witness :
    addTrigger sampleDatabase sampleUser true "TAG-3" [("type", JSVal.str "url_match")] "9"
        = (201, (addTrigger sampleDatabase sampleUser true "TAG-3"
            [("type", JSVal.str "url_match")] "9").2)
      ∧ (∃ stored, (addTrigger sampleDatabase sampleUser true "TAG-3"
            [("type", JSVal.str "url_match")] "9").2.triggers.lookup ("TRG-" ++ "9") = some stored
          ∧ stored.url = JSVal.str "" ∧ stored.matchType = JSVal.str "contains"
          ∧ ∀ trigger, stored.toTrigger = some trigger →
              ∀ (env : Env) (s : State) (d : Record),
                checkTrigger env s (some trigger) d = Except.ok (JSVal.bool true))
      ∧ (getConfig (addTrigger sampleDatabase sampleUser true "TAG-3"
            [("type", JSVal.str "url_match")] "9").2 "CTM-2").map
          (fun doc => doc.tags.map (fun served => served.triggers.map StoredTrigger.toTrigger))
        = Except.ok [[some (urlTrigger "contains" "")]]
      ∧ checkTrigger sampleEnv State.initial (some (urlTrigger "contains" "")) pageviewData
        = Except.ok (JSVal.bool true) :=
  ⟨by decide,
    (url_match_without_url_matches_every_page sampleDatabase _ sampleUser "TAG-3" "9"
      [("type", JSVal.str "url_match")] (by decide) (by decide) (by decide) (by decide)).2,
    by decide, by decide⟩

/-! ## Versions -/

/-- What one request does to the containers: nothing when it fails; when it
succeeds, it writes the target container anew with its version plus one, or it
creates or removes the container it names, or (a trigger without parent tag)
it leaves the containers alone. -/
theorem handle_outcome (db : Database) (user : User) (request : Request) :
    ((handle db user request).2 = db ∧ succeeded (handle db user request).1 = false)
      ∨ (succeeded (handle db user request).1 = true
        ∧ ((∃ cid container updated, request.target db = some cid
              ∧ db.containers.lookup cid = some container
              ∧ updated.version = container.version + 1
              ∧ (handle db user request).2.containers = db.containers.put cid updated)
          ∨ (request.target db = none ∧ ∃ cid, request.replaces = some cid
              ∧ ∀ other, other ≠ cid →
                (handle db user request).2.containers.lookup other
                  = db.containers.lookup other)
          ∨ (request.target db = none
              ∧ (handle db user request).2.containers = db.containers))) := by
  cases request with
  | createContainer valid body stamp =>
    simp only [handle, createContainer]
    split
    · exact Or.inl ⟨rfl, rfl⟩
    · refine Or.inr ⟨rfl, Or.inr (Or.inl ⟨rfl, _, rfl, ?_⟩)⟩
      intro other hother
      simp only [Table.lookup_put, hother, if_false]
  | updateContainer valid id body =>
    simp only [handle, updateContainer]
    split
    · exact Or.inl ⟨rfl, rfl⟩
    · split
      · exact Or.inl ⟨rfl, rfl⟩
      · rename_i container hc
        split
        · exact Or.inl ⟨rfl, rfl⟩
        · exact Or.inr ⟨rfl, Or.inl ⟨id, container, _, rfl, hc, rfl, rfl⟩⟩
  | deleteContainer id =>
    simp only [handle, deleteContainer]
    split
    · exact Or.inl ⟨rfl, rfl⟩
    · split
      · exact Or.inl ⟨rfl, rfl⟩
      · refine Or.inr ⟨rfl, Or.inr (Or.inl ⟨rfl, id, rfl, ?_⟩)⟩
        intro other hother
        simp only [Table.lookup_delete, hother, if_false]
  | createTag valid containerId body stamp =>
    simp only [handle, createTag]
    split
    · exact Or.inl ⟨rfl, rfl⟩
    · split
      · exact Or.inl ⟨rfl, rfl⟩
      · rename_i container hc
        split
        · exact Or.inl ⟨rfl, rfl⟩
        · exact Or.inr ⟨rfl, Or.inl ⟨containerId, container, _, rfl, hc, rfl, rfl⟩⟩
  | updateTag id body =>
    simp only [handle, updateTag, Request.target]
    split
    · exact Or.inl ⟨rfl, rfl⟩
    · rename_i tag ht
      split
      · exact Or.inl ⟨rfl, rfl⟩
      · rename_i container hc
        split
        · exact Or.inl ⟨rfl, rfl⟩
        · exact Or.inr ⟨rfl, Or.inl ⟨tag.containerId, container, _, by rw [ht]; rfl, hc, rfl,
            rfl⟩⟩
  | deleteTag id =>
    simp only [handle, deleteTag, Request.target]
    split
    · exact Or.inl ⟨rfl, rfl⟩
    · rename_i tag ht
      split
      · exact Or.inl ⟨rfl, rfl⟩
      · rename_i container hc
        split
        · exact Or.inl ⟨rfl, rfl⟩
        · exact Or.inr ⟨rfl, Or.inl ⟨tag.containerId, container, _, by rw [ht]; rfl, hc, rfl,
            rfl⟩⟩
  | addTrigger valid tagId body stamp =>
    simp only [handle, addTrigger, Request.target]
    split
    · exact Or.inl ⟨rfl, rfl⟩
    · split
      · exact Or.inl ⟨rfl, rfl⟩
      · rename_i tag ht
        split
        · exact Or.inl ⟨rfl, rfl⟩
        · rename_i container hc
          split
          · exact Or.inl ⟨rfl, rfl⟩
          · exact Or.inr ⟨rfl, Or.inl ⟨tag.containerId, container, _, by rw [ht]; rfl, hc, rfl,
              rfl⟩⟩
  | deleteTrigger id =>
    simp only [handle, deleteTrigger, Request.target]
    split
    · exact Or.inl ⟨rfl, rfl⟩
    · split
      · rename_i hp
        exact Or.inr ⟨rfl, Or.inr (Or.inr ⟨by rw [hp]; rfl, rfl⟩)⟩
      · rename_i key tag hp
        split
        · exact Or.inl ⟨rfl, rfl⟩
        · rename_i container hc
          split
          · exact Or.inl ⟨rfl, rfl⟩
          · exact Or.inr ⟨rfl, Or.inl ⟨tag.containerId, container, _, by rw [hp]; rfl, hc, rfl,
              rfl⟩⟩

/-- The version of a container after an assignment to the containers. -/
theorem version_put (db db1 : Database) (key : String) (updated : Container)
    (h : db1.containers = db.containers.put key updated) (cid : String) :
    db1.version cid = if cid = key then some updated.version else db.version cid := by
  unfold Database.version
  rw [h, Table.lookup_put]
  split <;> rfl

/-- One request changes the version of a container that it does not replace by
zero or one. -/
theorem handle_version_step (db : Database) (user : User) (request : Request) (cid : String)
    (v : Int) (hv : db.version cid = some v) (hr : request.replaces ≠ some cid) :
    ∃ v1, (handle db user request).2.version cid = some v1 ∧ v ≤ v1 ∧ v1 ≤ v + 1 := by
  rcases handle_outcome db user request with ⟨hsame, -⟩ | ⟨-, h | h | h⟩
  · exact ⟨v, by rw [hsame]; exact hv, le_refl _, by omega⟩
  · obtain ⟨target, container, updated, -, hc, hu, hput⟩ := h
    rw [version_put db _ target updated hput cid]
    by_cases ht : cid = target
    · rw [if_pos ht]
      have hv' : v = container.version := by
        rw [ht] at hv
        simp only [Database.version, hc, Option.map_some', Option.some.injEq] at hv
        exact hv.symm
      exact ⟨updated.version, rfl, by omega, by omega⟩
    · rw [if_neg ht]
      exact ⟨v, hv, le_refl _, by omega⟩
  · obtain ⟨-, replaced, hrep, hother⟩ := h
    have hne : cid ≠ replaced := fun h => hr (by rw [hrep, h])
    refine ⟨v, ?_, le_refl _, by omega⟩
    unfold Database.version at hv ⊢
    rw [hother cid hne]
    exact hv
  · obtain ⟨-, hsame⟩ := h
    refine ⟨v, ?_, le_refl _, by omega⟩
    unfold Database.version at hv ⊢
    rw [hsame]
    exact hv

/-- Claim C28. Every successful mutation of a container, of one of its tags or of
one of its tags' triggers (update container, create, update or delete tag, add
or delete trigger) increases the version of that container by exactly 1, and
leaves the version of every other container as it was; a request that fails
changes nothing. No request decreases a version: after any sequence of requests
that neither delete the container nor create one under its id, its version is
at least what it was, and at most that plus the number of requests. -/
theorem version_bumped_by_every_mutation (db : Database) (user : User) (request : Request) :
    (succeeded (handle db user request).1 = false → (handle db user request).2 = db)
      ∧ (succeeded (handle db user request).1 = true →
          ∀ cid, request.target db = some cid →
            ∃ v, db.version cid = some v
              ∧ (handle db user request).2.version cid = some (v + 1))
      ∧ (succeeded (handle db user request).1 = true →
          ∀ cid, request.target db ≠ some cid → request.replaces ≠ some cid →
            (handle db user request).2.version cid = db.version cid)
      ∧ ∀ (requests : List (User × Request)) (cid : String) (v : Int),
          db.version cid = some v → (∀ r ∈ requests, r.2.replaces ≠ some cid) →
          ∃ v1, (handleAll db requests).version cid = some v1 ∧ v ≤ v1
            ∧ v1 ≤ v + requests.length := by
  refine ⟨?_, ?_, ?_, ?_⟩
  · intro hfail
    rcases handle_outcome db user request with ⟨hsame, -⟩ | ⟨hok, -⟩
    · exact hsame
    · rw [hok] at hfail; cases hfail
  · intro hok cid htarget
    rcases handle_outcome db user request with ⟨-, hfail⟩ | ⟨-, h | h | h⟩
    · rw [hok] at hfail; cases hfail
    · obtain ⟨target, container, updated, ht, hc, hu, hput⟩ := h
      have heq : cid = target := by rw [htarget] at ht; exact Option.some.inj ht
      subst heq
      refine ⟨container.version, by simp [Database.version, hc], ?_⟩
      rw [version_put db _ cid updated hput cid, if_pos rfl, hu]
    · rw [h.1] at htarget; cases htarget
    · rw [h.1] at htarget; cases htarget
  · intro hok cid htarget hreplaces
    rcases handle_outcome db user request with ⟨-, hfail⟩ | ⟨-, h | h | h⟩
    · rw [hok] at hfail; cases hfail
    · obtain ⟨target, container, updated, ht, hc, hu, hput⟩ := h
      have hne : cid ≠ target := fun h => htarget (by rw [ht, h])
      rw [version_put db _ target updated hput cid, if_neg hne]
    · obtain ⟨-, replaced, hrep, hother⟩ := h
      have hne : cid ≠ replaced := fun h => hreplaces (by rw [hrep, h])
      unfold Database.version
      rw [hother cid hne]
    · unfold Database.version
      rw [h.2]
  · intro requests
    induction requests generalizing db with
    | nil => exact fun cid v hv _ => ⟨v, hv, le_refl _, by simp⟩
    | cons r rest ih =>
      intro cid v hv hr
      obtain ⟨u, req⟩ := r
      obtain ⟨v1, h1, h2, h3⟩ := handle_version_step db u req cid v hv
        (hr (u, req) (List.mem_cons_self _ _))
      obtain ⟨v2, h4, h5, h6⟩ := ih (handle db u req).2 cid v1 h1
        (fun r1 hr1 => hr r1 (List.mem_cons_of_mem _ hr1))
      refine ⟨v2, h4, by omega, ?_⟩
      simp only [List.length_cons, Nat.cast_add, Nat.cast_one]
      omega

/-- Witness for C28: on the sample database, disabling the first tag takes the version of
the first container from 3 to 4 and leaves the second at 1; six mutations of
the first container and its tags and triggers take it to 9. -/
theorem version_bumped_by_every_mutation_witness :
    succeeded (handle sampleDatabase sampleUser
        (Request.updateTag "TAG-1" [("enabled", JSVal.bool false)])).1 = true
      ∧ (∃ v, sampleDatabase.version "CTM-1" = some v
          ∧ (handle sampleDatabase sampleUser
              (Request.updateTag "TAG-1" [("enabled", JSVal.bool false)])).2.version "CTM-1"
            = some (v + 1))
      ∧ (handle sampleDatabase sampleUser
          (Request.updateTag "TAG-1" [("enabled", JSVal.bool false)])).2.version "CTM-1"
        = some 4
      ∧ (handle sampleDatabase sampleUser
          (Request.updateTag "TAG-1" [("enabled", JSVal.bool false)])).2.version "CTM-2"
        = some 1
      ∧ (handleAll sampleDatabase
          [(sampleUser, Request.updateContainer true "CTM-1" [("name", JSVal.str "Store")]),
            (sampleUser, Request.createTag true "CTM-1"
              [("name", JSVal.str "New"), ("type", JSVal.str "html")] "7"),
            (sampleUser, Request.updateTag "TAG-7" [("html", JSVal.str "<b>x</b>")]),
            (sampleUser, Request.addTrigger true "TAG-7" [("type", JSVal.str "pageview")] "8"),
            (sampleUser, Request.deleteTrigger "TRG-8"),
            (sampleUser, Request.deleteTag "TAG-7")]).version "CTM-1" = some 9 :=
  ⟨by decide,
    (version_bumped_by_every_mutation sampleDatabase sampleUser
      (Request.updateTag "TAG-1" [("enabled", JSVal.bool false)])).2.1 (by decide) "CTM-1"
      (by decide),
    by decide, by decide, by decide⟩

/-! ## Payloads that do not enter the engine -/

/-- The interpolation of the attributes reads the page only. -/
theorem replaceAttributes_perform (env : Env) (perform : State → Effect → Option Thrown)
    (s : State) (d : Record) (attributes : Record) (keys : List String) :
    replaceAttributes { env with perform := perform } s d attributes keys
      = replaceAttributes env s d attributes keys := by
  induction keys with
  | nil => rfl
  | cons key rest ih => simp only [replaceAttributes, ih]

/-- The handler of a tag is the effect it builds, handed to the browser. -/
theorem runHandler_eq_builtEffect (env : Env) (s : State) (tag : Tag) (d : Record) :
    runHandler env s tag d
      = match builtEffect env s tag d with
        | some (Except.ok effect) => some (performEffect env s effect)
        | other => other := by
  unfold builtEffect runHandler
  split
  · simp only [executeHtmlTag, performEffect]
    split <;> rfl
  · split
    · simp only [executeScriptTag, performEffect, replaceAttributes_perform]
      split
      · rfl
      · split
        · rfl
        · split <;> rfl
    · split
      · simp only [executeImageTag, performEffect]
        split <;> rfl
      · split
        · simp only [executeCustomTag, performEffect]
          split <;> rfl
        · rfl

/-- On a quiet host `executeTag` with live payloads is `executeTag`. -/
theorem executeTagLive_quiet (host : Host) (hq : host.quiet) (pass : Record → State → Res)
    (exec : Tag → Record → State → Res) (tag : Tag) (d : Record) (s : State) :
    executeTagLive host pass exec tag d s = executeTag host.env (dataLayerPush pass) tag d s := by
  unfold executeTagLive executeTag
  simp only
  split
  · rfl
  · rw [runHandler_eq_builtEffect]
    cases hb : builtEffect host.env (s.log (Event.call tag d)) tag d with
    | none => rfl
    | some built =>
      cases built with
      | error e => rfl
      | ok effect =>
        simp only [hq (s.log (Event.call tag d)) effect, performEffect]
        cases hp : host.env.perform (s.log (Event.call tag d)) effect with
        | none => rfl
        | some e => rfl

/-- On a quiet host the loop with live payloads is the loop of `processTags`. -/
theorem forEachTagLive_quiet (host : Host) (hq : host.quiet) (pass : Record → State → Res)
    (exec : Tag → Record → State → Res) (d : Record) (tags : List Tag) (s : State) :
    forEachTagLive host pass exec d tags s
      = forEachTag host.env (dataLayerPush pass) d tags s := by
  induction tags generalizing s with
  | nil => rfl
  | cons tag rest ih =>
    simp only [forEachTagLive, forEachTag, executeTagLive_quiet host hq, ih]

/-- On a quiet host a pass with live payloads is a pass of `processTags`. -/
theorem processTagsLive_quiet (host : Host) (hq : host.quiet) (fuel : Nat) :
    processTagsLive host fuel = processTags host.env fuel := by
  induction fuel with
  | zero => rfl
  | succ n ih =>
    funext d s
    have ih' : (engineLive host n).1 = processTags host.env n := ih
    simp only [processTagsLive, engineLive, processTags, processTagsWithLive, processTagsWith,
      ih', forEachTagLive_quiet host hq]

/-- A click dispatched to `executeTag` is the click of the page. -/
theorem dispatchClickWith_executeTag (env : Env) (push : List Item → State → Res)
    (click : Click) (listeners : List Listener) (s : State) :
    dispatchClickWith (executeTag env push) click listeners s
      = dispatchClick env push click listeners s := by
  induction listeners generalizing s with
  | nil => rfl
  | cons l rest ih =>
    simp only [dispatchClickWith, dispatchClick, clickListener, ih]

/-- On a quiet host an action with live payloads is the action. -/
theorem stepLive_quiet (host : Host) (hq : host.quiet) (fuel : Nat) (action : Action)
    (s : State) : stepLive host fuel action s = step host.env fuel action s := by
  cases action with
  | pass d => simp only [stepLive, step, processTagsLive_quiet host hq]
  | push args => simp only [stepLive, step, processTagsLive_quiet host hq]
  | trigger eventName data => simp only [stepLive, step, processTagsLive_quiet host hq]
  | setupClicks => rfl
  | click click =>
    have h : executeTagLive host (processTagsLive host fuel) (engineLive host fuel).2
        = executeTag host.env (pushIn host.env fuel) := by
      funext tag d s0
      rw [executeTagLive_quiet host hq, processTagsLive_quiet host hq]
      rfl
    simp only [stepLive, step, h, dispatchClickWith_executeTag]

/-- The host made from a page is quiet. -/
theorem toHost_quiet (env : Env) : env.toHost.quiet := fun _ _ => rfl

/-! ## Passes begun inside a pass, with live payloads -/

/-- The `catch` block only begins passes through the push of a callback
record. -/
theorem live_catchBlock (host : Host) (push : List Item → State → Res)
    (hpush : ∀ tag item s, CallbackRecord tag item →
      Extends (LivePass host) s (push [item] s).state)
    (tag : Tag) (e : Thrown) (s : State) :
    Extends (LivePass host) s (catchBlock push tag e s).state := by
  have h1 : Extends (LivePass host) s (s.log (Event.errorLogged tag.name e)) :=
    extends_log _ s _ trivial
  unfold catchBlock
  simp only
  split
  · rename_i hon
    split
    · exact h1
    · rename_i message _
      exact h1.andThen (hpush tag _ _ (Or.inr ⟨hon, message, rfl⟩))
  · exact h1

/-- The statements after the `switch` only begin passes through the push of a
callback record. -/
theorem live_afterSwitch (host : Host) (push : List Item → State → Res)
    (hpush : ∀ tag item s, CallbackRecord tag item →
      Extends (LivePass host) s (push [item] s).state)
    (tag : Tag) (s : State) : Extends (LivePass host) s (afterSwitch push tag s).state := by
  have h0 : Extends (LivePass host) s (s.addExecuted tag.id) := extends_of_trace_eq _ _ _ rfl
  unfold afterSwitch
  simp only
  split
  · rename_i hon
    have hp := hpush tag (tagFiredItem tag) (s.addExecuted tag.id) (Or.inl ⟨hon, rfl⟩)
    cases h : push [tagFiredItem tag] (s.addExecuted tag.id) with
    | done s1 => rw [h] at hp; exact h0.andThen hp
    | fuelOut s1 => rw [h] at hp; exact h0.andThen hp
    | threw e s3 =>
      rw [h] at hp
      exact (h0.andThen hp).andThen (live_catchBlock host push hpush _ _ _)
  · exact h0

/-- The loop of the enhanced push only logs what the passes of its arguments
log. -/
theorem extends_pushLoop_starts (P : Event → Prop) (pass : Record → State → Res)
    (items : List Item)
    (hpass : ∀ item ∈ items, ∀ event, item.truthy = true → item.get "event" = Except.ok event →
      event.truthy = true → ∀ s, Extends P s (pass (Record.set item.spread "event" event) s).state)
    (s : State) : Extends P s (pushLoop pass items s).state := by
  induction items generalizing s with
  | nil => exact Extends.same _ _
  | cons item rest ih =>
    have ih' := ih (fun i hi => hpass i (List.mem_cons_of_mem _ hi))
    simp only [pushLoop]
    split
    · rename_i htruthy
      split
      · exact Extends.same _ _
      · rename_i event hevent
        split
        · rename_i hev
          have hp := hpass item (List.mem_cons_self _ _) event htruthy hevent hev s
          unfold triggerEvent
          cases h : pass (Record.set item.spread "event" event) s with
          | done s1 => rw [h] at hp; exact hp.andThen (ih' s1)
          | threw e s1 => rw [h] at hp; exact hp
          | fuelOut s1 => rw [h] at hp; exact hp
        · exact ih' s
    · exact ih' s

/-- A click dispatched to listeners only logs what `exec` logs. -/
theorem extends_dispatchClickWith (P : Event → Prop) (exec : Tag → Record → State → Res)
    (hexec : ∀ tag d s, Extends P s (exec tag d s).state) (click : Click)
    (listeners : List Listener) (s : State) :
    Extends P s (dispatchClickWith exec click listeners s).state := by
  induction listeners generalizing s with
  | nil => exact Extends.same _ _
  | cons l rest ih =>
    simp only [dispatchClickWith]
    cases hclosest : click.closest l.selector with
    | invalid => exact ih s
    | none => exact ih s
    | found target =>
      have he := hexec l.tag (clickData target) s
      show Extends P s (match exec l.tag (clickData target) s with
        | Res.fuelOut s1 => Res.fuelOut s1
        | r => dispatchClickWith exec click rest r.state).state
      cases h : exec l.tag (clickData target) s with
      | done s1 => rw [h] at he; exact he.andThen (ih s1)
      | threw e s1 => rw [h] at he; exact he.andThen (ih s1)
      | fuelOut s1 => rw [h] at he; exact he

/-- An entry into the engine only logs what the passes it starts and the calls
of `exec` log. -/
theorem extends_call (P : Event → Prop) (pass : Record → State → Res)
    (exec : Tag → Record → State → Res) (c : Call)
    (hpass : ∀ d, c.Starts d → ∀ s, Extends P s (pass d s).state)
    (hexec : ∀ tag d s, Extends P s (exec tag d s).state) (s : State) :
    Extends P s (c.run pass exec s).state := by
  cases c with
  | push args =>
    refine (extends_of_trace_eq P s { s with dataLayer := s.dataLayer ++ args } rfl).andThen
      (extends_pushLoop_starts P pass args ?_ _)
    intro item hitem event h1 h2 h3 s0
    exact hpass _ ⟨item, hitem, event, h1, h2, h3, rfl⟩ s0
  | trigger eventName data => exact hpass _ rfl s
  | domContentLoaded =>
    have hp := hpass domReadyData rfl s
    simp only [Call.run]
    cases h : pass domReadyData s with
    | done s1 =>
      rw [h] at hp
      refine hp.andThen (extends_of_trace_eq P s1 (setupClickListeners s1) ?_)
      unfold setupClickListeners
      split
      · rfl
      · split <;> rfl
    | threw e s1 => rw [h] at hp; exact hp
    | fuelOut s1 => rw [h] at hp; exact hp
  | load => exact hpass windowLoadData rfl s
  | click clicked => exact extends_dispatchClickWith P exec hexec clicked s.listeners s

/-- A payload only logs what the passes of its entries and the calls of `exec`
log. -/
theorem extends_payload (P : Event → Prop) (pass : Record → State → Res)
    (exec : Tag → Record → State → Res) (p : Payload)
    (hpass : ∀ c, p.Calls c → ∀ d, c.Starts d → ∀ s, Extends P s (pass d s).state)
    (hexec : ∀ tag d s, Extends P s (exec tag d s).state)
    (s : State) : Extends P s (p.run pass exec s).state := by
  induction p generalizing s with
  | finish thrown => cases thrown <;> exact Extends.same _ _
  | call c next ih =>
    have hc := extends_call P pass exec c (hpass c (Payload.Calls.here c next)) hexec s
    simp only [Payload.run]
    cases h : c.run pass exec s with
    | fuelOut s1 => rw [h] at hc; exact hc
    | done s1 =>
      rw [h] at hc
      exact hc.andThen (ih (Res.done s1)
        (fun c1 h1 => hpass c1 (Payload.Calls.later c next _ c1 h1)) s1)
    | threw e s1 =>
      rw [h] at hc
      exact hc.andThen (ih (Res.threw e s1)
        (fun c1 h1 => hpass c1 (Payload.Calls.later c next _ c1 h1)) s1)

/-- The enhanced push of a callback record only logs what the pass of that
record logs. -/
theorem live_push_callback (host : Host) (pass : Record → State → Res)
    (hpass : ∀ d, CallbackData d ∨ PayloadData host d →
      ∀ s, Extends (LivePass host) s (pass d s).state)
    (tag : Tag) (item : Item) (s : State) (hcb : CallbackRecord tag item) :
    Extends (LivePass host) s (dataLayerPush pass [item] s).state := by
  obtain ⟨d1, hd1, heq⟩ := dataLayerPush_callbackRecord pass tag item hcb s
  rw [heq]
  exact (extends_of_trace_eq (LivePass host) s { s with dataLayer := s.dataLayer ++ [item] }
    rfl).andThen (hpass d1 (Or.inl hd1) _)

/-- A call of `executeTag` with live payloads only begins passes of callback
records and of entries made by payloads. -/
theorem live_executeTag (host : Host) (pass : Record → State → Res)
    (exec : Tag → Record → State → Res)
    (hpass : ∀ d, CallbackData d ∨ PayloadData host d →
      ∀ s, Extends (LivePass host) s (pass d s).state)
    (hexec : ∀ tag d s, Extends (LivePass host) s (exec tag d s).state)
    (tag : Tag) (d : Record) (s : State) :
    Extends (LivePass host) s (executeTagLive host pass exec tag d s).state := by
  have hpush := fun tag item s hcb => live_push_callback host pass hpass tag item s hcb
  have h0 : Extends (LivePass host) s (s.log (Event.call tag d)) := extends_log _ s _ trivial
  unfold executeTagLive
  simp only
  split
  · exact h0
  · split
    · rename_i e _
      exact (h0.andThen (extends_log _ _ (Event.handler tag d (Except.error e)) trivial)).andThen
        (live_catchBlock host _ hpush _ _ _)
    · rename_i effect _
      have hrun := extends_payload (LivePass host) pass exec
        (host.payload (s.log (Event.call tag d)) effect)
        (fun c hc d1 hd1 => hpass d1 (Or.inr ⟨_, _, c, hc, hd1⟩)) hexec
        (s.log (Event.call tag d))
      cases h : (host.payload (s.log (Event.call tag d)) effect).run pass exec
          (s.log (Event.call tag d)) with
      | done s1 =>
        rw [h] at hrun
        exact ((h0.andThen hrun).andThen
          (extends_log _ _ (Event.handler tag d (Except.ok effect)) trivial)).andThen
          (live_afterSwitch host _ hpush _ _)
      | threw e s1 =>
        rw [h] at hrun
        exact ((h0.andThen hrun).andThen
          (extends_log _ _ (Event.handler tag d (Except.error e)) trivial)).andThen
          (live_catchBlock host _ hpush _ _ _)
      | fuelOut s1 =>
        rw [h] at hrun
        exact h0.andThen hrun
    · exact h0.andThen (live_afterSwitch host _ hpush _ _)

/-- The loop of `processTags` with live payloads only begins passes of callback
records and of entries made by payloads. -/
theorem live_forEachTag (host : Host) (pass : Record → State → Res)
    (exec : Tag → Record → State → Res)
    (hpass : ∀ d, CallbackData d ∨ PayloadData host d →
      ∀ s, Extends (LivePass host) s (pass d s).state)
    (hexec : ∀ tag d s, Extends (LivePass host) s (exec tag d s).state)
    (d : Record) (tags : List Tag) (s : State) :
    Extends (LivePass host) s (forEachTagLive host pass exec d tags s).state := by
  induction tags generalizing s with
  | nil => exact Extends.same _ _
  | cons tag rest ih =>
    simp only [forEachTagLive]
    split
    · exact ih s
    · split
      · exact Extends.same _ _
      · exact ih s
      · have he := live_executeTag host pass exec hpass hexec tag d s
        cases h : executeTagLive host pass exec tag d s with
        | done s1 => rw [h] at he; exact he.andThen (ih s1)
        | threw e s1 => rw [h] at he; exact he
        | fuelOut s1 => rw [h] at he; exact he

/-- The body of `processTags` with live payloads, after the beginning of the
pass, only begins passes of callback records and of entries made by payloads. -/
theorem live_processTagsWith (host : Host) (pass : Record → State → Res)
    (exec : Tag → Record → State → Res)
    (hpass : ∀ d, CallbackData d ∨ PayloadData host d →
      ∀ s, Extends (LivePass host) s (pass d s).state)
    (hexec : ∀ tag d s, Extends (LivePass host) s (exec tag d s).state)
    (d : Record) (s : State) :
    ∃ evs, (processTagsWithLive host pass exec d s).state.trace = s.trace ++ evs
      ∧ (evs = [] ∨ ∃ rest, evs = Event.passBegin d :: rest ∧ ∀ e ∈ rest, LivePass host e) := by
  unfold processTagsWithLive
  split
  · exact ⟨[], by simp [Res.state], Or.inl rfl⟩
  · split
    · exact ⟨[], by simp [Res.state], Or.inl rfl⟩
    · rename_i tags _
      obtain ⟨evs, h1, h2⟩ := live_forEachTag host pass exec hpass hexec d tags
        (s.log (Event.passBegin d))
      have h1' : (forEachTagLive host pass exec d tags
          (s.log (Event.passBegin d))).state.trace = s.trace ++ Event.passBegin d :: evs := by
        rw [h1]; simp [State.log]
      cases h : forEachTagLive host pass exec d tags (s.log (Event.passBegin d)) with
      | done s1 =>
        rw [h] at h1'
        refine ⟨Event.passBegin d :: (evs ++ [Event.passEnd]), ?_, Or.inr ⟨_, rfl, ?_⟩⟩
        · have h3 : s1.trace = s.trace ++ Event.passBegin d :: evs := h1'
          show s1.trace ++ [Event.passEnd] = _
          rw [h3]; simp
        · intro e he
          rcases List.mem_append.mp he with h4 | h4
          · exact h2 e h4
          · rw [List.mem_singleton.mp h4]; trivial
      | threw e s1 =>
        rw [h] at h1'
        exact ⟨Event.passBegin d :: evs, h1', Or.inr ⟨_, rfl, h2⟩⟩
      | fuelOut s1 =>
        rw [h] at h1'
        exact ⟨Event.passBegin d :: evs, h1', Or.inr ⟨_, rfl, h2⟩⟩

/-- With live payloads and any budget, a pass on the event data of a callback
record or of an entry made by a payload, and a call of `executeTag`, only begin
passes of these two kinds. -/
theorem live_engine (host : Host) (fuel : Nat) :
    (∀ d, CallbackData d ∨ PayloadData host d →
        ∀ s, Extends (LivePass host) s ((engineLive host fuel).1 d s).state)
      ∧ ∀ tag d s, Extends (LivePass host) s ((engineLive host fuel).2 tag d s).state := by
  induction fuel with
  | zero => exact ⟨fun d _ s => Extends.same _ _, fun tag d s => Extends.same _ _⟩
  | succ n ih =>
    obtain ⟨ih1, ih2⟩ := ih
    refine ⟨?_, fun tag d s => live_executeTag host _ _ ih1 ih2 tag d s⟩
    intro d hd s
    obtain ⟨evs, h1, h2⟩ := live_processTagsWith host _ _ ih1 ih2 d s
    refine ⟨evs, h1, ?_⟩
    rcases h2 with rfl | ⟨rest, rfl, h3⟩
    · intro e he; cases he
    · intro e he
      rcases List.mem_cons.mp he with rfl | h4
      · exact hd
      · exact h3 e h4

/-- The passes begun among entries that only begin passes of callback records
and of entries made by payloads. -/
theorem passesBegun_live (host : Host) (evs : List Event) (h : ∀ e ∈ evs, LivePass host e) :
    ∀ d ∈ passesBegun evs, CallbackData d ∨ PayloadData host d := by
  induction evs with
  | nil => intro d hd; cases hd
  | cons e rest ih =>
    have ih' := ih (fun e1 h1 => h e1 (List.mem_cons_of_mem _ h1))
    have he := h e (List.mem_cons_self _ _)
    cases e <;> simp only [passesBegun] <;> try exact ih'
    intro d hd
    rcases List.mem_cons.mp hd with rfl | hd
    · exact he
    · exact ih' d hd

/-- A pass with live payloads adds nothing to the trace, or the beginning of
the pass followed by entries that only begin passes of callback records and of
entries made by payloads. -/
theorem processTagsLive_nested (host : Host) (fuel : Nat) (d : Record) (s : State) :
    ∃ evs, (processTagsLive host fuel d s).state.trace = s.trace ++ evs
      ∧ (evs = [] ∨ ∃ rest, evs = Event.passBegin d :: rest
          ∧ ∀ d1 ∈ passesBegun rest, CallbackData d1 ∨ PayloadData host d1) := by
  cases fuel with
  | zero => exact ⟨[], by simp [processTagsLive, engineLive, Res.state], Or.inl rfl⟩
  | succ n =>
    obtain ⟨evs, h1, h2⟩ := live_processTagsWith host (engineLive host n).1
      (engineLive host n).2 (live_engine host n).1 (live_engine host n).2 d s
    refine ⟨evs, h1, ?_⟩
    rcases h2 with h3 | ⟨rest, h3, h4⟩
    · exact Or.inl h3
    · exact Or.inr ⟨rest, h3, passesBegun_live host rest h4⟩

/-- A quiet host has no payload that enters the engine. -/
theorem payloadData_quiet (host : Host) (hq : host.quiet) (d : Record) : ¬ PayloadData host d := by
  rintro ⟨s, effect, c, hc, -⟩
  rw [hq s effect] at hc
  cases hc

/-! ## Nested passes and the entries into the engine -/

/-- The push of the push-once tag's payload is an entry made by a payload of the
live host, and it starts the pass of the event `e`. -/
theorem payloadData_liveHost : PayloadData liveHost pushedData :=
  ⟨State.initial, Effect.custom (JSVal.str pushOnceCode) [],
    Call.push [Item.record pushedData],
    Payload.Calls.here _ _,
    Item.record pushedData, List.mem_singleton.mpr rfl, JSVal.str "e", rfl, rfl, rfl, rfl⟩

/-- Counterexample to C29 as stated: no tag of the configuration defines
`onSuccess` or `onError`, and the pageview pass starts a nested pass and calls
`executeTag` twice on its one tag. The code of the push-once tag calls
`window.dataLayer.push` with the event `e`; the enhanced push runs the pass of
`e` at once, inside the handler of the tag, and that pass calls `executeTag` on
the tag again. -/
theorem payload_push_starts_nested_pass_counterexample :
    pushOnceTag.onSuccess = false ∧ pushOnceTag.onError = false
      ∧ passMarks (processTagsLive liveHost 2 pageviewData
          (State.loadedWith (sampleConfig [pushOnceTag]))).state.trace
        = [some pageviewData, some pushedData, none, none]
      ∧ calledTags (processTagsLive liveHost 2 pageviewData
          (State.loadedWith (sampleConfig [pushOnceTag]))).state.trace
        = [pushOnceTag, pushOnceTag] := by
  decide

/-- Claim C29, amended. On a host whose payloads do not enter the engine, in a
loaded configuration in which no tag defines `onSuccess` or `onError`, one
`processTags` pass returns or throws without using any budget for nested passes
(the budget 1 of the pass itself is enough, and a larger budget gives the same
result), the trace it adds starts with the beginning of the pass and holds no
other beginning of a pass, and the calls of `executeTag` in it are a sublist of
the configured tags, in configuration order: at most one call per configured
tag. On any host, with any configuration, a pass starts another pass only
through an entry into the engine made while it runs: every pass begun inside a
pass is the pass of a `ctm.tagFired` or `ctm.tagError` record pushed by
`executeTag`, or a pass started by the payload of a tag, through a call of
`window.dataLayer.push` or `ctm.trigger` or the dispatch of `DOMContentLoaded`
or `load`. -/
theorem quiet_plain_pass_terminates_without_nested_pass (host : Host) (hq : host.quiet)
    (config : Config) (tags : List Tag) (d : Record) (s : State) (hs : s.config = some config)
    (hc : config.tags = some tags) (hp : ∀ t ∈ tags, t.plain) :
    (∀ fuel, processTagsLive host (fuel + 1) d s = processTagsLive host 1 d s)
      ∧ (∀ s1, processTagsLive host 1 d s ≠ Res.fuelOut s1)
      ∧ (∃ evs, (processTagsLive host 1 d s).state.trace = s.trace ++ Event.passBegin d :: evs
          ∧ passesBegun evs = [] ∧ (calledTags evs).Sublist tags)
      ∧ ∀ (anyHost : Host) (fuel : Nat) (d0 : Record) (s0 : State),
          ∃ evs, (processTagsLive anyHost fuel d0 s0).state.trace = s0.trace ++ evs
            ∧ (evs = [] ∨ ∃ rest, evs = Event.passBegin d0 :: rest
                ∧ ∀ d1 ∈ passesBegun rest, CallbackData d1 ∨ PayloadData anyHost d1) := by
  obtain ⟨h1, h2, h3, -⟩ :=
    plain_pass_terminates_without_nested_pass host.env config tags d s hs hc hp
  simp only [processTagsLive_quiet host hq]
  exact ⟨h1, h2, h3, fun anyHost fuel d0 s0 => processTagsLive_nested anyHost fuel d0 s0⟩

/-- Witness for the amended C29: a pageview pass over a tag whose code throws, a
script tag and a tag on another event, on the sample page with its payloads. -/
theorem quiet_plain_pass_terminates_without_nested_pass_witness :
    sampleEnv.toHost.quiet
      ∧ (∀ fuel, processTagsLive sampleEnv.toHost (fuel + 1) pageviewData
            (State.loadedWith (sampleConfig [throwingTag, scriptTag, purchaseTag]))
          = processTagsLive sampleEnv.toHost 1 pageviewData
            (State.loadedWith (sampleConfig [throwingTag, scriptTag, purchaseTag])))
      ∧ calledTags (processTagsLive sampleEnv.toHost 1 pageviewData
            (State.loadedWith (sampleConfig [throwingTag, scriptTag, purchaseTag]))).state.trace
          = [throwingTag, scriptTag]
      ∧ passesBegun (processTagsLive sampleEnv.toHost 1 pageviewData
            (State.loadedWith (sampleConfig [throwingTag, scriptTag, purchaseTag]))).state.trace
          = [pageviewData] :=
  ⟨toHost_quiet sampleEnv,
    (quiet_plain_pass_terminates_without_nested_pass sampleEnv.toHost (toHost_quiet sampleEnv)
      (sampleConfig [throwingTag, scriptTag, purchaseTag]) [throwingTag, scriptTag, purchaseTag]
      pageviewData (State.loadedWith (sampleConfig [throwingTag, scriptTag, purchaseTag])) rfl rfl
      (by decide)).1,
    by decide, by decide⟩

/-- Claim C25, amended. Passes nest, and only through the entries into the
engine that are made while a pass runs. On any host, every pass that begins
inside a pass, at any depth, is the pass of a `ctm.tagFired` or `ctm.tagError`
record pushed by `executeTag`, or a pass started by the payload of a tag,
through a call of `window.dataLayer.push` or `ctm.trigger` or the dispatch of
`DOMContentLoaded` or `load`: the trace that a pass adds is empty (no
configuration, or no budget) or starts with its own beginning, and every later
beginning of a pass in it is of one of these two kinds. On a host whose
payloads do not enter the engine, when no tag of the configuration and no bound listener defines `onSuccess` or
`onError`, passes do not nest at all: whatever the action (a pass, a push of any
records, a trigger call, a click), each pass it begins ends, or is left by an
exception that ends the action, before the next one begins. -/
theorem passes_nest_only_through_entries_into_the_engine (host : Host) (fuel : Nat) :
    (∀ d s, ∃ evs, (processTagsLive host fuel d s).state.trace = s.trace ++ evs
        ∧ (evs = [] ∨ ∃ rest, evs = Event.passBegin d :: rest
            ∧ ∀ d1 ∈ passesBegun rest, CallbackData d1 ∨ PayloadData host d1))
      ∧ (host.quiet →
          ∀ (config : Config) (tags : List Tag) (action : Action) (s : State),
            s.config = some config → config.tags = some tags → (∀ t ∈ tags, t.plain) →
            (∀ l ∈ s.listeners, l.tag.plain) →
            ∃ evs, (stepLive host fuel action s).state.trace = s.trace ++ evs
              ∧ Sequential (passMarks evs)) := by
  refine ⟨fun d s => processTagsLive_nested host fuel d s, ?_⟩
  intro hq config tags action s hs hc hp hl
  rw [stepLive_quiet host hq]
  exact (passes_nest_only_through_callbacks host.env fuel).2 config tags action s hs hc hp hl

/-- Witness for the amended C25: on the sample page with its payloads, pushing
the purchase record twice in one call runs two passes over the purchase tag, the
second after the first has ended; on the live host the pass of the event `e`
that the payload of the push-once tag starts lies inside the pageview pass. -/
theorem passes_nest_only_through_entries_into_the_engine_witness :
    (∃ evs, (stepLive sampleEnv.toHost 1
          (Action.push [Item.record purchaseRecord, Item.record purchaseRecord])
          (State.loadedWith (sampleConfig [purchaseTag]))).state.trace
        = (State.loadedWith (sampleConfig [purchaseTag])).trace ++ evs
        ∧ Sequential (passMarks evs))
      ∧ passMarks (stepLive sampleEnv.toHost 1
          (Action.push [Item.record purchaseRecord, Item.record purchaseRecord])
          (State.loadedWith (sampleConfig [purchaseTag]))).state.trace
        = [some purchaseRecord, none, some purchaseRecord, none]
      ∧ passMarks (processTagsLive liveHost 2 pageviewData
          (State.loadedWith (sampleConfig [pushOnceTag]))).state.trace
        = [some pageviewData, some pushedData, none, none] :=
  ⟨(passes_nest_only_through_entries_into_the_engine sampleEnv.toHost 1).2 (toHost_quiet sampleEnv)
      (sampleConfig [purchaseTag]) [purchaseTag]
      (Action.push [Item.record purchaseRecord, Item.record purchaseRecord])
      (State.loadedWith (sampleConfig [purchaseTag])) rfl rfl (by decide) (by decide),
    by decide, by decide⟩

end CTM
